import Mathlib

/-!
OpenRemoteSlide: TIFF handle pool, tile decoding and remote byte source

A shallow embedding of `src/src/openremoteslide-decode-tiff.c`, of
`src/src/openremoteslide-hash.c` and, from `src/src/openremoteslide-util.c`, of
the tile clipping helper and of the `urlio_*` functions on remote byte sources
and their registry, followed by the properties proved about them.

Conventions of the embedding

* A `TIFF *` is a value of an arbitrary handle type; a nullable pointer is an
  `Option`, `none` being `NULL`.
* Results of library calls the C code cannot influence (libtiff, libjpeg,
  cairo, the byte source) are parameters of the embedded function.
* `int64_t` quantities are `Int`; the narrowing to `int32_t` and the 32-bit
  pixel arithmetic are written out with explicit wrap-around.
* The network is a record of functions (`NetEnv`) that give the state of a
  transfer after the libcurl calls made on it; bytes are `Nat`, buffers are
  lists, and a `URLIO_FILE` that has been freed is `none`.
-/

namespace OpenRemoteSlide

/-! ## Part 1: definitions -/

/-! ### TIFF handle pool (`struct _openremoteslide_tiffcache`) -/

/-- The constant `HANDLE_CACHE_MAX` of openremoteslide-decode-tiff.c. -/
def HANDLE_CACHE_MAX : Nat := 32

/-- The pool `struct _openremoteslide_tiffcache`: `cache` is the GQueue of
idle handles, head first; `outstanding` is the C `int` counter (handle
addresses are distinct live objects, so the counter stays far from the `int`
limits and is an unbounded integer here).  The fields `filename` and `lock`
are never changed by the pool operations and are left out. -/
structure Tiffcache (α : Type) where
  cache : List α
  outstanding : Int
deriving DecidableEq, Repr

/-- The pool made by `_openremoteslide_tiffcache_create`: `g_slice_new0` zeroes
`outstanding` and `g_queue_new` gives an empty queue. -/
def _openremoteslide_tiffcache_create {α : Type} : Tiffcache α :=
  { cache := [], outstanding := 0 }

/-- First critical section of `_openremoteslide_tiffcache_get`:
`tc->outstanding++; tiff = g_queue_pop_head(tc->cache);` under the lock.
`g_queue_pop_head` yields `NULL` on an empty queue. -/
def tiffcache_get_locked {α : Type} (tc : Tiffcache α) : Tiffcache α × Option α :=
  match tc.cache with
  | [] => ({ cache := [], outstanding := tc.outstanding + 1 }, none)
  | h :: rest => ({ cache := rest, outstanding := tc.outstanding + 1 }, some h)

/-- Second critical section of `_openremoteslide_tiffcache_get`, entered when
`tiff_open` returned `NULL`: `tc->outstanding--` under the lock. -/
def tiffcache_get_failed {α : Type} (tc : Tiffcache α) : Tiffcache α :=
  { tc with outstanding := tc.outstanding - 1 }

/-- The function `_openremoteslide_tiffcache_get`.  `opened` is what
`tiff_open(tc, err)` returns if it is called (it is called only when the
queue was empty).  Returns the new pool and the `TIFF *` result. -/
def _openremoteslide_tiffcache_get {α : Type} (tc : Tiffcache α) (opened : Option α) :
    Tiffcache α × Option α :=
  let r := tiffcache_get_locked tc
  let tiff := match r.2 with
    | some h => some h
    | none => opened
  match tiff with
  | none => (tiffcache_get_failed r.1, none)
  | some h => (r.1, some h)

/-- The function `_openremoteslide_tiffcache_put`.  The result is `none` when
`g_assert(tc->outstanding)` fails (the process aborts); otherwise the new pool
together with the handle passed to `TIFFClose`, if any. -/
def _openremoteslide_tiffcache_put {α : Type} (tc : Tiffcache α) (tiff : Option α) :
    Option (Tiffcache α × Option α) :=
  match tiff with
  | none => some (tc, none)
  | some h =>
    if tc.outstanding = 0 then none
    else
      let tc1 : Tiffcache α := { tc with outstanding := tc.outstanding - 1 }
      if tc1.cache.length < HANDLE_CACHE_MAX then
        some ({ tc1 with cache := h :: tc1.cache }, none)
      else
        some (tc1, some h)

/-- The loop `while ((tiff = g_queue_pop_head(tc->cache)) != NULL) TIFFClose(tiff);`
of `_openremoteslide_tiffcache_destroy`: returns the queue left over and the
handles closed, in closing order. -/
def tiffcache_destroy_loop {α : Type} : List α → List α → List α × List α
  | [], closed => ([], closed)
  | h :: rest, closed => tiffcache_destroy_loop rest (closed ++ [h])

/-- The function `_openremoteslide_tiffcache_destroy` on a non-NULL pool: drains
the idle queue, then `g_assert(tc->outstanding == 0)`.  `none` is the failed
assertion; otherwise the final queue and the closed handles. -/
def _openremoteslide_tiffcache_destroy {α : Type} (tc : Tiffcache α) :
    Option (List α × List α) :=
  let r := tiffcache_destroy_loop tc.cache []
  if tc.outstanding = 0 then some r else none

/-- One call on the pool: a checkout (with the result `tiff_open` would give)
or a return of a possibly NULL handle. -/
inductive PoolCall (α : Type) where
  | get (opened : Option α)
  | put (tiff : Option α)
deriving DecidableEq, Repr

/-- Effect of one call on the pool; `none` when the call aborts. -/
def poolCall {α : Type} (tc : Tiffcache α) : PoolCall α → Option (Tiffcache α)
  | .get opened => some (_openremoteslide_tiffcache_get tc opened).1
  | .put tiff => (_openremoteslide_tiffcache_put tc tiff).map Prod.fst

/-- Effect of a sequence of calls, left to right. -/
def runCalls {α : Type} : List (PoolCall α) → Tiffcache α → Option (Tiffcache α)
  | [], tc => some tc
  | c :: cs, tc =>
    match poolCall tc c with
    | none => none
    | some tc1 => runCalls cs tc1

/-- The pool together with the handles that callers have checked out and not
yet returned (`held` is bookkeeping of the callers, not a field of the C
struct). -/
structure PoolSys (α : Type) where
  tc : Tiffcache α
  held : List α
deriving DecidableEq, Repr

/-- The system right after `_openremoteslide_tiffcache_create`: nothing is
checked out. -/
def PoolSys.init {α : Type} : PoolSys α :=
  { tc := _openremoteslide_tiffcache_create, held := [] }

/-- One call by a well-behaved caller: a checkout adds the handle obtained to
`held`; a return is legal only for a handle in `held` (or for `NULL`, which
`_openremoteslide_tiffcache_put` ignores).  `none` when the call is not legal
or aborts. -/
def sysCall {α : Type} [DecidableEq α] (s : PoolSys α) : PoolCall α → Option (PoolSys α)
  | .get opened =>
    let r := _openremoteslide_tiffcache_get s.tc opened
    match r.2 with
    | some h => some { tc := r.1, held := h :: s.held }
    | none => some { tc := r.1, held := s.held }
  | .put none =>
    match _openremoteslide_tiffcache_put s.tc none with
    | some r => some { tc := r.1, held := s.held }
    | none => none
  | .put (some h) =>
    if h ∈ s.held then
      match _openremoteslide_tiffcache_put s.tc (some h) with
      | some r => some { tc := r.1, held := s.held.erase h }
      | none => none
    else none

/-- Effect of a sequence of calls by well-behaved callers. -/
def runSys {α : Type} [DecidableEq α] : List (PoolCall α) → PoolSys α → Option (PoolSys α)
  | [], s => some s
  | c :: cs, s =>
    match sysCall s c with
    | none => none
    | some s1 => runSys cs s1

/-- The pool operations do not look inside a handle, so they can be run on
handles tagged with the time (index of the call) at which the handle was
returned: call number `t` of a run returns `h` as `(h, t)`.  A handle just
opened by `tiff_open` is tagged with the current time as well; that tag is
replaced when the handle is returned. -/
def stampedCall {α : Type} (t : Nat) (tc : Tiffcache (α × Nat)) :
    PoolCall α → Option (Tiffcache (α × Nat))
  | .get opened =>
    some (_openremoteslide_tiffcache_get tc (opened.map (fun h => (h, t)))).1
  | .put tiff =>
    (_openremoteslide_tiffcache_put tc (tiff.map (fun h => (h, t)))).map Prod.fst

/-- Effect of a sequence of calls on the time-tagged pool, the first call
being number `t`. -/
def runStamped {α : Type} :
    List (PoolCall α) → Nat → Tiffcache (α × Nat) → Option (Tiffcache (α × Nat))
  | [], _, tc => some tc
  | c :: cs, t, tc =>
    match stampedCall t tc c with
    | none => none
    | some tc1 => runStamped cs (t + 1) tc1

/-- Forgets the time tags of a pool. -/
def unstamp {α : Type} (tc : Tiffcache (α × Nat)) : Tiffcache α :=
  { cache := tc.cache.map Prod.fst, outstanding := tc.outstanding }

/-- The idle queue of a time-tagged pool is in strictly decreasing order of
return time, and every tag is older than the clock `t`. -/
def StampsDecreasing {α : Type} (t : Nat) (tc : Tiffcache (α × Nat)) : Prop :=
  tc.cache.Pairwise (fun p q => q.2 < p.2) ∧ ∀ p ∈ tc.cache, p.2 < t

/-- One atomic step of a caller (a thread) on a shared pool.  A checkout is
two steps when the queue is empty, because `tiff_open` runs outside the lock:
`getLocked` is the first critical section of `_openremoteslide_tiffcache_get`,
`opened` is the return of `tiff_open` to that caller (followed, on `NULL`, by
the second critical section).  `put` is the critical section of
`_openremoteslide_tiffcache_put` for a non-NULL handle. -/
inductive PoolStep where
  | getLocked (caller : Nat)
  | opened (caller : Nat) (tiff : Option Nat)
  | put (caller : Nat) (tiff : Nat)
deriving DecidableEq, Repr

/-- A pool shared by several callers: `held` lists who holds which handle,
`opening` lists the callers that are inside `tiff_open`. -/
structure PoolWorld where
  tc : Tiffcache Nat
  held : List (Nat × Nat)
  opening : List Nat
deriving DecidableEq, Repr

/-- The shared pool right after `_openremoteslide_tiffcache_create`. -/
def PoolWorld.init : PoolWorld :=
  { tc := _openremoteslide_tiffcache_create, held := [], opening := [] }

/-- The handles currently checked out. -/
def PoolWorld.heldHandles (w : PoolWorld) : List Nat :=
  w.held.map Prod.snd

/-- Effect of one atomic step.  A step is enabled (`some`) only if the caller
is where the step says: `opened` needs the caller to be inside `tiff_open`, a
handle just opened is fresh (neither idle nor held), and `put` gives back a
handle the caller holds. -/
def poolStep (w : PoolWorld) : PoolStep → Option PoolWorld
  | .getLocked c =>
    let r := tiffcache_get_locked w.tc
    match r.2 with
    | some h => some { tc := r.1, held := (c, h) :: w.held, opening := w.opening }
    | none => some { tc := r.1, held := w.held, opening := c :: w.opening }
  | .opened c none =>
    if c ∈ w.opening then
      some { tc := tiffcache_get_failed w.tc, held := w.held, opening := w.opening.erase c }
    else none
  | .opened c (some h) =>
    if c ∈ w.opening ∧ h ∉ w.tc.cache ∧ h ∉ w.heldHandles then
      some { tc := w.tc, held := (c, h) :: w.held, opening := w.opening.erase c }
    else none
  | .put c h =>
    if (c, h) ∈ w.held then
      match _openremoteslide_tiffcache_put w.tc (some h) with
      | some r => some { tc := r.1, held := w.held.erase (c, h), opening := w.opening }
      | none => none
    else none

/-- The handle a step hands to its caller, if any. -/
def poolStepAcquires (w : PoolWorld) : PoolStep → Option Nat
  | .getLocked _ => (tiffcache_get_locked w.tc).2
  | .opened _ tiff => tiff
  | .put _ _ => none

/-- Effect of an interleaving, given as the sequence of atomic steps. -/
def runSteps : List PoolStep → PoolWorld → Option PoolWorld
  | [], w => some w
  | st :: sts, w =>
    match poolStep w st with
    | none => none
    | some w1 => runSteps sts w1

/-- Every handle is in one place only: the handles checked out followed by
the idle queue form a list without repetition. -/
def PoolWorld.Exclusive (w : PoolWorld) : Prop :=
  (w.heldHandles ++ w.tc.cache).Nodup

/-! ### Opening a TIFF (`tiff_open`) -/

/-- The ways `tiff_open` fails, one per error message of the C function. -/
inductive TiffOpenError where
  /-- `_openremoteslide_fopen` returned `NULL` (it sets its own error). -/
  | fopen_failed
  /-- The message "Couldn't read TIFF magic number for %s". -/
  | cannot_read_magic
  /-- The message "Couldn't seek to end of %s". -/
  | seek_failed
  /-- The message "Couldn't urlio_ftell() for %s". -/
  | ftell_failed
  /-- The message "Not a TIFF file: %s" (label `NOT_TIFF`). -/
  | not_tiff
  /-- The message "BigTIFF support requires libtiff >= 4". -/
  | bigtiff_unsupported
  /-- The message "Invalid TIFF: %s", after `TIFFClientOpen` returned `NULL`. -/
  | invalid_tiff
deriving DecidableEq, Repr

/-- What the byte source and libtiff answer to `tiff_open`:
`fopen_ok`: `_openremoteslide_fopen` returned a file;
`magic`: the bytes `buf[0..3]` when `urlio_fread(buf, 4, 1, f)` returned 1;
`seek_end`: the value of `urlio_fseek(f, 0, SEEK_END)`;
`ftell`: the value of `urlio_ftell(f)`;
`sizeof_toff_t`: `sizeof(toff_t)` of the libtiff in use;
`client_open`: the result `TIFFClientOpen` gives if it is called. -/
structure TiffOpenEnv (α : Type) where
  fopen_ok : Bool
  magic : Option (Nat × Nat × Nat × Nat)
  seek_end : Int
  ftell : Int
  sizeof_toff_t : Nat
  client_open : Option α

/-- Result of `tiff_open`: the `TIFF *` returned, the error set, whether
`TIFFClientOpen` was called, and the `hdl->size` given to it. -/
structure TiffOpenResult (α : Type) where
  tiff : Option α
  err : Option TiffOpenError
  client_open_called : Bool
  size : Option Int
deriving DecidableEq, Repr

/-- Failure of `tiff_open` before `TIFFClientOpen`: returns `NULL` with `e`. -/
def TiffOpenResult.fail {α : Type} (e : TiffOpenError) : TiffOpenResult α :=
  { tiff := none, err := some e, client_open_called := false, size := none }

/-- The function `tiff_open`.  `version` is a `uint16_t`, hence the reduction
modulo 65536 of the `int` expression `(buf[2] << 8) | buf[3]`. -/
def tiff_open {α : Type} (env : TiffOpenEnv α) : TiffOpenResult α :=
  if env.fopen_ok = false then TiffOpenResult.fail .fopen_failed
  else
    match env.magic with
    | none => TiffOpenResult.fail .cannot_read_magic
    | some (b0, b1, b2, b3) =>
      if env.seek_end = -1 then TiffOpenResult.fail .seek_failed
      else if env.ftell = -1 then TiffOpenResult.fail .ftell_failed
      else if b0 ≠ b1 then TiffOpenResult.fail .not_tiff
      else
        let version? : Option Nat :=
          if b0 = 'M'.toNat then some (((b2 <<< 8) ||| b3) % 65536)
          else if b0 = 'I'.toNat then some (((b3 <<< 8) ||| b2) % 65536)
          else none
        match version? with
        | none => TiffOpenResult.fail .not_tiff
        | some version =>
          if version ≠ 42 ∧ version ≠ 43 then TiffOpenResult.fail .not_tiff
          else if version = 43 ∧ env.sizeof_toff_t = 4 then
            TiffOpenResult.fail .bigtiff_unsupported
          else
            match env.client_open with
            | some tiff =>
              { tiff := some tiff, err := none, client_open_called := true,
                size := some env.ftell }
            | none =>
              { tiff := none, err := some .invalid_tiff, client_open_called := true,
                size := some env.ftell }

/-- The byte source and libtiff answering a readable file that starts with the
bytes `b0 b1 b2 b3`. -/
def TiffOpenEnv.ofMagic {α : Type} (b0 b1 b2 b3 : Nat) (size : Int) (sizeof_toff_t : Nat)
    (client_open : Option α) : TiffOpenEnv α :=
  { fopen_ok := true, magic := some (b0, b1, b2, b3), seek_end := 0, ftell := size,
    sizeof_toff_t := sizeof_toff_t, client_open := client_open }

/-- The acceptance condition on the magic bytes as the specification words it:
both byte-order marks equal and 'I' or 'M', the 16-bit version read in that
byte order is 42 or 43, and 43 only with a 64-bit (8-byte) offset type. -/
def SpecMagicAccepted (b0 b1 b2 b3 sizeof_toff_t : Nat) : Prop :=
  b0 = b1 ∧
  ((b0 = 'M'.toNat ∧ (b2 * 256 + b3 = 42 ∨ (b2 * 256 + b3 = 43 ∧ sizeof_toff_t = 8))) ∨
   (b0 = 'I'.toNat ∧ (b3 * 256 + b2 = 42 ∨ (b3 * 256 + b2 = 43 ∧ sizeof_toff_t = 8))))

instance SpecMagicAccepted.decidable (b0 b1 b2 b3 sizeof_toff_t : Nat) :
    Decidable (SpecMagicAccepted b0 b1 b2 b3 sizeof_toff_t) := by
  unfold SpecMagicAccepted
  exact inferInstance

/-! ### TIFF directories and level descriptors (`_openremoteslide_tiff_level_init`) -/

/-- The tag values of one TIFF directory as `TIFFGetField` reports them; `none`
is a tag `TIFFGetField` cannot get (it returns 0).  Widths and lengths are
`uint32_t`, the others `uint16_t`.  `jpegtables` is the content of
`TIFFTAG_JPEGTABLES`, `tile_byte_counts` the array of `TIFFTAG_TILEBYTECOUNTS`. -/
structure TiffDirTags where
  tile_width : Option Nat
  tile_length : Option Nat
  image_width : Option Nat
  image_length : Option Nat
  compression : Option Nat
  planar_config : Option Nat
  photometric : Option Nat
  bits_per_sample : Option Nat
  samples_per_pixel : Option Nat
  jpegtables : Option (List Nat) := none
  tile_byte_counts : Option (List Nat) := none
deriving DecidableEq, Repr

/-- A libtiff handle as the decoder sees it: the index of the current
directory (`TIFFCurrentDirectory`), the tag values `TIFFGetField` reports, and
the directories of the file with the tag values stored in them. -/
structure Tiff where
  cur : Nat
  tags : TiffDirTags
  dirs : List TiffDirTags
deriving DecidableEq, Repr

/-- The libtiff call `TIFFSetDirectory(tiff, dir)`: the handle afterwards and
whether the return value is not 0.  Switching to an index outside `dirs` fails
and leaves the handle as it was.  Switching to a directory with a tile width or
tile length of 0 fails too, `TIFFReadDirectory` refusing it ("Cannot handle
zero number of tiles"); but the refusal comes after the directory has been made
the current one and its tags have been stored, so the handle is left positioned
on it. -/
def TIFFSetDirectory (tiff : Tiff) (dir : Nat) : Tiff × Bool :=
  match tiff.dirs.get? dir with
  | some t =>
    if t.tile_width = some 0 ∨ t.tile_length = some 0
    then ({ tiff with cur := dir, tags := t }, false)
    else ({ tiff with cur := dir, tags := t }, true)
  | none => (tiff, false)

/-- The function `_openremoteslide_tiff_set_dir`: the handle afterwards and the
`bool` returned ("Cannot set TIFF directory %d" on `false`). -/
def _openremoteslide_tiff_set_dir (tiff : Tiff) (dir : Nat) : Tiff × Bool :=
  if dir = tiff.cur then (tiff, true)
  else TIFFSetDirectory tiff dir

/-- The libtiff constant `COMPRESSION_JPEG` (tiff.h). -/
def COMPRESSION_JPEG : Nat := 7
/-- The libtiff constant `PLANARCONFIG_CONTIG` (tiff.h). -/
def PLANARCONFIG_CONTIG : Nat := 1
/-- The libtiff constant `PHOTOMETRIC_RGB` (tiff.h). -/
def PHOTOMETRIC_RGB : Nat := 2
/-- The libtiff constant `PHOTOMETRIC_YCBCR` (tiff.h). -/
def PHOTOMETRIC_YCBCR : Nat := 6

/-- The libtiff tag numbers used by `GET_FIELD_OR_FAIL` (tiff.h). -/
def TIFFTAG_IMAGEWIDTH : Nat := 256
/-- See `TIFFTAG_IMAGEWIDTH`. -/
def TIFFTAG_IMAGELENGTH : Nat := 257
/-- See `TIFFTAG_IMAGEWIDTH`. -/
def TIFFTAG_BITSPERSAMPLE : Nat := 258
/-- See `TIFFTAG_IMAGEWIDTH`. -/
def TIFFTAG_COMPRESSION : Nat := 259
/-- See `TIFFTAG_IMAGEWIDTH`. -/
def TIFFTAG_PHOTOMETRIC : Nat := 262
/-- See `TIFFTAG_IMAGEWIDTH`. -/
def TIFFTAG_SAMPLESPERPIXEL : Nat := 277
/-- See `TIFFTAG_IMAGEWIDTH`. -/
def TIFFTAG_PLANARCONFIG : Nat := 284
/-- See `TIFFTAG_IMAGEWIDTH`. -/
def TIFFTAG_TILEWIDTH : Nat := 322
/-- See `TIFFTAG_IMAGEWIDTH`. -/
def TIFFTAG_TILELENGTH : Nat := 323

/-- The level descriptor `struct _openremoteslide_tiff_level`. -/
structure TiffLevel where
  dir : Nat
  image_w : Int
  image_h : Int
  tile_w : Int
  tile_h : Int
  tiles_across : Int
  tiles_down : Int
  tile_read_direct : Bool
  warned_read_indirect : Int
  photometric : Nat
deriving DecidableEq, Repr

/-- The fields of `struct _openremoteslide_level` that
`_openremoteslide_tiff_level_init` writes. -/
structure Level where
  w : Int
  h : Int
  tile_w : Int
  tile_h : Int
deriving DecidableEq, Repr

/-- Outcome of `_openremoteslide_tiff_level_init`:
`set_dir_failed`: `SET_DIR_OR_FAIL` returned `false`;
`missing_tag t`: `GET_FIELD_OR_FAIL` returned `false` with "Cannot get required
TIFF tag: t";
`undefined`: the C code evaluates a division or remainder by zero, whose result
the C language leaves open;
`ok`: returned `true`, with the handle and the two output structs afterwards. -/
inductive LevelInitResult where
  | set_dir_failed
  | missing_tag (tag : Nat)
  | undefined
  | ok (tiff : Tiff) (level : Option Level) (tiffl : Option TiffLevel)
deriving DecidableEq, Repr

/-- The macro `GET_FIELD_OR_FAIL` inside `_openremoteslide_tiff_level_init`:
continue with the value, or fail naming the tag. -/
def getFieldOrFail (field : Option Nat) (tag : Nat) (k : Nat → LevelInitResult) :
    LevelInitResult :=
  match field with
  | none => .missing_tag tag
  | some v => k v

/-- The C expression `(a / b) + !!(a % b)` on `int64_t`, for `b` not zero
(`/` and `%` truncate toward zero). -/
def divRoundUp (a b : Int) : Int :=
  Int.tdiv a b + (if Int.tmod a b ≠ 0 then 1 else 0)

/-- The function `_openremoteslide_tiff_level_init`.  `level` and `tiffl` are
the two output pointers (`none` is `NULL`), holding the structs' previous
contents. -/
def _openremoteslide_tiff_level_init (tiff : Tiff) (dir : Nat) (level : Option Level)
    (tiffl : Option TiffLevel) : LevelInitResult :=
  let sd := _openremoteslide_tiff_set_dir tiff dir
  if sd.2 = false then .set_dir_failed
  else
    let tiff := sd.1
    getFieldOrFail tiff.tags.tile_width TIFFTAG_TILEWIDTH fun tw =>
    getFieldOrFail tiff.tags.tile_length TIFFTAG_TILELENGTH fun th =>
    getFieldOrFail tiff.tags.image_width TIFFTAG_IMAGEWIDTH fun iw =>
    getFieldOrFail tiff.tags.image_length TIFFTAG_IMAGELENGTH fun ih =>
    getFieldOrFail tiff.tags.compression TIFFTAG_COMPRESSION fun compression =>
    getFieldOrFail tiff.tags.planar_config TIFFTAG_PLANARCONFIG fun planar_config =>
    getFieldOrFail tiff.tags.photometric TIFFTAG_PHOTOMETRIC fun photometric =>
    getFieldOrFail tiff.tags.bits_per_sample TIFFTAG_BITSPERSAMPLE fun bits_per_sample =>
    getFieldOrFail tiff.tags.samples_per_pixel TIFFTAG_SAMPLESPERPIXEL fun samples_per_pixel =>
    let read_direct : Bool :=
      compression = COMPRESSION_JPEG &&
      planar_config = PLANARCONFIG_CONTIG &&
      (photometric = PHOTOMETRIC_RGB || photometric = PHOTOMETRIC_YCBCR) &&
      bits_per_sample = 8 &&
      samples_per_pixel = 3
    let level1 : Option Level :=
      match level with
      | none => none
      | some _ => some { w := iw, h := ih, tile_w := tw, tile_h := th }
    match tiffl with
    | none => .ok tiff level1 none
    | some tl =>
      if tw = 0 ∨ th = 0 then .undefined
      else
        .ok tiff level1 (some
          { tl with
            dir := dir
            image_w := iw
            image_h := ih
            tile_w := tw
            tile_h := th
            tiles_across := divRoundUp iw tw
            tiles_down := divRoundUp ih th
            tile_read_direct := read_direct
            photometric := photometric })

/-- A directory of a tiled 300 x 200 image with 256 x 256 YCbCr JPEG tiles,
used as a concrete input. -/
def sampleTags : TiffDirTags :=
  { tile_width := some 256, tile_length := some 256, image_width := some 300,
    image_length := some 200, compression := some 7, planar_config := some 1,
    photometric := some 6, bits_per_sample := some 8, samples_per_pixel := some 3 }

/-- A handle positioned on directory 0 of a file whose only directory is
`sampleTags`. -/
def sampleTiff : Tiff :=
  { cur := 0, tags := sampleTags, dirs := [sampleTags] }

/-- A zero-filled level descriptor (`g_slice_new0`). -/
def zeroTiffLevel : TiffLevel :=
  { dir := 0, image_w := 0, image_h := 0, tile_w := 0, tile_h := 0, tiles_across := 0,
    tiles_down := 0, tile_read_direct := false, warned_read_indirect := 0, photometric := 0 }

/-! ### Clipping of boundary tiles (`_openremoteslide_clip_tile`) -/

/-- The integer that cairo keeps of an integral path coordinate `c`.  cairo
stores path points as `cairo_fixed_t`, a 32-bit two's complement number with 8
fraction bits (24.8 fixed point), and `_cairo_fixed_from_double` keeps the low
32 bits of `c * 256`; what is left of `c` is its two's complement wrap to 24
bits.  (This describes cairo for `|c| < 2^43`; the coordinates of this program
are differences of `uint32_t` tags and tile offsets.) -/
def cairo_fixed_coordinate (c : Int) : Int :=
  (c + 8388608) % 16777216 - 8388608

/-- The cairo sequence `cairo_set_operator(cr, CAIRO_OPERATOR_CLEAR);
cairo_rectangle(cr, x, y, width, height); cairo_fill(cr);` on an ARGB32 image
surface of `tile_w` x `tile_h` pixels laid over `data` with a stride of
`tile_w` pixels.  `cairo_rectangle` adds the corners `(x, y)` and
`(x + width, y + height)` to the path, each coordinate converted to 24.8 fixed
point (`cairo_fixed_coordinate`); the fill clears the box spanned by the
converted corners: every surface pixel inside it becomes 0, the others keep
their value.  The coordinates are integers, so a pixel is covered wholly or
not at all; a box whose second corner is left of (above) the first spans from
the second to the first.  Pixel number `k` of `data` is column `k % tile_w` of
row `k / tile_w`. -/
def cairo_clear_rectangle (tile_w tile_h : Int) (data : List Nat) (x y width height : Int) :
    List Nat :=
  let x0 := cairo_fixed_coordinate x
  let x1 := cairo_fixed_coordinate (x + width)
  let y0 := cairo_fixed_coordinate y
  let y1 := cairo_fixed_coordinate (y + height)
  data.mapIdx fun k p =>
    let col : Int := (k : Int) % tile_w
    let row : Int := (k : Int) / tile_w
    if 0 < tile_w ∧ row < tile_h ∧
        min x0 x1 ≤ col ∧ col < max x0 x1 ∧
        min y0 y1 ≤ row ∧ row < max y0 y1
    then 0 else p

/-- The function `_openremoteslide_clip_tile`.  `cairo_ok` is the result of
`_openremoteslide_check_cairo_status` if the cairo branch is taken.  `none` is
the return value `false` (the buffer is then whatever cairo left); `some d` is
the return value `true` with the tile buffer `d`. -/
def _openremoteslide_clip_tile (cairo_ok : Bool) (tiledata : List Nat)
    (tile_w tile_h clip_w clip_h : Int) : Option (List Nat) :=
  if clip_w ≥ tile_w ∧ clip_h ≥ tile_h then some tiledata
  else
    let d1 := cairo_clear_rectangle tile_w tile_h tiledata clip_w 0 (tile_w - clip_w) tile_h
    let d2 := cairo_clear_rectangle tile_w tile_h d1 0 clip_h tile_w (tile_h - clip_h)
    if cairo_ok then some d2 else none

/-- The function `_openremoteslide_tiff_clip_tile`.  The `int64_t` arithmetic is
exact: the sizes come from `uint32_t` tags and the tile indices are below the
tile counts. -/
def _openremoteslide_tiff_clip_tile (cairo_ok : Bool) (tiffl : TiffLevel)
    (tiledata : List Nat) (tile_col tile_row : Int) : Option (List Nat) :=
  _openremoteslide_clip_tile cairo_ok tiledata tiffl.tile_w tiffl.tile_h
    (tiffl.image_w - tile_col * tiffl.tile_w)
    (tiffl.image_h - tile_row * tiffl.tile_h)

/-- A level of a 7 x 5 image cut into 4 x 3 tiles (2 x 2 tiles), used as a
concrete input. -/
def sampleSmallLevel : TiffLevel :=
  { dir := 0, image_w := 7, image_h := 5, tile_w := 4, tile_h := 3, tiles_across := 2,
    tiles_down := 2, tile_read_direct := false, warned_read_indirect := 0, photometric := 2 }

/-- A level of an 8388608 x 5 image cut into 4 x 3 tiles (2097152 x 2 tiles),
used as a concrete input: the image is 2^23 pixels wide. -/
def sampleWideLevel : TiffLevel :=
  { dir := 0, image_w := 8388608, image_h := 5, tile_w := 4, tile_h := 3,
    tiles_across := 2097152, tiles_down := 2, tile_read_direct := false,
    warned_read_indirect := 0, photometric := 2 }

/-! ### Tile decoding (`_openremoteslide_tiff_read_tile`) -/

/-- Conversion of an integer to `int32_t` (two's complement wrap-around), as
when an `int64_t` is passed for an `int32_t` parameter. -/
def wrap32 (x : Int) : Int :=
  (x + 2147483648) % 4294967296 - 2147483648

/-- The glib macro `GUINT32_SWAP_LE_BE` (gtypes.h): the four bytes of a 32-bit
value in reverse order. -/
def GUINT32_SWAP_LE_BE (val : Nat) : Nat :=
  ((((val &&& 0x000000ff) <<< 24) ||| ((val &&& 0x0000ff00) <<< 8) |||
    ((val &&& 0x00ff0000) >>> 8) ||| ((val &&& 0xff000000) >>> 24))) % 4294967296

/-- The body of the pixel loop of `tiff_read_region`:
`uint32_t val = GUINT32_SWAP_LE_BE(*p); *p = (val << 24) | (val >> 8);`
with the `uint32_t` shift truncated to 32 bits. -/
def abgr_to_argb (p : Nat) : Nat :=
  let val := GUINT32_SWAP_LE_BE p
  ((val <<< 24) % 4294967296) ||| (val >>> 8)

/-- Rotation of a 32-bit value `x < 2^32` to the left by `n` bits, `n <= 32`,
written arithmetically: the low `32 - n` bits move up by `n`, the high `n` bits
wrap around to the bottom. -/
def rotl32 (x n : Nat) : Nat :=
  (x % 2 ^ (32 - n)) * 2 ^ n + x / 2 ^ (32 - n)

/-- Rotation of a 32-bit value `x < 2^32` to the right by `n` bits, `n <= 32`,
written arithmetically: the high `32 - n` bits move down by `n`, the low `n`
bits wrap around to the top. -/
def rotr32 (x n : Nat) : Nat :=
  x / 2 ^ n + (x % 2 ^ n) * 2 ^ (32 - n)

/-- The call `memset(dest, 0, nbytes)` on a buffer of 32-bit pixels, `nbytes`
being an `int` converted to `size_t` and a multiple of 4: the first
`nbytes / 4` pixels become 0 (the buffer is not written beyond its end
here). -/
def memset_zero (dest : List Nat) (nbytes : Int) : List Nat :=
  let n := (nbytes % 18446744073709551616).toNat / 4
  List.replicate (min n dest.length) 0 ++ dest.drop n

/-- The ways `_openremoteslide_tiff_read_tile` fails, one per error raised in
it or in the functions it calls. -/
inductive ReadTileError where
  /-- The message "Cannot set TIFF directory %d". -/
  | cannot_set_dir
  /-- The message "Cannot get tile size" (no `TIFFTAG_TILEBYTECOUNTS`). -/
  | cannot_get_tile_size
  /-- The message "Cannot read raw tile" (`TIFFReadRawTile` returned -1). -/
  | cannot_read_raw_tile
  /-- The message "Couldn't load JPEG tables". -/
  | jpeg_tables
  /-- The message "Couldn't read JPEG header". -/
  | jpeg_header
  /-- The call `_openremoteslide_jpeg_decompress_run` returned `false`. -/
  | jpeg_decompress
  /-- A libjpeg error exit (`longjmp`), reported by
  `_openremoteslide_jpeg_propagate_error`. -/
  | jpeg_error_exit
  /-- The message "Failure in TIFFRGBAImageOK: %s". -/
  | rgba_image_ok
  /-- The message "Failure in TIFFRGBAImageBegin: %s". -/
  | rgba_image_begin
  /-- The message "TIFFRGBAImageGet failed". -/
  | rgba_image_get
deriving DecidableEq, Repr

/-- The libjpeg constant `JPEG_HEADER_OK` (jpeglib.h). -/
def JPEG_HEADER_OK : Nat := 1
/-- The libjpeg constant `JPEG_HEADER_TABLES_ONLY` (jpeglib.h). -/
def JPEG_HEADER_TABLES_ONLY : Nat := 2
/-- The libjpeg constant `JCS_RGB` (jpeglib.h). -/
def JCS_RGB : Nat := 2
/-- The libjpeg constant `JCS_YCbCr` (jpeglib.h). -/
def JCS_YCbCr : Nat := 3

/-- What libtiff and the JPEG decoder answer during one tile read:
`compute_tile tiff x y`: `TIFFComputeTile(tiff, x, y, 0, 0)`;
`read_raw_tile tiff tile_no size`: the bytes read by `TIFFReadRawTile`, `none`
for the return value -1;
`jpeg_read_header src require_image`: the value of `jpeg_read_header` on the
memory source `src`, `none` for a libjpeg error exit;
`jpeg_run buf space dest w h`: the value of
`_openremoteslide_jpeg_decompress_run` (`none` for an error exit) and the
destination buffer it leaves;
`rgba_ok`, `rgba_begin`: `TIFFRGBAImageOK`, `TIFFRGBAImageBegin`;
`rgba_get tiff dest x y w h`: the value of `TIFFRGBAImageGet` with
`col_offset = x`, `row_offset = y`, and the raster it leaves in `dest`. -/
structure DecodeEnv where
  compute_tile : Tiff → Int → Int → Nat
  read_raw_tile : Tiff → Nat → Nat → Option (List Nat)
  jpeg_read_header : List Nat → Bool → Option Nat
  jpeg_run : List Nat → Nat → List Nat → Int → Int → Option Bool × List Nat
  rgba_ok : Tiff → Bool
  rgba_begin : Tiff → Bool
  rgba_get : Tiff → List Nat → Int → Int → Int → Int → Bool × List Nat

/-- Result of a decoding function: the `bool` returned, the error set when it
is `false`, and the destination buffer afterwards. -/
structure DecodeResult where
  success : Bool
  err : Option ReadTileError
  dest : List Nat
deriving DecidableEq, Repr

/-- The function `tiff_read_region`.  `w` and `h` are the `int32_t`
arguments; the products `w * h` and `w * h * 4` are `int` products. -/
def tiff_read_region (env : DecodeEnv) (tiff : Tiff) (dest : List Nat) (x y w h : Int) :
    DecodeResult :=
  if env.rgba_ok tiff = false then
    { success := false, err := some .rgba_image_ok, dest := dest }
  else if env.rgba_begin tiff = false then
    { success := false, err := some .rgba_image_begin, dest := dest }
  else
    let g := env.rgba_get tiff dest (wrap32 x) (wrap32 y) w h
    if g.1 then
      let n := (wrap32 (w * h)).toNat
      { success := true, err := none,
        dest := (g.2.take n).map abgr_to_argb ++ g.2.drop n }
    else
      { success := false, err := some .rgba_image_get,
        dest := memset_zero g.2 (wrap32 (w * h * 4)) }

/-- The function `decode_jpeg`.  `tables` is `none` for a NULL pointer. -/
def decode_jpeg (env : DecodeEnv) (buf : List Nat) (tables : Option (List Nat)) (space : Nat)
    (dest : List Nat) (w h : Int) : DecodeResult :=
  let tablesStep : Option ReadTileError :=
    match tables with
    | none => none
    | some t =>
      match env.jpeg_read_header t false with
      | none => some .jpeg_error_exit
      | some code => if code ≠ JPEG_HEADER_TABLES_ONLY then some .jpeg_tables else none
  match tablesStep with
  | some e => { success := false, err := some e, dest := dest }
  | none =>
    match env.jpeg_read_header buf true with
    | none => { success := false, err := some .jpeg_error_exit, dest := dest }
    | some code =>
      if code ≠ JPEG_HEADER_OK then
        { success := false, err := some .jpeg_header, dest := dest }
      else
        let r := env.jpeg_run buf space dest w h
        match r.1 with
        | none => { success := false, err := some .jpeg_error_exit, dest := r.2 }
        | some false => { success := false, err := some .jpeg_decompress, dest := r.2 }
        | some true => { success := true, err := none, dest := r.2 }

/-- The function `_openremoteslide_tiff_read_tile_data`: the raw tile bytes,
or the error. -/
def _openremoteslide_tiff_read_tile_data (env : DecodeEnv) (tiffl : TiffLevel) (tiff : Tiff)
    (tile_col tile_row : Int) : Except ReadTileError (List Nat) :=
  let sd := _openremoteslide_tiff_set_dir tiff tiffl.dir
  if sd.2 = false then .error .cannot_set_dir
  else
    let tiff := sd.1
    let tile_no := env.compute_tile tiff (tile_col * tiffl.tile_w) (tile_row * tiffl.tile_h)
    match tiff.tags.tile_byte_counts with
    | none => .error .cannot_get_tile_size
    | some sizes =>
      let tile_size := sizes.getD tile_no 0
      match env.read_raw_tile tiff tile_no tile_size with
      | none => .error .cannot_read_raw_tile
      | some buf => .ok buf

/-- The function `_openremoteslide_tiff_read_tile` (the warning printed once on
the slow path is left out). -/
def _openremoteslide_tiff_read_tile (env : DecodeEnv) (tiffl : TiffLevel) (tiff : Tiff)
    (dest : List Nat) (tile_col tile_row : Int) : DecodeResult :=
  let sd := _openremoteslide_tiff_set_dir tiff tiffl.dir
  if sd.2 = false then { success := false, err := some .cannot_set_dir, dest := dest }
  else
    let tiff := sd.1
    if tiffl.tile_read_direct then
      let tables := tiff.tags.jpegtables
      match _openremoteslide_tiff_read_tile_data env tiffl tiff tile_col tile_row with
      | .error e => { success := false, err := some e, dest := dest }
      | .ok buf =>
        decode_jpeg env buf tables
          (if tiffl.photometric = PHOTOMETRIC_YCBCR then JCS_YCbCr else JCS_RGB)
          dest (wrap32 tiffl.tile_w) (wrap32 tiffl.tile_h)
    else
      tiff_read_region env tiff dest (tile_col * tiffl.tile_w) (tile_row * tiffl.tile_h)
        (wrap32 tiffl.tile_w) (wrap32 tiffl.tile_h)

/-- Libraries answering a 2 x 2 tile read, used as a concrete input: the raw
tile is three bytes, the JPEG decoder succeeds and writes `[1, 2, 3, 4]`, the
RGBA image reader overwrites pixel number `k` of the destination with
`0x11223344 + k` and succeeds exactly when `rgba_get_ok`. -/
def sampleDecodeEnv (rgba_get_ok : Bool) : DecodeEnv :=
  { compute_tile := fun _ _ _ => 0
    read_raw_tile := fun _ _ _ => some [255, 216, 255]
    jpeg_read_header := fun _ require_image => some (if require_image then 1 else 2)
    jpeg_run := fun _ _ _ _ _ => (some true, [1, 2, 3, 4])
    rgba_ok := fun _ => true
    rgba_begin := fun _ => true
    rgba_get := fun _ dest _ _ _ _ => (rgba_get_ok, dest.mapIdx fun k _ => 0x11223344 + k) }

/-- A level of 2 x 2 tiles read through the slow libtiff path, stored in
directory `dir`. -/
def sampleIndirectLevel (dir : Nat) : TiffLevel :=
  { dir := dir, image_w := 4, image_h := 4, tile_w := 2, tile_h := 2, tiles_across := 2,
    tiles_down := 2, tile_read_direct := false, warned_read_indirect := 0, photometric := 2 }

/-! ### Remote byte source (`URLIO_FILE`, openremoteslide-url.h and openremoteslide-util.c) -/

/-- The constant `THREAD_NUM` of openremoteslide-url.h. -/
def THREAD_NUM : Nat := 4
/-- The constant `THREAD_CACHE_SIZE` of openremoteslide-url.h. -/
def THREAD_CACHE_SIZE : Nat := 256 * 1024
/-- The constant `CACHE_SIZE` of openremoteslide-url.h. -/
def CACHE_SIZE : Nat := THREAD_NUM * THREAD_CACHE_SIZE
/-- The constant `RETRY_TIMES` of openremoteslide-url.h. -/
def RETRY_TIMES : Nat := 10

/-- The stdio constant `SEEK_SET`. -/
def SEEK_SET : Int := 0
/-- The stdio constant `SEEK_CUR`. -/
def SEEK_CUR : Int := 1
/-- The stdio constant `SEEK_END`. -/
def SEEK_END : Int := 2

/-- Conversion of an integer to `size_t` / `unsigned long` (64 bits). -/
def wrapU64 (x : Int) : Int :=
  x % 18446744073709551616

/-- A `URLIO_FILE` of type `CFTYPE_CURL`.  `pos` is the `long int` cursor
(file offsets stay far below 2^63, so sums of offsets are exact integers);
`size` is the `size_t` length; `buffer` holds the `buffer_pos` bytes of the
main transfer buffer; `cache` lists the cached blocks in order, entry `j` being
`cache_id_list[j]` with the bytes that were stored into `cache_list[j]` (the
rest of the `CACHE_SIZE` bytes of that `malloc` block was never written), so
`cache_count` is the length of `cache`. -/
structure UrlFile where
  url : String
  pos : Int
  size : Nat
  buffer : List Nat
  still_running : Bool
  cache : List (Int × List Nat)
  close_flag : Bool
deriving DecidableEq, Repr

/-- What libcurl and the network answer during one call on a remote source.
`local_file`: stdio `fopen(url, operation)` succeeds (the source is then a
local file);
`malloc_addr`: the address of a `URLIO_FILE` allocated by the call;
`probe_start`: transfer buffer and `still_running` after the first
`curl_multi_perform` of a new source;
`probe_fill`: the transfer buffer after the retry loop around
`fill_buffer(file, 1)` of a new source;
`content_length`: the `(long)` value of `CURLINFO_CONTENT_LENGTH_DOWNLOAD`;
`restart pos`: transfer buffer and `still_running` after the main transfer is
restarted at `pos` and `curl_multi_perform` is called once;
`fill pos buffer still_running want`: transfer buffer and `still_running` after
the retry loop around `fill_buffer(file, want)`;
`worker_init t`: worker `t` created by `urlio_fopen` has data or is running
after its first `curl_multi_perform`;
`worker_started t pos`: the same for worker `t` restarted at `pos` by
`fread_thread`;
`worker_fill t pos want`: the buffer of worker `t` after its retry loop around
`fill_buffer_thread(data, want)`. -/
structure NetEnv where
  local_file : Bool
  malloc_addr : Nat
  probe_start : List Nat × Bool
  probe_fill : List Nat
  content_length : Int
  restart : Int → List Nat × Bool
  fill : Int → List Nat → Bool → Nat → List Nat × Bool
  worker_init : Nat → Bool
  worker_started : Nat → Int → Bool
  worker_fill : Nat → Int → Nat → List Nat

/-- What a worker posts: `freadThreadGoodFlag[tid]`, its final `data->want`
and the first `want` bytes of `data->cache`. -/
structure WorkerResult where
  good : Bool
  want : Nat
  cache : List Nat
deriving DecidableEq, Repr

/-- The function `fread_thread` for worker `tid` with `data->pos = pos`,
`data->want = want`, `data->size = size`.  `none`: the worker frees its data
and returns without setting `freadThreadSetFlag[tid]` (no data and not running
after the restart). -/
def fread_thread (env : NetEnv) (tid : Nat) (pos : Int) (want : Nat) (size : Nat) :
    Option WorkerResult :=
  if env.worker_started tid pos = false then none
  else if wrapU64 pos < (size : Int) then
    let want1 : Nat :=
      if wrapU64 (pos + want - 1) > (size : Int) then (wrapU64 (size - pos)).toNat else want
    let buffer := env.worker_fill tid pos want1
    if buffer.length ≠ 0 then
      let want2 : Nat := if buffer.length < want1 then buffer.length else want1
      some { good := true, want := want2, cache := buffer.take want2 }
    else
      some { good := false, want := want1, cache := [] }
  else
    some { good := true, want := 0, cache := [] }

/-- The assignment `file->fcurl_data[t]->pos = cache_id + t * THREAD_CACHE_SIZE;
file->fcurl_data[t]->want = THREAD_CACHE_SIZE;` that `urlio_fread` makes for
worker `t` on a miss of the block starting at `cache_id`: the pair
`(pos, want)`. -/
def worker_assignment (cache_id : Int) (t : Nat) : Int × Nat :=
  (cache_id + (t : Int) * (THREAD_CACHE_SIZE : Int), THREAD_CACHE_SIZE)

/-- Outcome of the miss branch of `urlio_fread`: `hang`: a worker never sets
its flag, so `g_cond_wait` is never signalled; `failed`: some
`freadThreadGoodFlag[t]` is false; `block b`: the bytes stored into the new
`thread_cache`, the workers' pieces one after the other. -/
inductive FetchResult where
  | hang
  | failed
  | block (bytes : List Nat)
deriving DecidableEq, Repr

/-- The miss branch of `urlio_fread` up to the concatenation: the
`THREAD_NUM` workers run `fread_thread` on their ranges. -/
def fetch_block (env : NetEnv) (size : Nat) (cache_id : Int) : FetchResult :=
  let rs := (List.range THREAD_NUM).map fun t =>
    fread_thread env t (worker_assignment cache_id t).1 (worker_assignment cache_id t).2 size
  if rs.any (fun r => r.isNone) then .hang
  else if rs.any (fun r => match r with
      | some w => !w.good
      | none => false) then .failed
  else .block ((rs.map fun r => match r with
      | some w => w.cache
      | none => []).flatten)

/-- The search `for (j = 0; j < file->cache_count; j++) if
(file->cache_id_list[j] == cache_id)`: the block `cache_list[cache_index]` of
the first match, `none` for `cache_index == -1`. -/
def cache_lookup (cache_id : Int) : List (Int × List Nat) → Option (List Nat)
  | [] => none
  | e :: rest => if e.1 = cache_id then some e.2 else cache_lookup cache_id rest

/-- The bytes `memcpy` reads from a block buffer at offset `off`, `len` of
them.  A byte of the `malloc` block that was never written is indeterminate;
it is read as 0 here. -/
def read_block (block : List Nat) (off len : Nat) : List Nat :=
  (List.range len).map fun k => block.getD (off + k) 0

/-- The variables of the copy loop of `urlio_fread`: the block cache, the
locals `current_pointer` and `current_size`, the bytes stored into `ptr` so
far (`ptr_pointer` and `copied_size` are their number), and two records kept for
the proofs: the block offsets for which workers were dispatched, and the copies
made as (block offset, offset inside the block, length). -/
structure FreadState where
  cache : List (Int × List Nat)
  current_pointer : Int
  current_size : Int
  dst : List Nat
  fetched : List Int
  copies : List (Int × Int × Int)
deriving DecidableEq, Repr

/-- How the copy loop of `urlio_fread` ends: `done`: all iterations ran;
`worker_failed`: `return 0` after a failed worker; `hang`: the wait for the
workers never ends; `undefined`: a `memcpy` with a negative length or from
before the block. -/
inductive FreadLoop where
  | done (st : FreadState)
  | worker_failed (st : FreadState)
  | hang (st : FreadState)
  | undefined (st : FreadState)
deriving DecidableEq, Repr

/-- The loop variables at the point where the loop ended. -/
def FreadLoop.state : FreadLoop → FreadState
  | .done st => st
  | .worker_failed st => st
  | .hang st => st
  | .undefined st => st

/-- One iteration of the copy loop of `urlio_fread`.  `current_copy_size` is
an `int`; the comparison of `cache_id` with the block of the last byte is
done in `unsigned long`. -/
def fread_iter (env : NetEnv) (size : Nat) (st : FreadState) : FreadLoop :=
  let cache_id : Int := Int.tdiv st.current_pointer (CACHE_SIZE : Int) * (CACHE_SIZE : Int)
  let hit := cache_lookup cache_id st.cache
  let fetchedBlock : Option FetchResult :=
    match hit with
    | some _ => none
    | none => some (fetch_block env size cache_id)
  let st1 : FreadState :=
    match hit with
    | some _ => st
    | none => { st with fetched := st.fetched ++ [cache_id] }
  match fetchedBlock with
  | some .hang => .hang st1
  | some .failed => .worker_failed st1
  | _ =>
    let block : List Nat :=
      match hit, fetchedBlock with
      | some b, _ => b
      | none, some (.block b) => b
      | none, _ => []
    let cache1 : List (Int × List Nat) :=
      match hit with
      | some _ => st1.cache
      | none => st1.cache ++ [(cache_id, block)]
    let off : Int := st.current_pointer - cache_id
    let current_copy_size : Int :=
      if wrapU64 cache_id =
          wrapU64 (wrapU64 (st.current_pointer + st.current_size - 1) / (CACHE_SIZE : Int)
            * (CACHE_SIZE : Int))
      then wrap32 st.current_size
      else wrap32 ((CACHE_SIZE : Int) - off)
    if current_copy_size < 0 ∨ off < 0 then .undefined { st1 with cache := cache1 }
    else
      .done
        { cache := cache1
          current_pointer := st.current_pointer + current_copy_size
          current_size := wrapU64 (st.current_size - current_copy_size)
          dst := st.dst ++ read_block block off.toNat current_copy_size.toNat
          fetched := st1.fetched
          copies := st.copies ++ [(cache_id, off, current_copy_size)] }

/-- The loop `for (int i = 0; i < cache_count; i++)` of `urlio_fread`, for
`cache_count` iterations. -/
def fread_loop (env : NetEnv) (size : Nat) : Nat → FreadState → FreadLoop
  | 0, st => .done st
  | iters + 1, st =>
    match fread_iter env size st with
    | .done st1 => fread_loop env size iters st1
    | stop => stop

/-- The local `int cache_count` of `urlio_fread`: the `unsigned long` value
`((pos % CACHE_SIZE) + size * nmemb - 1) / CACHE_SIZE + 1` converted to
`int`. -/
def fread_cache_count (pos : Int) (size nmemb : Nat) : Int :=
  wrap32 (wrapU64 (wrapU64 (Int.tmod pos (CACHE_SIZE : Int) + wrapU64 ((size : Int) * nmemb) - 1)
    / (CACHE_SIZE : Int) + 1))

/-- How `urlio_fread` ends: `returned v`: the final `return copied_size /
size`; `worker_failed`: `return 0` from the loop; `transfer_lost`: the main
transfer could not be restarted, the `URLIO_FILE` is freed and 0 is returned;
`hang`: the call never returns; `undefined`: a step without defined result
(see `FreadLoop.undefined`, or `size == 0` in the final division). -/
inductive FreadStatus where
  | returned (value : Nat)
  | worker_failed
  | transfer_lost
  | hang
  | undefined
deriving DecidableEq, Repr

/-- The value a returning `urlio_fread` gives to its caller. -/
def FreadStatus.value : FreadStatus → Option Nat
  | .returned v => some v
  | .worker_failed => some 0
  | .transfer_lost => some 0
  | .hang => none
  | .undefined => none

/-- Result of `urlio_fread`: how it ended, the `URLIO_FILE` afterwards (`none`
when it was freed), the bytes stored into `ptr` from its start on, and the two
records of `FreadState`. -/
structure FreadResult where
  status : FreadStatus
  file : Option UrlFile
  dst : List Nat
  fetched : List Int
  copies : List (Int × Int × Int)
deriving DecidableEq, Repr

/-- The `CFTYPE_CURL` branch of `urlio_fread(ptr, size, nmemb, file)`. -/
def urlio_fread (env : NetEnv) (file : UrlFile) (size nmemb : Nat) : FreadResult :=
  let orig_size : Int := wrapU64 ((size : Int) * nmemb)
  let st0 : FreadState :=
    { cache := file.cache, current_pointer := file.pos, current_size := orig_size,
      dst := [], fetched := [], copies := [] }
  match fread_loop env file.size (fread_cache_count file.pos size nmemb).toNat st0 with
  | .worker_failed st =>
    { status := .worker_failed, file := some { file with cache := st.cache }, dst := st.dst,
      fetched := st.fetched, copies := st.copies }
  | .hang st =>
    { status := .hang, file := some { file with cache := st.cache }, dst := st.dst,
      fetched := st.fetched, copies := st.copies }
  | .undefined st =>
    { status := .undefined, file := some { file with cache := st.cache }, dst := st.dst,
      fetched := st.fetched, copies := st.copies }
  | .done st =>
    let pos1 : Int := file.pos + orig_size
    let r := env.restart pos1
    if r.1.length = 0 ∧ r.2 = false then
      { status := .transfer_lost, file := none, dst := st.dst, fetched := st.fetched,
        copies := st.copies }
    else if size = 0 then
      { status := .undefined, file := none, dst := st.dst, fetched := st.fetched,
        copies := st.copies }
    else
      { status := .returned ((st.dst.length : Nat) / size),
        file := some { file with cache := st.cache, pos := pos1, buffer := r.1,
                                 still_running := r.2 },
        dst := st.dst, fetched := st.fetched, copies := st.copies }

/-- The `CFTYPE_CURL` branch of `urlio_ftell`. -/
def urlio_ftell (file : UrlFile) : Int :=
  file.pos

/-- The `CFTYPE_CURL` branch of `urlio_fseek(file, offset, origin)`: the value
returned and the `URLIO_FILE` afterwards (`none` when it was freed because the
transfer could not be restarted). -/
def urlio_fseek (env : NetEnv) (file : UrlFile) (offset origin : Int) : Int × Option UrlFile :=
  let target : Option Int :=
    if origin = SEEK_SET then some offset
    else if origin = SEEK_CUR then some (file.pos + offset)
    else if origin = SEEK_END then some ((file.size : Int) + offset)
    else none
  match target with
  | none => (-1, some file)
  | some pos1 =>
    let r := env.restart pos1
    if r.1.length = 0 ∧ r.2 = false then (-1, none)
    else (0, some { file with pos := pos1, buffer := r.1, still_running := r.2 })

/-- A network serving the file with content `F` without fault: every transfer
runs, and a worker's buffer holds exactly the `want` bytes asked for, or those
left before the end of the file. -/
def faithfulNet (F : List Nat) : NetEnv :=
  { local_file := false
    malloc_addr := 1
    probe_start := ([], true)
    probe_fill := F.take 1
    content_length := F.length
    restart := fun _ => ([], true)
    fill := fun pos buffer _ want =>
      (if buffer.length < want then (F.drop pos.toNat).take want else buffer, true)
    worker_init := fun _ => true
    worker_started := fun _ _ => true
    worker_fill := fun _ pos want => (F.drop pos.toNat).take want }

/-- A remote source just opened on a file of `size` bytes: cursor 0, nothing
cached. -/
def freshUrlFile (url : String) (size : Nat) : UrlFile :=
  { url := url, pos := 0, size := size, buffer := [], still_running := true, cache := [],
    close_flag := false }

/-- The start of the block that contains offset `p`:
`floor(p / CACHE_SIZE) * CACHE_SIZE`. -/
def block_start (p : Int) : Int :=
  p / (CACHE_SIZE : Int) * (CACHE_SIZE : Int)

/-- The number of bytes one iteration of the copy loop takes from the block of
`cp` when `cs` bytes remain: all of them if the last byte lies in the same
block, else those up to the end of the block. -/
def fread_copy_size (cp cs : Int) : Int :=
  if (cp + cs - 1) / (CACHE_SIZE : Int) = cp / (CACHE_SIZE : Int) then cs
  else block_start cp + (CACHE_SIZE : Int) - cp

/-- The loop variables after an iteration that copied from `block`, with the
block cache and the dispatch record as given. -/
def fread_advance (st : FreadState) (cache : List (Int × List Nat)) (block : List Nat)
    (fetched : List Int) : FreadState :=
  { cache := cache
    current_pointer := st.current_pointer + fread_copy_size st.current_pointer st.current_size
    current_size := st.current_size - fread_copy_size st.current_pointer st.current_size
    dst := st.dst ++ read_block block (st.current_pointer - block_start st.current_pointer).toNat
      (fread_copy_size st.current_pointer st.current_size).toNat
    fetched := fetched
    copies := st.copies ++ [(block_start st.current_pointer,
      st.current_pointer - block_start st.current_pointer,
      fread_copy_size st.current_pointer st.current_size)] }

/-- The block cache `c` with dispatch record `f` arises from the cache `c0`
with record `f0` by appending newly fetched blocks: the old entries keep their
place and content, every dispatch recorded since inserted its block, the new
offsets are multiples of `CACHE_SIZE`, absent from `c0` and pairwise
distinct. -/
def CacheGrown (c0 : List (Int × List Nat)) (f0 : List Int) (c : List (Int × List Nat))
    (f : List Int) : Prop :=
  ∃ added : List (Int × List Nat),
    c = c0 ++ added ∧ f = f0 ++ added.map Prod.fst ∧
    (∀ e ∈ added, ∃ k : Int, e.1 = k * (CACHE_SIZE : Int)) ∧
    (∀ e ∈ added, e.1 ∉ c0.map Prod.fst) ∧
    (added.map Prod.fst).Nodup

/-- What holds of the block cache when the copy loop ends, relative to the
cache `c0` and dispatch record `f0` at its start: on a normal end the cache has
grown by the dispatched blocks; when a worker failed or never answered, the
cache has grown by the blocks dispatched before, and the last dispatch, for
block `b`, inserted nothing. -/
def FreadLoopCache (env : NetEnv) (size : Nat) (c0 : List (Int × List Nat)) (f0 : List Int) :
    FreadLoop → Prop
  | .done st => CacheGrown c0 f0 st.cache st.fetched
  | .undefined st => CacheGrown c0 f0 st.cache st.fetched
  | .worker_failed st =>
    ∃ (f : List Int) (b : Int), st.fetched = f ++ [b] ∧ CacheGrown c0 f0 st.cache f ∧
      b ∉ st.cache.map Prod.fst ∧ fetch_block env size b = .failed
  | .hang st =>
    ∃ (f : List Int) (b : Int), st.fetched = f ++ [b] ∧ CacheGrown c0 f0 st.cache f ∧
      b ∉ st.cache.map Prod.fst ∧ fetch_block env size b = .hang

/-- The invariant of the block cache of a remote source: every cached offset is
a multiple of `CACHE_SIZE`, and no offset is cached twice. -/
def BlockCacheOk (cache : List (Int × List Nat)) : Prop :=
  (∀ e ∈ cache, ∃ k : Int, e.1 = k * (CACHE_SIZE : Int)) ∧ (cache.map Prod.fst).Nodup

/-- A copy record (block offset, offset inside the block, length) describes a
non-empty slice that lies inside its block, the block offset being a multiple
of `CACHE_SIZE`. -/
def CopyInBlock (c : Int × Int × Int) : Prop :=
  (∃ k : Int, c.1 = k * (CACHE_SIZE : Int)) ∧ 0 ≤ c.2.1 ∧ 1 ≤ c.2.2 ∧
    c.2.1 + c.2.2 ≤ (CACHE_SIZE : Int)

/-- The content of a ten-byte remote file, used as a concrete input. -/
def sampleBytes : List Nat := [10, 11, 12, 13, 14, 15, 16, 17, 18, 19]

/-- A remote source on `sampleBytes`, nothing cached, with the cursor at
`pos`. -/
def sampleUrlFile (pos : Int) : UrlFile :=
  { freshUrlFile "http://host/slide.svs" 10 with pos := pos }

/-- A network on which the workers get one byte per request below offset
`CACHE_SIZE` and nothing from there on; everything else runs. -/
def firstBlockOnlyNet : NetEnv :=
  { local_file := false
    malloc_addr := 1
    probe_start := ([], true)
    probe_fill := [7]
    content_length := 2000000
    restart := fun _ => ([], true)
    fill := fun _ buffer _ _ => (buffer, true)
    worker_init := fun _ => true
    worker_started := fun _ _ => true
    worker_fill := fun _ pos _ => if pos < (CACHE_SIZE : Int) then [7] else [] }

/-- A remote source of 2000000 bytes, nothing cached, with the cursor at
`pos`. -/
def sampleLargeUrlFile (pos : Int) : UrlFile :=
  { freshUrlFile "http://host/large.svs" 2000000 with pos := pos }

/-! ### Buffered reads, reopening and the registry `url_cache` -/

/-- The function `use_buffer(file, want)`: the transfer buffer without its
first `want` bytes.  The test `(file->buffer_pos - want) <= 0` is made in
`size_t`.  The callers pass `want <= buffer_pos`. -/
def use_buffer (buffer : List Nat) (want : Nat) : List Nat :=
  if wrapU64 ((buffer.length : Int) - (want : Int)) ≤ 0 then [] else buffer.drop want

/-- The loop of `urlio_fgets` that looks for a newline among the first `want`
bytes of the buffer: the new value of `want`, which includes the newline. -/
def fgets_line : List Nat → Nat → Nat
  | _, 0 => 0
  | [], want + 1 => want + 1
  | c :: rest, want + 1 => if c = 10 then 1 else fgets_line rest want + 1

/-- The `CFTYPE_CURL` branch of `urlio_fgets(ptr, size, file)`: the bytes
stored into `ptr` (`none` for a `NULL` return) and the `URLIO_FILE`
afterwards. -/
def urlio_fgets (env : NetEnv) (file : UrlFile) (size : Nat) : Option (List Nat) × UrlFile :=
  let want : Nat := (wrapU64 ((size : Int) - 1)).toNat
  let r := env.fill file.pos file.buffer file.still_running want
  if r.1.length = 0 then (none, { file with buffer := r.1, still_running := r.2 })
  else
    let want1 : Nat := if r.1.length < want then r.1.length else want
    let want2 : Nat := fgets_line r.1 want1
    (some (r.1.take want2 ++ [0]),
     { file with buffer := use_buffer r.1 want2, still_running := r.2,
                 pos := file.pos + (want2 : Int) })

/-- The value of `EOF`. -/
def EOF : Int := -1

/-- The `CFTYPE_CURL` branch of `urlio_fgetc(file)`: the value returned (the
first byte of the buffer read as a signed `char`, or `EOF`) and the
`URLIO_FILE` afterwards. -/
def urlio_fgetc (env : NetEnv) (file : UrlFile) : Int × UrlFile :=
  let r := env.fill file.pos file.buffer file.still_running 1
  match r.1 with
  | [] => (EOF, { file with buffer := [], still_running := r.2 })
  | c :: _ =>
    ((if c % 256 < 128 then ((c % 256 : Nat) : Int) else ((c % 256 : Nat) : Int) - 256),
     { file with buffer := use_buffer r.1 1, still_running := r.2, pos := file.pos + 1 })

/-- The `CFTYPE_CURL` branch of `urlio_rewind(file)`: the `URLIO_FILE`
afterwards, `none` when it was freed because the transfer could not be
restarted. -/
def urlio_rewind (env : NetEnv) (file : UrlFile) : Option UrlFile :=
  let r := env.restart 0
  if r.1.length = 0 ∧ r.2 = false then none
  else some { file with pos := 0, buffer := r.1, still_running := r.2 }

/-- What `urlio_fopen` does to a `URLIO_FILE` found in the registry: buffer
dropped, cursor 0, transfer restarted, `close_flag` cleared; `none` when the
transfer could not be restarted and the `URLIO_FILE` was freed. -/
def fopen_resurrect (env : NetEnv) (file : UrlFile) : Option UrlFile :=
  let r := env.restart 0
  if r.1.length = 0 ∧ r.2 = false then none
  else some { file with pos := 0, buffer := r.1, still_running := r.2, close_flag := false }

/-- An element of `url_cache`: the address stored, the `URLIO_FILE` it points
to, and whether that `URLIO_FILE` has been freed (the pointer dangles; `file`
then records what it held). -/
structure UrlEntry where
  addr : Nat
  file : UrlFile
  freed : Bool
deriving DecidableEq, Repr

/-- What `urlio_fopen` returns: `local_file`: a `CFTYPE_FILE` handle, stdio
`fopen` having succeeded; `opened addr`: the remote source at `addr`; `null`:
`NULL`; `undefined`: the call reads freed memory or dereferences `NULL`. -/
inductive FopenResult where
  | local_file
  | opened (addr : Nat)
  | null
  | undefined
deriving DecidableEq, Repr

/-- The loop of `urlio_fopen` over `url_cache`: `none` when no element has the
URL; else the result of the call and the registry afterwards.  Reading the URL
of a freed `URLIO_FILE` is undefined. -/
def fopen_existing (env : NetEnv) (url : String) :
    List UrlEntry → Option (FopenResult × List UrlEntry)
  | [] => none
  | e :: rest =>
    if e.freed then some (.undefined, e :: rest)
    else if e.file.url = url then
      match fopen_resurrect env e.file with
      | some f => some (.opened e.addr, { e with file := f } :: rest)
      | none => some (.null, { e with freed := true } :: rest)
    else
      match fopen_existing env url rest with
      | some r => some (r.1, e :: r.2)
      | none => none

/-- The function `urlio_fopen(url, operation)` on the registry `url_cache`:
the result and the registry afterwards. -/
def urlio_fopen (env : NetEnv) (reg : List UrlEntry) (url : String) :
    FopenResult × List UrlEntry :=
  if env.local_file then (.local_file, reg)
  else
    match fopen_existing env url reg with
    | some r => r
    | none =>
      if env.probe_start.1.length = 0 ∧ env.probe_start.2 = false then (.null, reg)
      else if env.probe_fill.length = 0 then (.undefined, reg)
      else
        let r := env.restart 0
        if r.1.length = 0 ∧ r.2 = false then (.null, reg)
        else
          match (List.range THREAD_NUM).find? (fun t => !env.worker_init t) with
          | some t => if t + 1 < THREAD_NUM then (.undefined, reg) else (.null, reg)
          | none =>
            (.opened env.malloc_addr,
             reg ++ [{ addr := env.malloc_addr,
                       file := { url := url, pos := 0,
                                 size := (wrapU64 env.content_length).toNat,
                                 buffer := r.1, still_running := r.2, cache := [],
                                 close_flag := false },
                       freed := false }])

/-- The loop of the `CFTYPE_CURL` branch of `urlio_fclose(file)`, `file` being
the address `addr`: the first element of `url_cache` equal to `file` gets
`close_flag = true`. -/
def fclose_mark (addr : Nat) : List UrlEntry → List UrlEntry
  | [] => []
  | e :: rest =>
    if e.addr = addr then { e with file := { e.file with close_flag := true } } :: rest
    else e :: fclose_mark addr rest

/-- The `CFTYPE_CURL` branch of `urlio_fclose(file)`: the value returned and
the registry afterwards. -/
def urlio_fclose (reg : List UrlEntry) (addr : Nat) : Int × List UrlEntry :=
  (0, fclose_mark addr reg)

/-- How `urlio_frelease` ends: `returned ret reg`: with `ret` and the registry
`reg`; `undefined`: the URL of a freed `URLIO_FILE` was read; `out_of_fuel`:
the loop did not end within the iterations given. -/
inductive FreleaseResult where
  | returned (ret : Int) (reg : List UrlEntry)
  | undefined
  | out_of_fuel
deriving DecidableEq, Repr

/-- The loop `for (int count = 0; count < url_cache_count; count++)` of
`urlio_frelease(url)` from index `count` on, with the local `ret`, for at most
`fuel` iterations.  After a removal the loop goes on with `count + 1`. -/
def frelease_loop (url : String) : Nat → Nat → Int → List UrlEntry → FreleaseResult
  | 0, count, ret, reg => if count < reg.length then .out_of_fuel else .returned ret reg
  | fuel + 1, count, ret, reg =>
    match reg[count]? with
    | none => .returned ret reg
    | some e =>
      if e.freed then .undefined
      else if e.file.url = url then frelease_loop url fuel (count + 1) 0 (reg.eraseIdx count)
      else frelease_loop url fuel (count + 1) ret reg

/-- The function `urlio_frelease(url)` on the registry `reg`. -/
def urlio_frelease (reg : List UrlEntry) (url : String) : FreleaseResult :=
  frelease_loop url reg.length 0 (-1) reg

/-- A call on the registry. -/
inductive RegistryCall where
  | fopen (env : NetEnv) (url : String)
  | fclose (addr : Nat)
  | frelease (url : String)

/-- The registry after one call; `none` when the call has no defined
result. -/
def registryCall (reg : List UrlEntry) : RegistryCall → Option (List UrlEntry)
  | .fopen env url =>
    match urlio_fopen env reg url with
    | (.undefined, _) => none
    | (_, reg1) => some reg1
  | .fclose addr => some (urlio_fclose reg addr).2
  | .frelease url =>
    match urlio_frelease reg url with
    | .returned _ reg1 => some reg1
    | _ => none

/-- The registry after a sequence of calls, each with a defined result. -/
def runRegistry : List UrlEntry → List RegistryCall → Option (List UrlEntry)
  | reg, [] => some reg
  | reg, c :: cs =>
    match registryCall reg c with
    | some reg1 => runRegistry reg1 cs
    | none => none

/-- A call on one remote byte source. -/
inductive FileCall where
  | fopen (env : NetEnv)
  | fseek (env : NetEnv) (offset origin : Int)
  | fread (env : NetEnv) (size nmemb : Nat)
  | fgets (env : NetEnv) (size : Nat)
  | fgetc (env : NetEnv)
  | rewind (env : NetEnv)

/-- The remote byte source after one call; `none` when the source was freed by
the call or the call does not return. -/
def fileCall (file : UrlFile) : FileCall → Option UrlFile
  | .fopen env => fopen_resurrect env file
  | .fseek env offset origin => (urlio_fseek env file offset origin).2
  | .fread env size nmemb =>
    match (urlio_fread env file size nmemb).status with
    | .returned _ => (urlio_fread env file size nmemb).file
    | .worker_failed => (urlio_fread env file size nmemb).file
    | _ => none
  | .fgets env size => some (urlio_fgets env file size).2
  | .fgetc env => some (urlio_fgetc env file).2
  | .rewind env => urlio_rewind env file

/-- The remote byte source after a sequence of calls. -/
def runFile : UrlFile → List FileCall → Option UrlFile
  | file, [] => some file
  | file, c :: cs =>
    match fileCall file c with
    | some f1 => runFile f1 cs
    | none => none

/-- Three URLs used as concrete inputs. -/
def sampleUrlA : String := "http://host/a.svs"

/-- Second sample URL. -/
def sampleUrlB : String := "http://host/b.svs"

/-- Third sample URL. -/
def sampleUrlC : String := "http://host/c.svs"

/-- A registry of three live remote sources, one per sample URL. -/
def sampleRegistry : List UrlEntry :=
  [{ addr := 1, file := freshUrlFile sampleUrlA 10, freed := false },
   { addr := 2, file := freshUrlFile sampleUrlB 10, freed := false },
   { addr := 3, file := freshUrlFile sampleUrlC 10, freed := false }]

/-- A network on which a restarted transfer neither delivers a byte nor keeps
running (the connection is refused); everything else is as in
`faithfulNet`. -/
def refusingNet (F : List Nat) : NetEnv :=
  { faithfulNet F with restart := fun _ => ([], false) }

/-! ### Cursor bounds -/

/-- A call on a remote byte source asks for nothing outside the file, whose
cursor is `file.pos` and whose size is `file.size` when the call is made: the
target of a seek lies in `[0, size]`; the bytes requested by `urlio_fread` end
at or before `size`; `urlio_fgets(ptr, n, file)` has `n >= 1` and its at most
`n - 1` bytes end at or before `size`; `urlio_fgetc` is called with at least
one byte left before `size`.  Nothing is asked of the network. -/
def CallInRange (file : UrlFile) : FileCall → Prop
  | .fopen _ => True
  | .fseek _ offset origin =>
    (origin = SEEK_SET → 0 ≤ offset ∧ offset ≤ (file.size : Int)) ∧
    (origin = SEEK_CUR → 0 ≤ file.pos + offset ∧ file.pos + offset ≤ (file.size : Int)) ∧
    (origin = SEEK_END → 0 ≤ (file.size : Int) + offset ∧ offset ≤ 0)
  | .fread _ size nmemb => file.pos + ((size * nmemb : Nat) : Int) ≤ (file.size : Int)
  | .fgets _ size => 1 ≤ size ∧ file.pos + ((size : Int) - 1) ≤ (file.size : Int)
  | .fgetc _ => file.pos + 1 ≤ (file.size : Int)
  | .rewind _ => True

/-- Every call of the sequence is in range at the state in which it is
made. -/
def RunInRange : UrlFile → List FileCall → Prop
  | _, [] => True
  | file, c :: cs =>
    CallInRange file c ∧
    match fileCall file c with
    | some f1 => RunInRange f1 cs
    | none => True

/-- The transfer of a source opened at offset 0 as `urlio_fgetc` and
`urlio_fgets` see it once the buffer is empty and the transfer has ended: the
retry loop re-adds the easy handle, whose resume offset is still 0, and the
server delivers the file `F` from its start again.  Everything else is as in
`faithfulNet`. -/
def redeliveringNet (F : List Nat) : NetEnv :=
  { faithfulNet F with
    fill := fun _ buffer running _ =>
      if buffer.length = 0 ∧ running = false then (F, false) else (buffer, running) }

/-! ### Quickhash (`openremoteslide-hash.c`) -/

/-- The hash `struct _openremoteslide_hash`.  The `GChecksum` is recorded as
the sequence of bytes fed to it so far, of which its digest is a function. -/
structure Hash where
  checksum : List Nat
  enabled : Bool
deriving DecidableEq, Repr

/-- The function `_openremoteslide_hash_quickhash1_create`. -/
def _openremoteslide_hash_quickhash1_create : Hash :=
  { checksum := [], enabled := true }

/-- The glib call `g_checksum_update(checksum, data, length)` on the bytes
`data` found at the pointer: the first `length` of them are fed; a negative
`length` means a NUL-terminated string, fed without its terminator. -/
def g_checksum_update (checksum : List Nat) (data : List Nat) (length : Int) : List Nat :=
  if length < 0 then checksum ++ data.takeWhile (fun c => decide (c ≠ 0))
  else checksum ++ data.take length.toNat

/-- The function `_openremoteslide_hash_data(hash, data, datalen)`; `none` is a
NULL pointer, `datalen` the `int32_t` argument. -/
def _openremoteslide_hash_data (hash : Option Hash) (data : Option (List Nat)) (datalen : Int) :
    Option Hash :=
  match hash, data with
  | some h, some d =>
    if h.enabled = true ∧ datalen ≠ 0 then
      some { h with checksum := g_checksum_update h.checksum d datalen }
    else some h
  | h, _ => h

/-- The libc function `strlen` on the bytes found at the pointer. -/
def strlen (str : List Nat) : Nat :=
  (str.takeWhile (fun c => decide (c ≠ 0))).length

/-- The function `_openremoteslide_hash_string(hash, str)`.  `str` is the
memory found at the pointer, terminator included; `none` is NULL, replaced by
the empty string `""`.  `strlen(str_to_hash) + 1` is converted to `int32_t`. -/
def _openremoteslide_hash_string (hash : Option Hash) (str : Option (List Nat)) : Option Hash :=
  let str_to_hash : List Nat :=
    match str with
    | some s => s
    | none => [0]
  _openremoteslide_hash_data hash (some str_to_hash) (wrap32 ((strlen str_to_hash : Int) + 1))

/-- The function `_openremoteslide_hash_disable`. -/
def _openremoteslide_hash_disable (hash : Option Hash) : Option Hash :=
  match hash with
  | some h => some { h with enabled := false }
  | none => none

/-- The function `_openremoteslide_hash_get_string` on a non-NULL hash: `none`
is NULL; `digest` is `g_checksum_get_string`, the hexadecimal SHA-256 of the
bytes fed. -/
def _openremoteslide_hash_get_string (digest : List Nat → String) (hash : Hash) :
    Option String :=
  if hash.enabled then some (digest hash.checksum) else none

/-- What the `urlio_*` calls of a reader do on an open handle of type `σ`
(a stdio `FILE` or a remote byte source behind a `URLIO_FILE`):
`fseek f offset origin` gives the value returned and the handle afterwards;
`ftell f` the value returned; `fread f size nmemb` the value returned, the
bytes stored at `ptr` and the handle afterwards. -/
structure UrlioOps (σ : Type) where
  fseek : σ → Int → Int → Int × σ
  ftell : σ → Int
  fread : σ → Nat → Nat → Nat × List Nat × σ

/-- The loop `while (bytes_left > 0)` of `_openremoteslide_hash_file_part`,
for at most `fuel` iterations, with the local array `buf`: `none` when the loop
has not ended within `fuel` iterations, else whether it ended without `goto
DONE`, the hash and the handle. -/
def hash_file_loop {σ : Type} (ops : UrlioOps σ) :
    Nat → Option Hash → σ → List Nat → Int → Option (Bool × Option Hash × σ)
  | 0, hash, f, _, bytes_left => if bytes_left > 0 then none else some (true, hash, f)
  | fuel + 1, hash, f, buf, bytes_left =>
    if bytes_left > 0 then
      let bytes_to_read : Int := min 4096 bytes_left
      let r := ops.fread f 1 bytes_to_read.toNat
      let bytes_read : Int := (r.1 : Int)
      let buf1 : List Nat := r.2.1 ++ buf.drop r.2.1.length
      if bytes_read ≠ bytes_to_read then some (false, hash, r.2.2)
      else
        hash_file_loop ops fuel
          (_openremoteslide_hash_data hash (some buf1) (wrap32 bytes_read)) r.2.2 buf1
          (bytes_left - bytes_read)
    else some (true, hash, f)

/-- The function `_openremoteslide_hash_file_part(hash, filename, offset,
size, err)`.  `f` is what `_openremoteslide_fopen(filename, "rb", err)`
returns.  The result is the `bool` returned and the hash afterwards; `buf`
starts with indeterminate content, read as 0.  The loop is given `size`
iterations, each of which takes at least one byte off `bytes_left`. -/
def _openremoteslide_hash_file_part {σ : Type} (ops : UrlioOps σ) (hash : Option Hash)
    (f : Option σ) (offset size : Int) : Option (Bool × Option Hash) :=
  match f with
  | none => some (false, hash)
  | some f =>
    let sized : Option (Int × σ) :=
      if size = -1 then
        let s := ops.fseek f 0 SEEK_END
        if s.1 ≠ 0 then none
        else if ops.ftell s.2 = -1 then none
        else some (ops.ftell s.2 - offset, s.2)
      else some (size, f)
    match sized with
    | none => some (false, hash)
    | some (size1, f1) =>
      let s := ops.fseek f1 offset SEEK_SET
      if s.1 = -1 then some (false, hash)
      else
        match hash_file_loop ops size1.toNat hash s.2 (List.replicate 4096 0) size1 with
        | some r => some (r.1, r.2.1)
        | none => none

/-- The function `_openremoteslide_hash_file`. -/
def _openremoteslide_hash_file {σ : Type} (ops : UrlioOps σ) (hash : Option Hash)
    (f : Option σ) : Option (Bool × Option Hash) :=
  _openremoteslide_hash_file_part ops hash f 0 (-1)

/-- A stdio `FILE` opened for reading on a regular file with the bytes
`content`, positioned at `pos`; no read error occurs. -/
structure StdioFile where
  content : List Nat
  pos : Nat
deriving DecidableEq, Repr

/-- The libc function `fseek` on a `StdioFile`: a negative target or an unknown
`origin` gives -1 and leaves the position. -/
def stdio_fseek (f : StdioFile) (offset origin : Int) : Int × StdioFile :=
  let target : Option Int :=
    if origin = SEEK_SET then some offset
    else if origin = SEEK_CUR then some ((f.pos : Int) + offset)
    else if origin = SEEK_END then some ((f.content.length : Int) + offset)
    else none
  match target with
  | none => (-1, f)
  | some t => if t < 0 then (-1, f) else (0, { f with pos := t.toNat })

/-- The libc function `ftell` on a `StdioFile`. -/
def stdio_ftell (f : StdioFile) : Int :=
  f.pos

/-- The libc function `fread(ptr, size, nmemb, f)` on a `StdioFile`: the
bytes up to the end of the file are stored, the number of complete items is
returned. -/
def stdio_fread (f : StdioFile) (size nmemb : Nat) : Nat × List Nat × StdioFile :=
  let got := (f.content.drop f.pos).take (size * nmemb)
  (if size = 0 then 0 else got.length / size, got, { f with pos := f.pos + got.length })

/-- The `CFTYPE_FILE` branches of `urlio_fseek`, `urlio_ftell` and
`urlio_fread`, which pass the call to stdio. -/
def stdioOps : UrlioOps StdioFile :=
  { fseek := stdio_fseek, ftell := stdio_ftell, fread := stdio_fread }

/-- One update of the digest with `bytes`, as the hash specification words it:
an enabled hash has `bytes` appended to what was fed, a disabled or absent one
is left alone. -/
def hash_feed (hash : Option Hash) (bytes : List Nat) : Option Hash :=
  match hash with
  | some h => if h.enabled then some { h with checksum := h.checksum ++ bytes } else some h
  | none => none

/-- The handle `f` reads the file with content `F`: `At f p` says that `f`
is positioned at offset `p`; seeks to the end and to offsets inside the file
succeed and position the handle there, `ftell` returns the position, and a read
of `n >= 1` bytes that end inside the file returns `n`, stores the `n` file
bytes from the position on and advances the position by `n`. -/
def ReadsFile {σ : Type} (ops : UrlioOps σ) (F : List Nat) (At : σ → Nat → Prop) : Prop :=
  (∀ f p, At f p → (ops.fseek f 0 SEEK_END).1 = 0 ∧ At (ops.fseek f 0 SEEK_END).2 F.length) ∧
  (∀ f p, At f p → ops.ftell f = (p : Int)) ∧
  (∀ f p (off : Nat), At f p → off ≤ F.length →
    (ops.fseek f (off : Int) SEEK_SET).1 = 0 ∧ At (ops.fseek f (off : Int) SEEK_SET).2 off) ∧
  (∀ f p (n : Nat), At f p → 1 ≤ n → p + n ≤ F.length →
    (ops.fread f 1 n).1 = n ∧ (ops.fread f 1 n).2.1 = (F.drop p).take n ∧
    At (ops.fread f 1 n).2.2 (p + n))

/-- A call on a hash: an update with data, with a string, or with part of a
file (`ops` and `f` being the reader and what `_openremoteslide_fopen`
returns). -/
inductive HashCall (σ : Type) where
  | data (data : Option (List Nat)) (datalen : Int)
  | string (str : Option (List Nat))
  | file_part (ops : UrlioOps σ) (f : Option σ) (offset size : Int)

/-- The hash after one call; for `file_part`, `none` if the call does not
return. -/
def hashCall {σ : Type} (hash : Option Hash) : HashCall σ → Option (Option Hash)
  | .data data datalen => some (_openremoteslide_hash_data hash data datalen)
  | .string str => some (_openremoteslide_hash_string hash str)
  | .file_part ops f offset size =>
    match _openremoteslide_hash_file_part ops hash f offset size with
    | some r => some r.2
    | none => none

/-- The hash after a sequence of calls. -/
def runHash {σ : Type} : Option Hash → List (HashCall σ) → Option (Option Hash)
  | hash, [] => some hash
  | hash, c :: cs =>
    match hashCall hash c with
    | some h1 => runHash h1 cs
    | none => none

/-- A file of ten bytes opened with stdio, positioned at its start. -/
def sampleStdioFile : StdioFile :=
  { content := sampleBytes, pos := 0 }

/-- The memory holding the C string "ab" and its terminator. -/
def sampleCString : List Nat := [97, 98, 0]

/-- The stdio handle `f` is open on a file with content `F`, at offset `p`
inside it. -/
def StdioAt (F : List Nat) (f : StdioFile) (p : Nat) : Prop :=
  f.content = F ∧ f.pos = p ∧ p ≤ F.length

/-! ### Callers of the handle pool -/

/-- The function `get_associated_image_data`.  `opened` is what `tiff_open`
returns if it is called; `work h` is the value of
`_get_associated_image_data(tiff, img, dest, err)`, which does not touch the
pool.  `none` when the assertion in `_openremoteslide_tiffcache_put` fails; else
the pool afterwards, the handle passed to `TIFFClose` if any, and the `bool`
returned. -/
def get_associated_image_data {α : Type} (tc : Tiffcache α) (opened : Option α)
    (work : α → Bool) : Option (Tiffcache α × Option α × Bool) :=
  let r := _openremoteslide_tiffcache_get tc opened
  let success : Bool :=
    match r.2 with
    | some h => work h
    | none => false
  match _openremoteslide_tiffcache_put r.1 r.2 with
  | none => none
  | some p => some (p.1, p.2, success)

/-- The function `_openremoteslide_tiff_add_associated_image`.  `work h` is the
value of `_add_associated_image(osr, name, tc, dir, tiff, err)`, which does not
touch the pool.  The result is as for `get_associated_image_data`. -/
def _openremoteslide_tiff_add_associated_image {α : Type} (tc : Tiffcache α)
    (opened : Option α) (work : α → Bool) : Option (Tiffcache α × Option α × Bool) :=
  let r := _openremoteslide_tiffcache_get tc opened
  let ret : Bool :=
    match r.2 with
    | some h => work h
    | none => false
  match _openremoteslide_tiffcache_put r.1 r.2 with
  | none => none
  | some p => some (p.1, p.2, ret)

/-- The directory `sampleTags` with a tile width of 0. -/
def zeroTileWidthTags : TiffDirTags :=
  { sampleTags with tile_width := some 0 }

/-- A handle positioned on directory 0 of a file with two directories:
`sampleTags` and `zeroTileWidthTags`. -/
def zeroTileWidthTiff : Tiff :=
  { cur := 0, tags := sampleTags, dirs := [sampleTags, zeroTileWidthTags] }

/-! ## Part 2: theorems -/

theorem poolCall_cache_le {α : Type} (tc tc1 : Tiffcache α) (c : PoolCall α)
    (hle : tc.cache.length ≤ HANDLE_CACHE_MAX) (hstep : poolCall tc c = some tc1) :
    tc1.cache.length ≤ HANDLE_CACHE_MAX := by
  cases c with
  | get opened =>
    simp only [poolCall, Option.some.injEq] at hstep
    subst hstep
    unfold _openremoteslide_tiffcache_get tiffcache_get_locked tiffcache_get_failed
    cases hc : tc.cache with
    | nil => cases opened <;> simp [HANDLE_CACHE_MAX]
    | cons h rest =>
      rw [hc] at hle
      simp only [List.length_cons] at hle
      simp only
      omega
  | put tiff =>
    cases tiff with
    | none =>
      simp only [poolCall, _openremoteslide_tiffcache_put, Option.map_some', Option.some.injEq] at hstep
      subst hstep
      exact hle
    | some h =>
      simp only [poolCall, _openremoteslide_tiffcache_put] at hstep
      split_ifs at hstep with h0 hlt
      · simp at hstep
      · simp only [Option.map_some', Option.some.injEq] at hstep
        subst hstep
        simp only [List.length_cons]
        omega
      · simp only [Option.map_some', Option.some.injEq] at hstep
        subst hstep
        exact hle

theorem runCalls_cache_le {α : Type} (calls : List (PoolCall α)) :
    ∀ (tc tc1 : Tiffcache α), tc.cache.length ≤ HANDLE_CACHE_MAX →
      runCalls calls tc = some tc1 → tc1.cache.length ≤ HANDLE_CACHE_MAX := by
  induction calls with
  | nil =>
    intro tc tc1 hle hrun
    simp only [runCalls, Option.some.injEq] at hrun
    subst hrun
    exact hle
  | cons c cs ih =>
    intro tc tc1 hle hrun
    simp only [runCalls] at hrun
    cases hstep : poolCall tc c with
    | none => rw [hstep] at hrun; simp at hrun
    | some tc2 =>
      rw [hstep] at hrun
      exact ih tc2 tc1 (poolCall_cache_le tc tc2 c hle hstep) hrun

/-- C1: in every pool state reached from `_openremoteslide_tiffcache_create` by
a sequence of `_openremoteslide_tiffcache_get` and `_openremoteslide_tiffcache_put`
calls (any `tiff_open` results, any handles returned), the idle queue holds at
most `HANDLE_CACHE_MAX = 32` handles. -/
theorem tiffcache_idle_queue_bounded (calls : List (PoolCall Nat)) (tc : Tiffcache Nat)
    (hrun : runCalls calls _openremoteslide_tiffcache_create = some tc) :
    tc.cache.length ≤ 32 ∧ HANDLE_CACHE_MAX = 32 :=
  ⟨runCalls_cache_le calls _openremoteslide_tiffcache_create tc
    (by simp [_openremoteslide_tiffcache_create]) hrun, rfl⟩

/-- Witness for C1: a checkout that opens handle 5 followed by its return. -/
theorem tiffcache_idle_queue_bounded_witness :
    runCalls [PoolCall.get (some 5), PoolCall.put (some 5)]
        (_openremoteslide_tiffcache_create : Tiffcache Nat)
      = some { cache := [5], outstanding := 0 } ∧
    (([5] : List Nat).length ≤ 32 ∧ HANDLE_CACHE_MAX = 32) :=
  ⟨by decide, tiffcache_idle_queue_bounded
    [PoolCall.get (some 5), PoolCall.put (some 5)] { cache := [5], outstanding := 0 }
    (by decide)⟩

/-- C2: for a pool with `outstanding > 0` and a non-NULL handle `h`,
`_openremoteslide_tiffcache_put(tc, h)` returns normally and decreases
`outstanding` by exactly 1; if the idle queue held fewer than 32 handles, `h`
becomes its head and `TIFFClose` is not called; otherwise the idle queue is
unchanged and `h` is passed to `TIFFClose`. -/
theorem tiffcache_put_effect {α : Type} (tc : Tiffcache α) (h : α)
    (hout : 0 < tc.outstanding) :
    ∃ tc1 closed, _openremoteslide_tiffcache_put tc (some h) = some (tc1, closed) ∧
      tc1.outstanding = tc.outstanding - 1 ∧
      (tc.cache.length < 32 → tc1.cache = h :: tc.cache ∧ closed = none) ∧
      (¬ tc.cache.length < 32 → tc1.cache = tc.cache ∧ closed = some h) := by
  have h0 : tc.outstanding ≠ 0 := by omega
  by_cases hlt : tc.cache.length < 32
  · refine ⟨{ cache := h :: tc.cache, outstanding := tc.outstanding - 1 }, none, ?_, rfl, ?_, ?_⟩
    · simp [_openremoteslide_tiffcache_put, h0, HANDLE_CACHE_MAX, hlt]
    · intro _; exact ⟨rfl, rfl⟩
    · intro hn; exact absurd hlt hn
  · refine ⟨{ cache := tc.cache, outstanding := tc.outstanding - 1 }, some h, ?_, rfl, ?_, ?_⟩
    · simp [_openremoteslide_tiffcache_put, h0, HANDLE_CACHE_MAX, hlt]
    · intro hl; exact absurd hl hlt
    · intro _; exact ⟨rfl, rfl⟩

/-- Witness for C2: a full idle queue (32 handles), one handle outstanding. -/
theorem tiffcache_put_effect_witness :
    ∃ tc1 closed,
      _openremoteslide_tiffcache_put
          ({ cache := List.range 32, outstanding := 1 } : Tiffcache Nat) (some 99)
        = some (tc1, closed) ∧
      tc1.outstanding = (1 : Int) - 1 ∧
      ((List.range 32).length < 32 → tc1.cache = 99 :: List.range 32 ∧ closed = none) ∧
      (¬ (List.range 32).length < 32 → tc1.cache = List.range 32 ∧ closed = some 99) :=
  tiffcache_put_effect { cache := List.range 32, outstanding := 1 } 99 (by decide)

theorem tiffcache_get_outstanding {α : Type} (tc : Tiffcache α) (opened : Option α) :
    (_openremoteslide_tiffcache_get tc opened).1.outstanding =
      tc.outstanding + (if (_openremoteslide_tiffcache_get tc opened).2.isSome then 1 else 0) := by
  unfold _openremoteslide_tiffcache_get tiffcache_get_locked tiffcache_get_failed
  cases hc : tc.cache with
  | nil => cases opened <;> simp
  | cons h rest => simp

theorem tiffcache_put_some_outstanding {α : Type} (tc : Tiffcache α) (h : α)
    (r : Tiffcache α × Option α)
    (hput : _openremoteslide_tiffcache_put tc (some h) = some r) :
    r.1.outstanding = tc.outstanding - 1 := by
  simp only [_openremoteslide_tiffcache_put] at hput
  split_ifs at hput with h0 hlt
  · simp only [Option.some.injEq] at hput
    subst hput
    rfl
  · simp only [Option.some.injEq] at hput
    subst hput
    rfl

theorem sysCall_counts {α : Type} [DecidableEq α] (s s1 : PoolSys α) (c : PoolCall α)
    (hinv : s.tc.outstanding = s.held.length) (hstep : sysCall s c = some s1) :
    s1.tc.outstanding = s1.held.length := by
  cases c with
  | get opened =>
    have hout := tiffcache_get_outstanding s.tc opened
    simp only [sysCall] at hstep
    cases hr : (_openremoteslide_tiffcache_get s.tc opened).2 with
    | none =>
      rw [hr] at hstep hout
      simp only [Option.some.injEq] at hstep
      subst hstep
      simp only [Option.isSome_none, Bool.false_eq_true, if_false, add_zero] at hout
      simp only [hout, hinv]
    | some h =>
      rw [hr] at hstep hout
      simp only [Option.some.injEq] at hstep
      subst hstep
      simp only [Option.isSome_some, if_true] at hout
      simp only [hout, hinv, List.length_cons]
      push_cast
      rfl
  | put tiff =>
    cases tiff with
    | none =>
      simp only [sysCall, _openremoteslide_tiffcache_put, Option.some.injEq] at hstep
      subst hstep
      exact hinv
    | some h =>
      simp only [sysCall] at hstep
      split_ifs at hstep with hmem
      cases hput : _openremoteslide_tiffcache_put s.tc (some h) with
      | none => rw [hput] at hstep; simp at hstep
      | some r =>
        rw [hput] at hstep
        simp only [Option.some.injEq] at hstep
        subst hstep
        have hlen : 0 < s.held.length := List.length_pos_of_mem hmem
        simp only [tiffcache_put_some_outstanding s.tc h r hput, hinv,
          List.length_erase_of_mem hmem]
        omega

theorem runSys_counts {α : Type} [DecidableEq α] (calls : List (PoolCall α)) :
    ∀ (s s1 : PoolSys α), s.tc.outstanding = s.held.length →
      runSys calls s = some s1 → s1.tc.outstanding = s1.held.length := by
  induction calls with
  | nil =>
    intro s s1 hinv hrun
    simp only [runSys, Option.some.injEq] at hrun
    subst hrun
    exact hinv
  | cons c cs ih =>
    intro s s1 hinv hrun
    simp only [runSys] at hrun
    cases hstep : sysCall s c with
    | none => rw [hstep] at hrun; simp at hrun
    | some s2 =>
      rw [hstep] at hrun
      exact ih s2 s1 (sysCall_counts s s2 c hinv hstep) hrun

theorem tiffcache_destroy_loop_eq {α : Type} (q : List α) :
    ∀ closed : List α, tiffcache_destroy_loop q closed = ([], closed ++ q) := by
  induction q with
  | nil => intro closed; simp [tiffcache_destroy_loop]
  | cons h rest ih => intro closed; simp [tiffcache_destroy_loop, ih]

/-- C3: in every state reached from `_openremoteslide_tiffcache_create` by
checkouts and returns in which each return gives back a handle currently
checked out, `outstanding` equals the number of handles checked out and not yet
returned; so `outstanding >= 0`, the `g_assert(tc->outstanding)` of a further
legal return does not fire, and once nothing is checked out `outstanding == 0`,
the assertion of `_openremoteslide_tiffcache_destroy` holds and destroy closes
the idle handles and leaves the queue empty. -/
theorem tiffcache_outstanding_counts_checked_out {α : Type} [DecidableEq α]
    (calls : List (PoolCall α)) (s : PoolSys α)
    (hrun : runSys calls PoolSys.init = some s) :
    s.tc.outstanding = s.held.length ∧
    0 ≤ s.tc.outstanding ∧
    (∀ h ∈ s.held, ∃ r, _openremoteslide_tiffcache_put s.tc (some h) = some r) ∧
    (s.held = [] → s.tc.outstanding = 0 ∧
      _openremoteslide_tiffcache_destroy s.tc = some ([], s.tc.cache)) := by
  have hinv : s.tc.outstanding = s.held.length :=
    runSys_counts calls PoolSys.init s
      (by simp [PoolSys.init, _openremoteslide_tiffcache_create]) hrun
  refine ⟨hinv, by omega, ?_, ?_⟩
  · intro h hmem
    have hlen : 0 < s.held.length := List.length_pos_of_mem hmem
    have h0 : s.tc.outstanding ≠ 0 := by omega
    simp only [_openremoteslide_tiffcache_put, h0, if_false]
    split_ifs
    · exact ⟨_, rfl⟩
    · exact ⟨_, rfl⟩
  · intro hnil
    have h0 : s.tc.outstanding = 0 := by simp [hinv, hnil]
    refine ⟨h0, ?_⟩
    simp [_openremoteslide_tiffcache_destroy, h0, tiffcache_destroy_loop_eq]

/-- Witness for C3: two checkouts (handles 1 and 2 opened), then both returned
in the order 1, 2. -/
theorem tiffcache_outstanding_counts_checked_out_witness :
    runSys [PoolCall.get (some 1), PoolCall.get (some 2), PoolCall.put (some 1),
        PoolCall.put (some 2)] (PoolSys.init : PoolSys Nat)
      = some { tc := { cache := [2, 1], outstanding := 0 }, held := [] } ∧
    _openremoteslide_tiffcache_destroy ({ cache := [2, 1], outstanding := 0 } : Tiffcache Nat)
      = some ([], [2, 1]) :=
  ⟨by decide,
   ((tiffcache_outstanding_counts_checked_out
      [PoolCall.get (some 1), PoolCall.get (some 2), PoolCall.put (some 1),
        PoolCall.put (some 2)]
      { tc := { cache := [2, 1], outstanding := 0 }, held := [] } (by decide)).2.2.2 rfl).2⟩

theorem stampedCall_unstamp {α : Type} (t : Nat) (tc tc1 : Tiffcache (α × Nat))
    (c : PoolCall α) (hstep : stampedCall t tc c = some tc1) :
    poolCall (unstamp tc) c = some (unstamp tc1) := by
  cases c with
  | get opened =>
    simp only [stampedCall, Option.some.injEq] at hstep
    subst hstep
    simp only [poolCall, Option.some.injEq]
    unfold _openremoteslide_tiffcache_get tiffcache_get_locked tiffcache_get_failed unstamp
    cases hc : tc.cache with
    | nil => cases opened <;> simp
    | cons p rest => simp
  | put tiff =>
    cases tiff with
    | none =>
      simp only [stampedCall, _openremoteslide_tiffcache_put, Option.map_none', Option.map_some',
        Option.some.injEq] at hstep
      subst hstep
      simp [poolCall, _openremoteslide_tiffcache_put]
    | some h =>
      simp only [stampedCall, _openremoteslide_tiffcache_put, Option.map_some'] at hstep
      simp only [poolCall, _openremoteslide_tiffcache_put, unstamp, List.length_map]
      split_ifs at hstep ⊢ with h0 hlt
      · simp at hstep
      · simp only [Option.map_some', Option.some.injEq] at hstep
        subst hstep
        simp
      · simp only [Option.map_some', Option.some.injEq] at hstep
        subst hstep
        simp

theorem runStamped_unstamp {α : Type} (calls : List (PoolCall α)) :
    ∀ (t : Nat) (tc tc1 : Tiffcache (α × Nat)), runStamped calls t tc = some tc1 →
      runCalls calls (unstamp tc) = some (unstamp tc1) := by
  induction calls with
  | nil =>
    intro t tc tc1 hrun
    simp only [runStamped, Option.some.injEq] at hrun
    subst hrun
    rfl
  | cons c cs ih =>
    intro t tc tc1 hrun
    simp only [runStamped] at hrun
    cases hstep : stampedCall t tc c with
    | none => rw [hstep] at hrun; simp at hrun
    | some tc2 =>
      rw [hstep] at hrun
      simp only [runCalls, stampedCall_unstamp t tc tc2 c hstep]
      exact ih (t + 1) tc2 tc1 hrun

theorem stampedCall_decreasing {α : Type} (t : Nat) (tc tc1 : Tiffcache (α × Nat))
    (c : PoolCall α) (hinv : StampsDecreasing t tc) (hstep : stampedCall t tc c = some tc1) :
    StampsDecreasing (t + 1) tc1 := by
  obtain ⟨hpw, hlt⟩ := hinv
  cases c with
  | get opened =>
    simp only [stampedCall, Option.some.injEq] at hstep
    subst hstep
    unfold _openremoteslide_tiffcache_get tiffcache_get_locked tiffcache_get_failed
    cases hc : tc.cache with
    | nil => cases opened <;> simp [StampsDecreasing]
    | cons p rest =>
      rw [hc] at hpw hlt
      refine ⟨(List.pairwise_cons.mp hpw).2, ?_⟩
      intro q hq
      have := hlt q (List.mem_cons_of_mem p hq)
      omega
  | put tiff =>
    cases tiff with
    | none =>
      simp only [stampedCall, _openremoteslide_tiffcache_put, Option.map_none', Option.map_some',
        Option.some.injEq] at hstep
      subst hstep
      exact ⟨hpw, fun q hq => Nat.lt_succ_of_lt (hlt q hq)⟩
    | some h =>
      simp only [stampedCall, _openremoteslide_tiffcache_put, Option.map_some'] at hstep
      split_ifs at hstep with h0 hlen
      · simp at hstep
      · simp only [Option.map_some', Option.some.injEq] at hstep
        subst hstep
        refine ⟨List.pairwise_cons.mpr ⟨fun q hq => hlt q hq, hpw⟩, ?_⟩
        intro q hq
        rcases List.mem_cons.mp hq with rfl | hq
        · exact Nat.lt_succ_self t
        · exact Nat.lt_succ_of_lt (hlt q hq)
      · simp only [Option.map_some', Option.some.injEq] at hstep
        subst hstep
        exact ⟨hpw, fun q hq => Nat.lt_succ_of_lt (hlt q hq)⟩

theorem runStamped_decreasing {α : Type} (calls : List (PoolCall α)) :
    ∀ (t : Nat) (tc tc1 : Tiffcache (α × Nat)), StampsDecreasing t tc →
      runStamped calls t tc = some tc1 → StampsDecreasing (t + calls.length) tc1 := by
  induction calls with
  | nil =>
    intro t tc tc1 hinv hrun
    simp only [runStamped, Option.some.injEq] at hrun
    subst hrun
    exact hinv
  | cons c cs ih =>
    intro t tc tc1 hinv hrun
    simp only [runStamped] at hrun
    cases hstep : stampedCall t tc c with
    | none => rw [hstep] at hrun; simp at hrun
    | some tc2 =>
      rw [hstep] at hrun
      have := ih (t + 1) tc2 tc1 (stampedCall_decreasing t tc tc2 c hinv hstep) hrun
      simpa [Nat.add_assoc, Nat.add_comm 1] using this

theorem tiffcache_get_cons {α : Type} (tc : Tiffcache α) (opened : Option α) (h : α)
    (rest : List α) (hc : tc.cache = h :: rest) :
    _openremoteslide_tiffcache_get tc opened =
      ({ cache := rest, outstanding := tc.outstanding + 1 }, some h) := by
  unfold _openremoteslide_tiffcache_get tiffcache_get_locked
  rw [hc]

/-- C4: the idle queue is LIFO.  In every state reached from
`_openremoteslide_tiffcache_create` (the time-tagged run is the plain run with
each returned handle tagged by the index of its return), a checkout on a
non-empty idle queue yields the head of the queue, whatever `tiff_open` would
give, and that head was returned later than every handle still idle.  For every
pool with fewer than 32 idle handles, `put(h)` followed by `get` yields `h` and
restores the pool, idle queue included. -/
theorem tiffcache_lifo {α : Type} (calls : List (PoolCall α)) (tc : Tiffcache (α × Nat))
    (hrun : runStamped calls 0 _openremoteslide_tiffcache_create = some tc) :
    runCalls calls _openremoteslide_tiffcache_create = some (unstamp tc) ∧
    (∀ (opened : Option (α × Nat)) (p : α × Nat) (rest : List (α × Nat)),
      tc.cache = p :: rest →
        _openremoteslide_tiffcache_get tc opened =
          ({ cache := rest, outstanding := tc.outstanding + 1 }, some p) ∧
        ∀ q ∈ rest, q.2 < p.2) ∧
    (∀ (pool : Tiffcache α) (h : α) (opened : Option α),
      pool.cache.length < 32 → pool.outstanding ≠ 0 →
        ∃ pool1, _openremoteslide_tiffcache_put pool (some h) = some (pool1, none) ∧
          pool1.cache = h :: pool.cache ∧
          _openremoteslide_tiffcache_get pool1 opened = (pool, some h)) := by
  refine ⟨?_, ?_, ?_⟩
  · exact runStamped_unstamp calls 0 _openremoteslide_tiffcache_create tc hrun
  · intro opened p rest hc
    refine ⟨tiffcache_get_cons tc opened p rest hc, ?_⟩
    have hinv := runStamped_decreasing calls 0 _openremoteslide_tiffcache_create tc
      (by simp [StampsDecreasing, _openremoteslide_tiffcache_create]) hrun
    have hpw := hinv.1
    rw [hc] at hpw
    exact (List.pairwise_cons.mp hpw).1
  · intro pool h opened hlt h0
    refine ⟨{ cache := h :: pool.cache, outstanding := pool.outstanding - 1 }, ?_, rfl, ?_⟩
    · simp [_openremoteslide_tiffcache_put, h0, HANDLE_CACHE_MAX, hlt]
    · rw [tiffcache_get_cons _ opened h pool.cache rfl]
      simp

/-- Witness for C4: handles 1, 2, 3 are opened, then returned in the order
2, 1, 3 (calls number 3, 4, 5); the next checkout yields 3, returned last. -/
theorem tiffcache_lifo_witness :
    runStamped [PoolCall.get (some 1), PoolCall.get (some 2), PoolCall.get (some 3),
        PoolCall.put (some 2), PoolCall.put (some 1), PoolCall.put (some 3)] 0
        (_openremoteslide_tiffcache_create : Tiffcache (Nat × Nat))
      = some { cache := [(3, 5), (1, 4), (2, 3)], outstanding := 0 } ∧
    _openremoteslide_tiffcache_get
        ({ cache := [(3, 5), (1, 4), (2, 3)], outstanding := 0 } : Tiffcache (Nat × Nat)) none
      = ({ cache := [(1, 4), (2, 3)], outstanding := 0 + 1 }, some (3, 5)) :=
  ⟨by decide,
   ((tiffcache_lifo
      [PoolCall.get (some 1), PoolCall.get (some 2), PoolCall.get (some 3),
        PoolCall.put (some 2), PoolCall.put (some 1), PoolCall.put (some 3)]
      { cache := [(3, 5), (1, 4), (2, 3)], outstanding := 0 } (by decide)).2.1
      none (3, 5) [(1, 4), (2, 3)] rfl).1⟩

theorem tiffcache_put_some_cache {α : Type} (tc : Tiffcache α) (h : α)
    (r : Tiffcache α × Option α)
    (hput : _openremoteslide_tiffcache_put tc (some h) = some r) :
    r.1.cache = h :: tc.cache ∨ r.1.cache = tc.cache := by
  simp only [_openremoteslide_tiffcache_put] at hput
  split_ifs at hput with h0 hlt
  · simp only [Option.some.injEq] at hput
    subst hput
    exact Or.inl rfl
  · simp only [Option.some.injEq] at hput
    subst hput
    exact Or.inr rfl

theorem perm_cons_erase_lawful {α : Type} [BEq α] [LawfulBEq α] (a : α) :
    ∀ l : List α, a ∈ l → l.Perm (a :: l.erase a) := by
  intro l
  induction l with
  | nil => intro h; cases h
  | cons b t ih =>
    intro h
    by_cases hb : b = a
    · subst hb
      simp
    · have hmem : a ∈ t := by
        rcases List.mem_cons.mp h with e | e
        · exact absurd e.symm hb
        · exact e
      rw [List.erase_cons_tail (by simpa using hb)]
      exact ((ih hmem).cons b).trans (List.Perm.swap a b _)

theorem poolStep_exclusive (w w1 : PoolWorld) (st : PoolStep)
    (hinv : w.Exclusive) (hstep : poolStep w st = some w1) : w1.Exclusive := by
  unfold PoolWorld.Exclusive PoolWorld.heldHandles at *
  cases st with
  | getLocked c =>
    simp only [poolStep, tiffcache_get_locked] at hstep
    cases hc : w.tc.cache with
    | nil =>
      rw [hc] at hstep hinv
      simp only [Option.some.injEq] at hstep
      subst hstep
      simpa using hinv
    | cons h rest =>
      rw [hc] at hstep hinv
      simp only [Option.some.injEq] at hstep
      subst hstep
      simp only [List.map_cons, List.cons_append]
      exact List.nodup_middle.mp hinv
  | opened c tiff =>
    cases tiff with
    | none =>
      simp only [poolStep] at hstep
      split_ifs at hstep with hmem
      simp only [Option.some.injEq] at hstep
      subst hstep
      exact hinv
    | some h =>
      simp only [poolStep, PoolWorld.heldHandles] at hstep
      split_ifs at hstep with hg
      simp only [Option.some.injEq] at hstep
      subst hstep
      simp only [List.map_cons, List.cons_append, List.nodup_cons, List.mem_append, not_or]
      exact ⟨⟨hg.2.2, hg.2.1⟩, hinv⟩
  | put c h =>
    simp only [poolStep] at hstep
    split_ifs at hstep with hmem
    cases hput : _openremoteslide_tiffcache_put w.tc (some h) with
    | none => rw [hput] at hstep; simp at hstep
    | some r =>
      rw [hput] at hstep
      simp only [Option.some.injEq] at hstep
      subst hstep
      have hperm : (w.held.map Prod.snd ++ w.tc.cache).Perm
          (h :: ((w.held.erase (c, h)).map Prod.snd ++ w.tc.cache)) := by
        have hp := List.Perm.append_right w.tc.cache
          ((perm_cons_erase_lawful (c, h) w.held hmem).map Prod.snd)
        simpa only [List.map_cons, List.cons_append] using hp
      have hnd : (h :: ((w.held.erase (c, h)).map Prod.snd ++ w.tc.cache)).Nodup :=
        hperm.nodup_iff.mp hinv
      rcases tiffcache_put_some_cache w.tc h r hput with hcache | hcache
      · simp only [hcache]
        exact List.nodup_middle.mpr hnd
      · simp only [hcache]
        exact (List.nodup_cons.mp hnd).2

theorem runSteps_exclusive (steps : List PoolStep) :
    ∀ (w w1 : PoolWorld), w.Exclusive → runSteps steps w = some w1 → w1.Exclusive := by
  induction steps with
  | nil =>
    intro w w1 hinv hrun
    simp only [runSteps, Option.some.injEq] at hrun
    subst hrun
    exact hinv
  | cons st sts ih =>
    intro w w1 hinv hrun
    simp only [runSteps] at hrun
    cases hstep : poolStep w st with
    | none => rw [hstep] at hrun; simp at hrun
    | some w2 =>
      rw [hstep] at hrun
      exact ih w2 w1 (poolStep_exclusive w w2 st hinv hstep) hrun

theorem poolStep_acquires_held (w w1 : PoolWorld) (st : PoolStep) (h : Nat)
    (hstep : poolStep w st = some w1) (hacq : poolStepAcquires w st = some h) :
    h ∈ w1.heldHandles := by
  unfold PoolWorld.heldHandles
  cases st with
  | getLocked c =>
    simp only [poolStepAcquires] at hacq
    simp only [poolStep, hacq, Option.some.injEq] at hstep
    subst hstep
    simp
  | opened c tiff =>
    simp only [poolStepAcquires] at hacq
    subst hacq
    simp only [poolStep] at hstep
    split_ifs at hstep with hg
    simp only [Option.some.injEq] at hstep
    subst hstep
    simp
  | put c h1 => simp [poolStepAcquires] at hacq

theorem poolStep_acquires_new (w w1 : PoolWorld) (st : PoolStep) (h : Nat)
    (hinv : w.Exclusive) (hstep : poolStep w st = some w1)
    (hacq : poolStepAcquires w st = some h) : h ∉ w.heldHandles := by
  unfold PoolWorld.Exclusive at hinv
  cases st with
  | getLocked c =>
    simp only [poolStepAcquires, tiffcache_get_locked] at hacq
    cases hc : w.tc.cache with
    | nil => rw [hc] at hacq; simp at hacq
    | cons h1 rest =>
      rw [hc] at hacq hinv
      simp only [Option.some.injEq] at hacq
      subst hacq
      intro hmem
      exact (List.nodup_append.mp hinv).2.2 hmem (List.mem_cons_self _ _)
  | opened c tiff =>
    simp only [poolStepAcquires] at hacq
    subst hacq
    simp only [poolStep] at hstep
    split_ifs at hstep with hg
    exact hg.2.2
  | put c h1 => simp [poolStepAcquires] at hacq

theorem poolStep_keeps_held (w w1 : PoolWorld) (st : PoolStep) (h : Nat)
    (hstep : poolStep w st = some w1) (hne : ∀ c, st ≠ PoolStep.put c h)
    (hmem : h ∈ w.heldHandles) : h ∈ w1.heldHandles := by
  unfold PoolWorld.heldHandles at *
  cases st with
  | getLocked c =>
    simp only [poolStep] at hstep
    cases hr : (tiffcache_get_locked w.tc).2 with
    | none =>
      rw [hr] at hstep
      simp only [Option.some.injEq] at hstep
      subst hstep
      exact hmem
    | some h1 =>
      rw [hr] at hstep
      simp only [Option.some.injEq] at hstep
      subst hstep
      exact List.mem_cons_of_mem _ hmem
  | opened c tiff =>
    cases tiff with
    | none =>
      simp only [poolStep] at hstep
      split_ifs at hstep with hg
      simp only [Option.some.injEq] at hstep
      subst hstep
      exact hmem
    | some h1 =>
      simp only [poolStep] at hstep
      split_ifs at hstep with hg
      simp only [Option.some.injEq] at hstep
      subst hstep
      exact List.mem_cons_of_mem _ hmem
  | put c h1 =>
    have hh : h1 ≠ h := fun e => hne c (by rw [e])
    simp only [poolStep] at hstep
    split_ifs at hstep with hg
    cases hput : _openremoteslide_tiffcache_put w.tc (some h1) with
    | none => rw [hput] at hstep; simp at hstep
    | some r =>
      rw [hput] at hstep
      simp only [Option.some.injEq] at hstep
      subst hstep
      obtain ⟨x, hx, hxe⟩ := List.mem_map.mp hmem
      refine List.mem_map.mpr ⟨x, ?_, hxe⟩
      refine (List.mem_erase_of_ne ?_).mpr hx
      intro e
      rw [e] at hxe
      exact hh hxe

theorem runSteps_keeps_held (steps : List PoolStep) (h : Nat) :
    ∀ (w w1 : PoolWorld), runSteps steps w = some w1 →
      (∀ c, PoolStep.put c h ∉ steps) → h ∈ w.heldHandles → h ∈ w1.heldHandles := by
  induction steps with
  | nil =>
    intro w w1 hrun _ hmem
    simp only [runSteps, Option.some.injEq] at hrun
    subst hrun
    exact hmem
  | cons st sts ih =>
    intro w w1 hrun hno hmem
    simp only [runSteps] at hrun
    cases hstep : poolStep w st with
    | none => rw [hstep] at hrun; simp at hrun
    | some w2 =>
      rw [hstep] at hrun
      refine ih w2 w1 hrun (fun c hc => hno c (List.mem_cons_of_mem _ hc)) ?_
      exact poolStep_keeps_held w w2 st h hstep
        (fun c e => hno c (by rw [e]; exact List.mem_cons_self _ _)) hmem

theorem poolStep_get_call (w : PoolWorld) (c : Nat) (opened : Option Nat) :
    (w.tc.cache ≠ [] →
      ∃ w1, poolStep w (.getLocked c) = some w1 ∧
        w1.tc = (_openremoteslide_tiffcache_get w.tc opened).1 ∧
        poolStepAcquires w (.getLocked c) = (_openremoteslide_tiffcache_get w.tc opened).2) ∧
    (w.tc.cache = [] →
      ∀ w1 w2, poolStep w (.getLocked c) = some w1 → poolStep w1 (.opened c opened) = some w2 →
        w2.tc = (_openremoteslide_tiffcache_get w.tc opened).1 ∧
        poolStepAcquires w1 (.opened c opened) = (_openremoteslide_tiffcache_get w.tc opened).2) := by
  constructor
  · intro hne
    cases hc : w.tc.cache with
    | nil => exact absurd hc hne
    | cons h rest =>
      simp [poolStep, poolStepAcquires, _openremoteslide_tiffcache_get, tiffcache_get_locked, hc]
  · intro hnil w1 w2 h1 h2
    simp only [poolStep, tiffcache_get_locked, hnil, Option.some.injEq] at h1
    subst h1
    cases opened with
    | none =>
      simp only [poolStep] at h2
      split_ifs at h2
      simp only [Option.some.injEq] at h2
      subst h2
      simp [poolStepAcquires, _openremoteslide_tiffcache_get, tiffcache_get_locked, hnil]
    | some h =>
      simp only [poolStep] at h2
      split_ifs at h2
      simp only [Option.some.injEq] at h2
      subst h2
      simp [poolStepAcquires, _openremoteslide_tiffcache_get, tiffcache_get_locked, hnil]

/-- C5: in every state reached from `_openremoteslide_tiffcache_create` by an
interleaving of atomic checkout and return steps (a handle just opened is
fresh, a return gives back a handle its caller holds), no handle is in the
idle queue and checked out at once, no handle appears twice in the idle queue,
no handle is checked out twice at once, so no two callers hold the same
handle; and two checkouts yield distinct handles unless the first handle was
returned in between. -/
theorem tiffcache_handle_exclusive (steps : List PoolStep) (w : PoolWorld)
    (hrun : runSteps steps PoolWorld.init = some w) :
    (∀ h, h ∈ w.tc.cache → h ∉ w.heldHandles) ∧
    w.tc.cache.Nodup ∧
    w.heldHandles.Nodup ∧
    (∀ c1 c2 h, (c1, h) ∈ w.held → (c2, h) ∈ w.held → c1 = c2) ∧
    (∀ (st1 st2 : PoolStep) (mid : List PoolStep) (w1 w2 w3 : PoolWorld) (h1 h2 : Nat),
      poolStep w st1 = some w1 → poolStepAcquires w st1 = some h1 →
      runSteps mid w1 = some w2 → (∀ c, PoolStep.put c h1 ∉ mid) →
      poolStep w2 st2 = some w3 → poolStepAcquires w2 st2 = some h2 →
      h1 ≠ h2) := by
  have hinv : w.Exclusive :=
    runSteps_exclusive steps PoolWorld.init w
      (by simp [PoolWorld.Exclusive, PoolWorld.init, PoolWorld.heldHandles,
        _openremoteslide_tiffcache_create]) hrun
  have hsplit := List.nodup_append.mp hinv
  refine ⟨?_, hsplit.2.1, hsplit.1, ?_, ?_⟩
  · intro h hc hh
    exact hsplit.2.2 hh hc
  · intro c1 c2 h hm1 hm2
    have hinj := List.inj_on_of_nodup_map hsplit.1 hm1 hm2 rfl
    exact (Prod.mk.inj hinj).1
  · intro st1 st2 mid w1 w2 w3 h1 h2 hs1 ha1 hmid hno hs2 ha2 heq
    have hinv1 : w1.Exclusive := poolStep_exclusive w w1 st1 hinv hs1
    have hinv2 : w2.Exclusive := runSteps_exclusive mid w1 w2 hinv1 hmid
    have hheld1 : h1 ∈ w1.heldHandles := poolStep_acquires_held w w1 st1 h1 hs1 ha1
    have hheld2 : h1 ∈ w2.heldHandles := runSteps_keeps_held mid h1 w1 w2 hmid hno hheld1
    have hnew : h2 ∉ w2.heldHandles := poolStep_acquires_new w2 w3 st2 h2 hinv2 hs2 ha2
    exact hnew (heq ▸ hheld2)

/-- Witness for C5: caller 0 opens handle 10, caller 1 opens handle 11,
caller 0 returns 10, caller 2 checks out and gets 10 from the idle queue. -/
theorem tiffcache_handle_exclusive_witness :
    runSteps [PoolStep.getLocked 0, PoolStep.opened 0 (some 10), PoolStep.getLocked 1,
        PoolStep.opened 1 (some 11), PoolStep.put 0 10, PoolStep.getLocked 2] PoolWorld.init
      = some { tc := { cache := [], outstanding := 2 }, held := [(2, 10), (1, 11)],
               opening := [] } ∧
    ([10, 11] : List Nat).Nodup :=
  ⟨by decide,
   (tiffcache_handle_exclusive
      [PoolStep.getLocked 0, PoolStep.opened 0 (some 10), PoolStep.getLocked 1,
        PoolStep.opened 1 (some 11), PoolStep.put 0 10, PoolStep.getLocked 2]
      { tc := { cache := [], outstanding := 2 }, held := [(2, 10), (1, 11)], opening := [] }
      (by decide)).2.2.1⟩

theorem char_M_toNat : 'M'.toNat = 77 := rfl
theorem char_I_toNat : 'I'.toNat = 73 := rfl

theorem shl8_or_mod (a b : Nat) (ha : a < 256) (hb : b < 256) :
    ((a <<< 8) ||| b) % 65536 = a * 256 + b := by
  have h := Nat.mul_add_lt_is_or (i := 8) (b := b) (by simpa using hb) a
  rw [Nat.shiftLeft_eq, Nat.mul_comm a (2 ^ 8), ← h]
  norm_num
  omega

/-- C6 (amended): for a readable file starting with bytes `b0 b1 b2 b3`,
`tiff_open` reaches `TIFFClientOpen` if and only if `b0 == b1`, `b0` is 'I' or
'M', and the 16-bit version in that byte order is 42, or 43 with a 64-bit
offset type; then it returns what `TIFFClientOpen` returns.  Every other prefix
is rejected without calling `TIFFClientOpen`: with "BigTIFF support requires
libtiff >= 4" when the marks are right and the version is 43 (the offset type
is then 32-bit), with "Not a TIFF file" otherwise. -/
theorem tiff_open_magic_check {α : Type} (b0 b1 b2 b3 : Nat) (size : Int) (toff : Nat)
    (client_open : Option α) (h2 : b2 < 256) (h3 : b3 < 256) (hsize : size ≠ -1)
    (htoff : toff = 4 ∨ toff = 8) :
    ((tiff_open (TiffOpenEnv.ofMagic b0 b1 b2 b3 size toff client_open)).client_open_called = true
      ↔ SpecMagicAccepted b0 b1 b2 b3 toff) ∧
    (SpecMagicAccepted b0 b1 b2 b3 toff →
      (tiff_open (TiffOpenEnv.ofMagic b0 b1 b2 b3 size toff client_open)).tiff = client_open) ∧
    (¬ SpecMagicAccepted b0 b1 b2 b3 toff →
      (tiff_open (TiffOpenEnv.ofMagic b0 b1 b2 b3 size toff client_open)).tiff = none ∧
      (tiff_open (TiffOpenEnv.ofMagic b0 b1 b2 b3 size toff client_open)).client_open_called = false ∧
      (tiff_open (TiffOpenEnv.ofMagic b0 b1 b2 b3 size toff client_open)).err =
        some (if b0 = b1 ∧ ((b0 = 'M'.toNat ∧ b2 * 256 + b3 = 43) ∨
                            (b0 = 'I'.toNat ∧ b3 * 256 + b2 = 43))
              then TiffOpenError.bigtiff_unsupported else TiffOpenError.not_tiff)) := by
  have hM := shl8_or_mod b2 b3 h2 h3
  have hI := shl8_or_mod b3 b2 h3 h2
  simp only [tiff_open, TiffOpenEnv.ofMagic, SpecMagicAccepted, char_M_toNat, char_I_toNat, hM, hI]
  clear hM hI
  generalize b2 * 256 + b3 = vM
  generalize b3 * 256 + b2 = vI
  by_cases h01 : b0 = b1
  · by_cases hm : b0 = 77
    · by_cases hv42 : vM = 42
      · cases client_open <;> simp [TiffOpenResult.fail, ← h01, hm, hv42, hsize]
      · by_cases hv43 : vM = 43
        · rcases htoff with ht | ht <;> cases client_open <;>
            simp [TiffOpenResult.fail, ← h01, hm, hv43, ht, hsize]
        · simp [TiffOpenResult.fail, ← h01, hm, hv42, hv43, hsize]
    · by_cases hi : b0 = 73
      · by_cases hv42 : vI = 42
        · cases client_open <;> simp [TiffOpenResult.fail, ← h01, hi, hv42, hsize]
        · by_cases hv43 : vI = 43
          · rcases htoff with ht | ht <;> cases client_open <;>
              simp [TiffOpenResult.fail, ← h01, hi, hv43, ht, hsize]
          · simp [TiffOpenResult.fail, ← h01, hm, hi, hv42, hv43, hsize]
      · simp [TiffOpenResult.fail, ← h01, hm, hi, hsize]
  · simp [TiffOpenResult.fail, h01, hsize]

/-- Witness for C6 (amended): a little-endian classic TIFF prefix `II 42 0`. -/
theorem tiff_open_magic_check_witness :
    (tiff_open (TiffOpenEnv.ofMagic 73 73 42 0 1000 8 (some 5))).client_open_called = true
      ↔ SpecMagicAccepted 73 73 42 0 8 :=
  (tiff_open_magic_check 73 73 42 0 1000 8 (some 5) (by decide) (by decide) (by decide)
    (Or.inr rfl)).1

/-- C6 as stated fails: the prefix `MM 0 43` with a 32-bit offset type is not
an accepted prefix, yet it does not fail with "Not a TIFF file": the error is
"BigTIFF support requires libtiff >= 4". -/
theorem tiff_open_bigtiff_not_not_tiff :
    ¬ (¬ SpecMagicAccepted 77 77 0 43 4 →
        (tiff_open (TiffOpenEnv.ofMagic 77 77 0 43 1000 4 (some 5))).err
          = some TiffOpenError.not_tiff ∧
        (tiff_open (TiffOpenEnv.ofMagic 77 77 0 43 1000 4 (some 5))).client_open_called
          = false) := by
  decide

/-- C7: for a TIFF directory that can be selected and has all nine required tags,
whenever `_openremoteslide_tiff_level_init` fills the level descriptor it sets
`tile_read_direct` to true if and only if compression is JPEG, planar
configuration is contiguous, photometric is RGB or YCbCr, bits per sample is 8
and samples per pixel is 3; and it does fill the descriptor whenever the tile
width and tile length are not zero. -/
theorem tiff_level_init_read_direct (tiff tiff1 : Tiff) (dir : Nat) (level : Option Level)
    (tiffl : TiffLevel) (tw th iw ih comp planar photo bps spp : Nat)
    (hdir : _openremoteslide_tiff_set_dir tiff dir = (tiff1, true))
    (htw : tiff1.tags.tile_width = some tw) (hth : tiff1.tags.tile_length = some th)
    (hiw : tiff1.tags.image_width = some iw) (hih : tiff1.tags.image_length = some ih)
    (hcomp : tiff1.tags.compression = some comp)
    (hplanar : tiff1.tags.planar_config = some planar)
    (hphoto : tiff1.tags.photometric = some photo)
    (hbps : tiff1.tags.bits_per_sample = some bps)
    (hspp : tiff1.tags.samples_per_pixel = some spp) :
    (∀ t l tl, _openremoteslide_tiff_level_init tiff dir level (some tiffl) = .ok t l tl →
      ∃ x, tl = some x ∧
        (x.tile_read_direct = true ↔
          comp = COMPRESSION_JPEG ∧ planar = PLANARCONFIG_CONTIG ∧
          (photo = PHOTOMETRIC_RGB ∨ photo = PHOTOMETRIC_YCBCR) ∧ bps = 8 ∧ spp = 3)) ∧
    (tw ≠ 0 → th ≠ 0 →
      ∃ t l x, _openremoteslide_tiff_level_init tiff dir level (some tiffl) = .ok t l (some x) ∧
        (x.tile_read_direct = true ↔
          comp = COMPRESSION_JPEG ∧ planar = PLANARCONFIG_CONTIG ∧
          (photo = PHOTOMETRIC_RGB ∨ photo = PHOTOMETRIC_YCBCR) ∧ bps = 8 ∧ spp = 3)) := by
  have hrun : _openremoteslide_tiff_level_init tiff dir level (some tiffl) =
      if tw = 0 ∨ th = 0 then LevelInitResult.undefined
      else LevelInitResult.ok tiff1
        (match level with
          | none => none
          | some _ => some { w := iw, h := ih, tile_w := tw, tile_h := th })
        (some { tiffl with
            dir := dir
            image_w := iw
            image_h := ih
            tile_w := tw
            tile_h := th
            tiles_across := divRoundUp iw tw
            tiles_down := divRoundUp ih th
            tile_read_direct :=
              (decide (comp = COMPRESSION_JPEG) && decide (planar = PLANARCONFIG_CONTIG) &&
                (decide (photo = PHOTOMETRIC_RGB) || decide (photo = PHOTOMETRIC_YCBCR)) &&
                decide (bps = 8) && decide (spp = 3))
            photometric := photo }) := by
    simp only [_openremoteslide_tiff_level_init, hdir, getFieldOrFail, htw, hth, hiw, hih,
      hcomp, hplanar, hphoto, hbps, hspp]
    simp
  refine ⟨?_, ?_⟩
  · intro t l tl hok
    rw [hrun] at hok
    split_ifs at hok with hz
    simp only [LevelInitResult.ok.injEq] at hok
    refine ⟨_, hok.2.2.symm, ?_⟩
    simp [and_assoc]
  · intro htw0 hth0
    rw [hrun]
    simp only [htw0, hth0, or_self, if_false]
    refine ⟨_, _, _, rfl, ?_⟩
    simp [and_assoc]

/-- Witness for C7: the directory `sampleTags` (JPEG, contiguous, YCbCr, 8 bits,
3 samples). -/
theorem tiff_level_init_read_direct_witness :
    ∃ t l x,
      _openremoteslide_tiff_level_init sampleTiff 0 none (some zeroTiffLevel)
        = LevelInitResult.ok t l (some x) ∧
      (x.tile_read_direct = true ↔
        7 = COMPRESSION_JPEG ∧ 1 = PLANARCONFIG_CONTIG ∧
        (6 = PHOTOMETRIC_RGB ∨ 6 = PHOTOMETRIC_YCBCR) ∧ 8 = 8 ∧ 3 = 3) :=
  (tiff_level_init_read_direct sampleTiff sampleTiff 0 none zeroTiffLevel
    256 256 300 200 7 1 6 8 3 rfl rfl rfl rfl rfl rfl rfl rfl rfl rfl).2
    (by decide) (by decide)

theorem tile_index_decode (n i j : Nat) (hi : i < n) :
    ((j * n + i : Nat) : Int) % (n : Int) = (i : Int) ∧
    ((j * n + i : Nat) : Int) / (n : Int) = (j : Int) := by
  have hpos : 0 < n := Nat.lt_of_le_of_lt (Nat.zero_le i) hi
  constructor
  · norm_cast
    rw [Nat.mul_comm, Nat.mul_add_mod, Nat.mod_eq_of_lt hi]
  · norm_cast
    rw [Nat.add_comm, Nat.add_mul_div_right _ _ hpos, Nat.div_eq_of_lt hi, Nat.zero_add]

theorem cairo_fixed_coordinate_of_range (c : Int) (hlo : -8388608 ≤ c) (hhi : c < 8388608) :
    cairo_fixed_coordinate c = c := by
  unfold cairo_fixed_coordinate
  omega

theorem cairo_fixed_coordinate_wide (c : Int) (hlo : 8388608 ≤ c) (hhi : c < 16777216) :
    cairo_fixed_coordinate c = c - 16777216 := by
  unfold cairo_fixed_coordinate
  omega

theorem cairo_clear_rectangle_length (tile_w tile_h : Int) (data : List Nat)
    (x y width height : Int) :
    (cairo_clear_rectangle tile_w tile_h data x y width height).length = data.length := by
  simp [cairo_clear_rectangle]

theorem cairo_clear_rectangle_pixel (n : Nat) (tile_h : Int) (data : List Nat)
    (x y width height : Int) (i j : Nat) (hi : i < n) (hj : (j : Int) < tile_h) :
    (cairo_clear_rectangle (n : Int) tile_h data x y width height)[j * n + i]? =
      if min (cairo_fixed_coordinate x) (cairo_fixed_coordinate (x + width)) ≤ (i : Int) ∧
          (i : Int) < max (cairo_fixed_coordinate x) (cairo_fixed_coordinate (x + width)) ∧
          min (cairo_fixed_coordinate y) (cairo_fixed_coordinate (y + height)) ≤ (j : Int) ∧
          (j : Int) < max (cairo_fixed_coordinate y) (cairo_fixed_coordinate (y + height))
      then (data[j * n + i]?).map (fun _ => 0) else data[j * n + i]? := by
  have hpos : (0 : Int) < (n : Int) := by
    have : 0 < n := Nat.lt_of_le_of_lt (Nat.zero_le i) hi
    exact_mod_cast this
  obtain ⟨hmod, hdiv⟩ := tile_index_decode n i j hi
  simp only [cairo_clear_rectangle, List.getElem?_mapIdx, hmod, hdiv, hpos, hj, true_and]
  split_ifs with hc
  · rfl
  · simp

/-- A clear rectangle whose converted box covers the whole surface zeroes
every pixel of the buffer. -/
theorem cairo_clear_rectangle_covers (tile_w tile_h : Int) (data : List Nat)
    (x y width height : Int) (htw : 0 < tile_w)
    (hlen : (data.length : Int) ≤ tile_w * tile_h)
    (hx0 : min (cairo_fixed_coordinate x) (cairo_fixed_coordinate (x + width)) ≤ 0)
    (hx1 : tile_w ≤ max (cairo_fixed_coordinate x) (cairo_fixed_coordinate (x + width)))
    (hy0 : min (cairo_fixed_coordinate y) (cairo_fixed_coordinate (y + height)) ≤ 0)
    (hy1 : tile_h ≤ max (cairo_fixed_coordinate y) (cairo_fixed_coordinate (y + height))) :
    cairo_clear_rectangle tile_w tile_h data x y width height
      = List.replicate data.length 0 := by
  apply List.ext_getElem
  · simp [cairo_clear_rectangle]
  · intro k h1 h2
    have hk : k < data.length := by simpa [cairo_clear_rectangle] using h1
    have hkI : (k : Int) < tile_w * tile_h := lt_of_lt_of_le (by exact_mod_cast hk) hlen
    have hcol0 : 0 ≤ (k : Int) % tile_w := Int.emod_nonneg _ (ne_of_gt htw)
    have hcol1 : (k : Int) % tile_w < tile_w := Int.emod_lt_of_pos _ htw
    have hrow0 : 0 ≤ (k : Int) / tile_w := Int.ediv_nonneg (Int.natCast_nonneg k) (le_of_lt htw)
    have hrow1 : (k : Int) / tile_w < tile_h :=
      Int.ediv_lt_of_lt_mul htw (by rw [mul_comm] at hkI; exact hkI)
    simp only [cairo_clear_rectangle, List.getElem_mapIdx, List.getElem_replicate]
    rw [if_pos]
    exact ⟨htw, hrow1, le_trans hx0 hcol0, lt_of_lt_of_le hcol1 hx1,
      le_trans hy0 hrow0, lt_of_lt_of_le hrow1 hy1⟩

/-- Clearing a rectangle of a buffer of zeros leaves a buffer of zeros. -/
theorem cairo_clear_rectangle_zeros (tile_w tile_h : Int) (m : Nat)
    (x y width height : Int) :
    cairo_clear_rectangle tile_w tile_h (List.replicate m 0) x y width height
      = List.replicate m 0 := by
  apply List.ext_getElem
  · simp [cairo_clear_rectangle]
  · intro k h1 h2
    simp only [cairo_clear_rectangle, List.getElem_mapIdx, List.getElem_replicate]
    split_ifs <;> rfl

/-- Inside cairo's coordinate range `_openremoteslide_tiff_clip_tile` clips at
the image edge: for a level with `0 < tile_w < 2^23`, `tile_h < 2^23`, a tile
buffer of `tile_w * tile_h` pixels and a tile whose distances
`image_w - tile_col * tile_w` and `image_h - tile_row * tile_h` to the right
and bottom image edge lie in `[-2^23, 2^23)`, after a successful call the pixel
at column `i`, row `j` of the tile is 0 if `tile_col * tile_w + i >= image_w`
or `tile_row * tile_h + j >= image_h`, and keeps its previous value otherwise;
the call succeeds when cairo reports no error; and a tile that does not cross
the right or bottom image edge is returned unchanged (whatever the distances). -/
theorem tiff_clip_tile_pixels (tiffl : TiffLevel) (tiledata : List Nat)
    (tile_col tile_row : Int) (htw : 0 < tiffl.tile_w)
    (htw1 : tiffl.tile_w < 8388608) (hth1 : tiffl.tile_h < 8388608)
    (hcw0 : -8388608 ≤ tiffl.image_w - tile_col * tiffl.tile_w)
    (hcw1 : tiffl.image_w - tile_col * tiffl.tile_w < 8388608)
    (hch0 : -8388608 ≤ tiffl.image_h - tile_row * tiffl.tile_h)
    (hch1 : tiffl.image_h - tile_row * tiffl.tile_h < 8388608)
    (hlen : (tiledata.length : Int) = tiffl.tile_w * tiffl.tile_h) :
    (∀ cairo_ok out,
      _openremoteslide_tiff_clip_tile cairo_ok tiffl tiledata tile_col tile_row = some out →
      out.length = tiledata.length ∧
      ∀ i j : Nat, (i : Int) < tiffl.tile_w → (j : Int) < tiffl.tile_h →
        out[j * tiffl.tile_w.toNat + i]? =
          if tile_col * tiffl.tile_w + i ≥ tiffl.image_w ∨
              tile_row * tiffl.tile_h + j ≥ tiffl.image_h
          then some 0 else tiledata[j * tiffl.tile_w.toNat + i]?) ∧
    (∃ out, _openremoteslide_tiff_clip_tile true tiffl tiledata tile_col tile_row = some out) ∧
    (tile_col * tiffl.tile_w + tiffl.tile_w ≤ tiffl.image_w →
      tile_row * tiffl.tile_h + tiffl.tile_h ≤ tiffl.image_h →
      ∀ cairo_ok,
        _openremoteslide_tiff_clip_tile cairo_ok tiffl tiledata tile_col tile_row
          = some tiledata) := by
  obtain ⟨n, hn⟩ : ∃ n : Nat, tiffl.tile_w = (n : Int) :=
    ⟨tiffl.tile_w.toNat, (Int.toNat_of_nonneg (le_of_lt htw)).symm⟩
  simp only [_openremoteslide_tiff_clip_tile, _openremoteslide_clip_tile]
  rw [hn] at htw htw1 hcw0 hcw1 hlen ⊢
  simp only [Int.toNat_ofNat]
  generalize tile_col * (n : Int) = cx at hcw0 hcw1 ⊢
  generalize tile_row * tiffl.tile_h = cy at hch0 hch1 ⊢
  refine ⟨?_, ?_, ?_⟩
  · intro cairo_ok out hout
    split_ifs at hout with hfull hok
    · -- the tile lies inside the image: returned as is
      simp only [Option.some.injEq] at hout
      subst hout
      refine ⟨rfl, ?_⟩
      intro i j hi hj
      rw [if_neg]
      omega
    · -- both rectangles are cleared
      simp only [Option.some.injEq] at hout
      subst hout
      refine ⟨by simp [cairo_clear_rectangle_length], ?_⟩
      intro i j hi hj
      have hi' : i < n := by exact_mod_cast hi
      have hk : j * n + i < tiledata.length := by
        have hjm : j < tiffl.tile_h.toNat := by omega
        have h1 : (j + 1) * n ≤ tiffl.tile_h.toNat * n := Nat.mul_le_mul_right n hjm
        have h2 : (tiledata.length : Int) = ((tiffl.tile_h.toNat * n : Nat) : Int) := by
          rw [hlen]
          push_cast
          rw [Int.toNat_of_nonneg (by omega)]
          ring
        have h3 : tiledata.length = tiffl.tile_h.toNat * n := by exact_mod_cast h2
        rw [h3]
        have h4 : (j + 1) * n = j * n + n := by ring
        omega
      rw [cairo_clear_rectangle_pixel n tiffl.tile_h _ 0 _ _ _ i j hi' hj,
        cairo_clear_rectangle_pixel n tiffl.tile_h _ _ 0 _ _ i j hi' hj]
      obtain ⟨p, hp⟩ : ∃ p, tiledata[j * n + i]? = some p :=
        ⟨tiledata[j * n + i], List.getElem?_eq_getElem hk⟩
      rw [hp]
      have hth0 : 0 < tiffl.tile_h := lt_of_le_of_lt (Int.natCast_nonneg j) hj
      have e1 : tiffl.image_w - cx + ((n : Int) - (tiffl.image_w - cx)) = (n : Int) := by ring
      have e2 : tiffl.image_h - cy + (tiffl.tile_h - (tiffl.image_h - cy)) = tiffl.tile_h := by
        ring
      rw [e1, e2, Int.zero_add, Int.zero_add,
        cairo_fixed_coordinate_of_range 0 (by decide) (by decide),
        cairo_fixed_coordinate_of_range (n : Int) (by omega) htw1,
        cairo_fixed_coordinate_of_range tiffl.tile_h (by omega) hth1,
        cairo_fixed_coordinate_of_range (tiffl.image_w - cx) hcw0 hcw1,
        cairo_fixed_coordinate_of_range (tiffl.image_h - cy) hch0 hch1]
      have hright : (min (tiffl.image_w - cx) (n : Int) ≤ (i : Int) ∧
          (i : Int) < max (tiffl.image_w - cx) (n : Int) ∧
          min (0 : Int) tiffl.tile_h ≤ (j : Int) ∧
          (j : Int) < max (0 : Int) tiffl.tile_h) ↔ cx + (i : Int) ≥ tiffl.image_w := by
        simp only [min_def, max_def]
        split_ifs <;> omega
      have hbottom : (min (0 : Int) (n : Int) ≤ (i : Int) ∧
          (i : Int) < max (0 : Int) (n : Int) ∧
          min (tiffl.image_h - cy) tiffl.tile_h ≤ (j : Int) ∧
          (j : Int) < max (tiffl.image_h - cy) tiffl.tile_h) ↔
          cy + (j : Int) ≥ tiffl.image_h := by
        simp only [min_def, max_def]
        split_ifs <;> omega
      simp only [hright, hbottom]
      by_cases hx : cx + (i : Int) ≥ tiffl.image_w <;>
        by_cases hy : cy + (j : Int) ≥ tiffl.image_h <;>
        simp only [hx, hy, if_true, if_false, or_self, or_true, true_or, Option.map_some']
  · by_cases hfull : tiffl.image_w - cx ≥ (n : Int) ∧ tiffl.image_h - cy ≥ tiffl.tile_h
    · exact ⟨tiledata, by simp [hfull]⟩
    · exact ⟨_, by rw [if_neg hfull, if_pos trivial]⟩
  · intro hx hy cairo_ok
    have hfull : tiffl.image_w - cx ≥ (n : Int) ∧ tiffl.image_h - cy ≥ tiffl.tile_h := by
      constructor <;> omega
    simp [hfull]

/-- The bottom-right tile (1, 1) of `sampleSmallLevel` keeps 3 columns and 2
rows. -/
theorem tiff_clip_tile_pixels_witness :
    _openremoteslide_tiff_clip_tile true sampleSmallLevel
        [1, 2, 3, 4, 5, 6, 7, 8, 9, 10, 11, 12] 1 1
      = some [1, 2, 3, 0, 5, 6, 7, 0, 0, 0, 0, 0] ∧
    ∃ out, _openremoteslide_tiff_clip_tile true sampleSmallLevel
        [1, 2, 3, 4, 5, 6, 7, 8, 9, 10, 11, 12] 1 1 = some out :=
  ⟨by decide,
   (tiff_clip_tile_pixels sampleSmallLevel [1, 2, 3, 4, 5, 6, 7, 8, 9, 10, 11, 12] 1 1
      (by decide) (by decide) (by decide) (by decide) (by decide) (by decide) (by decide)
      (by decide)).2.1⟩

/-- C8 (code bug): a tile at the bottom image edge whose distance
`image_w - tile_col * tile_w` to the right image edge lies in `[2^23, 2^24)` is
cleared entirely.  For a level with `0 < tile_w < 2^23`, `0 < tile_h < 2^23`
and a tile buffer of `tile_w * tile_h` pixels, if
`image_h - tile_row * tile_h < tile_h` (the tile crosses the bottom edge) then
`_openremoteslide_tiff_clip_tile`, with cairo reporting no error, returns the
buffer with every pixel 0, although every column `tile_col * tile_w + i` of the
tile lies left of `image_w`: the pixels of the rows above `image_h`, which lie
inside the image, are zeroed too. -/
theorem tiff_clip_tile_clears_wide_image_tile (tiffl : TiffLevel) (tiledata : List Nat)
    (tile_col tile_row : Int) (htw : 0 < tiffl.tile_w) (htw1 : tiffl.tile_w < 8388608)
    (hth : 0 < tiffl.tile_h) (hth1 : tiffl.tile_h < 8388608)
    (hlen : (tiledata.length : Int) = tiffl.tile_w * tiffl.tile_h)
    (hwide0 : 8388608 ≤ tiffl.image_w - tile_col * tiffl.tile_w)
    (hwide1 : tiffl.image_w - tile_col * tiffl.tile_w < 16777216)
    (hbottom : tiffl.image_h - tile_row * tiffl.tile_h < tiffl.tile_h) :
    _openremoteslide_tiff_clip_tile true tiffl tiledata tile_col tile_row
      = some (List.replicate tiledata.length 0) ∧
    (∀ i : Nat, (i : Int) < tiffl.tile_w → tile_col * tiffl.tile_w + i < tiffl.image_w) ∧
    (∀ i j : Nat, (i : Int) < tiffl.tile_w →
      tile_row * tiffl.tile_h + j < tiffl.image_h →
      ∀ out, _openremoteslide_tiff_clip_tile true tiffl tiledata tile_col tile_row = some out →
        out[j * tiffl.tile_w.toNat + i]? = some 0) := by
  have hres : _openremoteslide_tiff_clip_tile true tiffl tiledata tile_col tile_row
      = some (List.replicate tiledata.length 0) := by
    simp only [_openremoteslide_tiff_clip_tile, _openremoteslide_clip_tile]
    rw [if_neg (by omega), if_pos trivial]
    have e1 : tiffl.image_w - tile_col * tiffl.tile_w
        + (tiffl.tile_w - (tiffl.image_w - tile_col * tiffl.tile_w)) = tiffl.tile_w := by ring
    have hfirst : cairo_clear_rectangle tiffl.tile_w tiffl.tile_h tiledata
        (tiffl.image_w - tile_col * tiffl.tile_w) 0
        (tiffl.tile_w - (tiffl.image_w - tile_col * tiffl.tile_w)) tiffl.tile_h
        = List.replicate tiledata.length 0 := by
      apply cairo_clear_rectangle_covers _ _ _ _ _ _ _ htw (le_of_eq hlen)
      · rw [e1, cairo_fixed_coordinate_wide _ hwide0 hwide1]
        exact le_trans (min_le_left _ _) (by omega)
      · rw [e1, cairo_fixed_coordinate_of_range tiffl.tile_w (by omega) htw1]
        exact le_max_right _ _
      · rw [cairo_fixed_coordinate_of_range 0 (by decide) (by decide)]
        exact min_le_left _ _
      · rw [Int.zero_add, cairo_fixed_coordinate_of_range tiffl.tile_h (by omega) hth1]
        exact le_max_right _ _
    rw [hfirst, cairo_clear_rectangle_zeros]
  refine ⟨hres, ?_, ?_⟩
  · intro i hi
    omega
  · intro i j hi hj out hout
    rw [hres] at hout
    simp only [Option.some.injEq] at hout
    subst hout
    have hjh : (j : Int) < tiffl.tile_h := by omega
    obtain ⟨n, hn⟩ : ∃ n : Nat, tiffl.tile_w = (n : Int) :=
      ⟨tiffl.tile_w.toNat, (Int.toNat_of_nonneg (le_of_lt htw)).symm⟩
    obtain ⟨m, hm⟩ : ∃ m : Nat, tiffl.tile_h = (m : Int) :=
      ⟨tiffl.tile_h.toNat, (Int.toNat_of_nonneg (le_of_lt hth)).symm⟩
    rw [hn, hm] at hlen
    rw [hn] at hi ⊢
    rw [hm] at hjh
    simp only [Int.toNat_ofNat]
    have hi' : i < n := by exact_mod_cast hi
    have hj' : j < m := by exact_mod_cast hjh
    have hlen' : tiledata.length = n * m := by exact_mod_cast hlen
    have hk : j * n + i < tiledata.length := by
      rw [hlen']
      have h1 : (j + 1) * n ≤ m * n := Nat.mul_le_mul_right n hj'
      have h4 : (j + 1) * n = j * n + n := by ring
      have h5 : m * n = n * m := Nat.mul_comm m n
      omega
    rw [List.getElem?_eq_getElem (by simpa using hk)]
    simp

/-- Witness for C8: tile (0, 1) of `sampleWideLevel` (image 8388608 x 5, tiles
4 x 3) covers the image columns 0..3 and the image rows 3..5; its first row
(image row 3) lies inside the image, and the call zeroes all twelve pixels. -/
theorem tiff_clip_tile_clears_wide_image_tile_witness :
    _openremoteslide_tiff_clip_tile true sampleWideLevel
        [1, 2, 3, 4, 5, 6, 7, 8, 9, 10, 11, 12] 0 1
      = some [0, 0, 0, 0, 0, 0, 0, 0, 0, 0, 0, 0] ∧
    (0 : Int) * sampleWideLevel.tile_w + (0 : Nat) < sampleWideLevel.image_w ∧
    (1 : Int) * sampleWideLevel.tile_h + (0 : Nat) < sampleWideLevel.image_h :=
  ⟨(tiff_clip_tile_clears_wide_image_tile sampleWideLevel
      [1, 2, 3, 4, 5, 6, 7, 8, 9, 10, 11, 12] 0 1
      (by decide) (by decide) (by decide) (by decide) (by decide) (by decide) (by decide)
      (by decide)).1,
   by decide, by decide⟩

theorem wrap32_of_range (x : Int) (hlo : -2147483648 ≤ x) (hhi : x < 2147483648) :
    wrap32 x = x := by
  unfold wrap32
  omega

theorem memset_zero_all (dest : List Nat) (nbytes : Int) (h0 : 0 ≤ nbytes)
    (hhi : nbytes < 2147483648) (hlen : nbytes = 4 * (dest.length : Int)) :
    memset_zero dest nbytes = List.replicate dest.length 0 := by
  unfold memset_zero
  have hn : (nbytes % 18446744073709551616).toNat / 4 = dest.length := by omega
  simp [hn]

theorem decode_jpeg_failure_dest (env : DecodeEnv) (buf : List Nat) (tables : Option (List Nat))
    (space : Nat) (dest : List Nat) (w h : Int) :
    ((decode_jpeg env buf tables space dest w h).success = false →
      ∃ e, (decode_jpeg env buf tables space dest w h).err = some e) ∧
    ((decode_jpeg env buf tables space dest w h).err = some .jpeg_tables ∨
      (decode_jpeg env buf tables space dest w h).err = some .jpeg_header →
      (decode_jpeg env buf tables space dest w h).dest = dest) ∧
    (∀ e, (decode_jpeg env buf tables space dest w h).err = some e →
      e = .jpeg_tables ∨ e = .jpeg_header ∨ e = .jpeg_decompress ∨ e = .jpeg_error_exit) := by
  unfold decode_jpeg
  cases tables with
  | none =>
    simp only
    cases env.jpeg_read_header buf true with
    | none => simp
    | some code =>
      simp only
      split_ifs with hc
      · simp
      · rcases hr : (env.jpeg_run buf space dest w h).1 with _ | b
        · simp
        · cases b <;> simp
  | some t =>
    simp only
    cases env.jpeg_read_header t false with
    | none => simp
    | some tcode =>
      simp only
      split_ifs with htc
      · simp
      · simp only
        cases env.jpeg_read_header buf true with
        | none => simp
        | some code =>
          simp only
          split_ifs with hc
          · simp
          · rcases hr : (env.jpeg_run buf space dest w h).1 with _ | b
            · simp
            · cases b <;> simp


theorem tiff_read_region_failure_dest (env : DecodeEnv) (tiff : Tiff) (dest : List Nat)
    (x y w h : Int) :
    ((tiff_read_region env tiff dest x y w h).success = false →
      ∃ e, (tiff_read_region env tiff dest x y w h).err = some e) ∧
    ((tiff_read_region env tiff dest x y w h).err = some .rgba_image_ok ∨
      (tiff_read_region env tiff dest x y w h).err = some .rgba_image_begin →
      (tiff_read_region env tiff dest x y w h).dest = dest) ∧
    ((tiff_read_region env tiff dest x y w h).err = some .rgba_image_get →
      (tiff_read_region env tiff dest x y w h).dest =
        memset_zero (env.rgba_get tiff dest (wrap32 x) (wrap32 y) w h).2 (wrap32 (w * h * 4))) ∧
    (∀ e, (tiff_read_region env tiff dest x y w h).err = some e →
      e = .rgba_image_ok ∨ e = .rgba_image_begin ∨ e = .rgba_image_get) := by
  unfold tiff_read_region
  by_cases hok : env.rgba_ok tiff = false
  · simp [hok]
  · by_cases hbegin : env.rgba_begin tiff = false
    · simp [hok, hbegin]
    · by_cases hget : (env.rgba_get tiff dest (wrap32 x) (wrap32 y) w h).1 = true
      · simp [hok, hbegin, hget]
      · simp [hok, hbegin, hget]

theorem tiff_read_tile_data_errors (env : DecodeEnv) (tiffl : TiffLevel) (tiff : Tiff)
    (tile_col tile_row : Int) (e : ReadTileError)
    (herr : _openremoteslide_tiff_read_tile_data env tiffl tiff tile_col tile_row = .error e) :
    e = .cannot_set_dir ∨ e = .cannot_get_tile_size ∨ e = .cannot_read_raw_tile := by
  unfold _openremoteslide_tiff_read_tile_data at herr
  cases hsd : (_openremoteslide_tiff_set_dir tiff tiffl.dir).2
  · simp only [hsd, if_true, Except.error.injEq] at herr
    exact Or.inl herr.symm
  · simp only [hsd, Bool.true_eq_false, if_false] at herr
    cases hs : (_openremoteslide_tiff_set_dir tiff tiffl.dir).1.tags.tile_byte_counts with
    | none =>
      simp only [hs, Except.error.injEq] at herr
      exact Or.inr (Or.inl herr.symm)
    | some sizes =>
      simp only [hs] at herr
      split at herr
      · simp only [Except.error.injEq] at herr
        exact Or.inr (Or.inr herr.symm)
      · cases herr

/-- C9 (amended): when `_openremoteslide_tiff_read_tile` returns false an error
is set, and: if the directory cannot be set, `TILEBYTECOUNTS` is missing,
`TIFFReadRawTile` returns -1, the JPEG tables or the JPEG header are rejected,
or `TIFFRGBAImageOK` or `TIFFRGBAImageBegin` fails, the destination is exactly
what it was before the call; if `TIFFRGBAImageGet` fails, every one of the
`tile_w * tile_h` destination pixels is zero (for a positive tile size with
`tile_w * tile_h * 4` in `int` range).  Nothing is stated for a failing JPEG
decompression. -/
theorem tiff_read_tile_failure_dest (env : DecodeEnv) (tiffl : TiffLevel) (tiff : Tiff)
    (dest : List Nat) (tile_col tile_row : Int) (r : DecodeResult)
    (hr : _openremoteslide_tiff_read_tile env tiffl tiff dest tile_col tile_row = r)
    (hfail : r.success = false) :
    (∃ e, r.err = some e) ∧
    (r.err = some .cannot_set_dir ∨ r.err = some .cannot_get_tile_size ∨
      r.err = some .cannot_read_raw_tile ∨ r.err = some .jpeg_tables ∨
      r.err = some .jpeg_header ∨ r.err = some .rgba_image_ok ∨
      r.err = some .rgba_image_begin → r.dest = dest) ∧
    (r.err = some .rgba_image_get →
      0 < tiffl.tile_w → 0 < tiffl.tile_h → tiffl.tile_w * tiffl.tile_h * 4 < 2147483648 →
      (dest.length : Int) = tiffl.tile_w * tiffl.tile_h →
      (∀ t d x y w h, (env.rgba_get t d x y w h).2.length = d.length) →
      r.dest = List.replicate dest.length 0) := by
  subst hr
  unfold _openremoteslide_tiff_read_tile at hfail ⊢
  cases hsd : (_openremoteslide_tiff_set_dir tiff tiffl.dir).2
  · simp [hsd]
  · simp only [hsd, Bool.true_eq_false, if_false] at hfail ⊢
    cases hdirect : tiffl.tile_read_direct
    swap
    · simp only [hdirect, if_true] at hfail ⊢
      cases hdata : _openremoteslide_tiff_read_tile_data env tiffl
          (_openremoteslide_tiff_set_dir tiff tiffl.dir).1 tile_col tile_row with
      | error e =>
        have he := tiff_read_tile_data_errors env tiffl
          (_openremoteslide_tiff_set_dir tiff tiffl.dir).1 tile_col tile_row e hdata
        refine ⟨⟨e, rfl⟩, fun _ => rfl, ?_⟩
        intro herr
        simp only [Option.some.injEq] at herr
        subst herr
        rcases he with h | h | h <;> cases h
      | ok buf =>
        simp only [hdata] at hfail ⊢
        obtain ⟨h1, h2, h3⟩ := decode_jpeg_failure_dest env buf
          (_openremoteslide_tiff_set_dir tiff tiffl.dir).1.tags.jpegtables
          (if tiffl.photometric = PHOTOMETRIC_YCBCR then JCS_YCbCr else JCS_RGB)
          dest (wrap32 tiffl.tile_w) (wrap32 tiffl.tile_h)
        refine ⟨h1 hfail, ?_, ?_⟩
        · intro herr
          rcases herr with herr | herr | herr | herr | herr | herr | herr
          · rcases h3 _ herr with h | h | h | h <;> cases h
          · rcases h3 _ herr with h | h | h | h <;> cases h
          · rcases h3 _ herr with h | h | h | h <;> cases h
          · exact h2 (Or.inl herr)
          · exact h2 (Or.inr herr)
          · rcases h3 _ herr with h | h | h | h <;> cases h
          · rcases h3 _ herr with h | h | h | h <;> cases h
        · intro herr
          rcases h3 _ herr with h | h | h | h <;> cases h
    · simp only [hdirect, Bool.false_eq_true, if_false] at hfail ⊢
      obtain ⟨h1, h2, h3, h4⟩ := tiff_read_region_failure_dest env
        (_openremoteslide_tiff_set_dir tiff tiffl.dir).1 dest
        (tile_col * tiffl.tile_w) (tile_row * tiffl.tile_h)
        (wrap32 tiffl.tile_w) (wrap32 tiffl.tile_h)
      refine ⟨h1 hfail, ?_, ?_⟩
      · intro herr
        rcases herr with herr | herr | herr | herr | herr | herr | herr
        · rcases h4 _ herr with h | h | h <;> cases h
        · rcases h4 _ herr with h | h | h <;> cases h
        · rcases h4 _ herr with h | h | h <;> cases h
        · rcases h4 _ herr with h | h | h <;> cases h
        · rcases h4 _ herr with h | h | h <;> cases h
        · exact h2 (Or.inl herr)
        · exact h2 (Or.inr herr)
      · intro herr hw hh hsz hlen hpres
        rw [h3 herr]
        have hmul : tiffl.tile_w ≤ tiffl.tile_w * tiffl.tile_h := by nlinarith
        have hmul2 : tiffl.tile_h ≤ tiffl.tile_w * tiffl.tile_h := by nlinarith
        rw [wrap32_of_range tiffl.tile_w (by omega) (by omega),
          wrap32_of_range tiffl.tile_h (by omega) (by omega),
          wrap32_of_range (tiffl.tile_w * tiffl.tile_h * 4) (by omega) (by omega)]
        have hl := hpres (_openremoteslide_tiff_set_dir tiff tiffl.dir).1 dest
          (wrap32 (tile_col * tiffl.tile_w)) (wrap32 (tile_row * tiffl.tile_h))
          tiffl.tile_w tiffl.tile_h
        rw [memset_zero_all _ _ (by omega) hsz (by rw [hl]; omega), hl]


/-- Witness for C9 (amended): a 2 x 2 tile on the libtiff path whose
`TIFFRGBAImageGet` fails; the destination `[9, 9, 9, 9]` becomes all zero. -/
theorem tiff_read_tile_failure_dest_witness :
    (_openremoteslide_tiff_read_tile (sampleDecodeEnv false) (sampleIndirectLevel 0) sampleTiff
        [9, 9, 9, 9] 0 0).dest = List.replicate 4 0 :=
  (tiff_read_tile_failure_dest (sampleDecodeEnv false) (sampleIndirectLevel 0) sampleTiff
    [9, 9, 9, 9] 0 0
    (_openremoteslide_tiff_read_tile (sampleDecodeEnv false) (sampleIndirectLevel 0) sampleTiff
      [9, 9, 9, 9] 0 0)
    rfl (by decide)).2.2 (by decide) (by decide) (by decide) (by decide) (by decide)
    (fun _ _ _ _ _ _ => by simp [sampleDecodeEnv])

/-- C9 as stated fails: the level is stored in directory 5 but the file has a
single directory, so `_openremoteslide_tiff_read_tile` returns false ("Cannot
set TIFF directory") and the 2 x 2 destination `[9, 9, 9, 9]` is not zeroed. -/
theorem tiff_read_tile_failure_not_zeroed :
    ¬ ((_openremoteslide_tiff_read_tile (sampleDecodeEnv true) (sampleIndirectLevel 5)
          sampleTiff [9, 9, 9, 9] 0 0).success = false →
        (_openremoteslide_tiff_read_tile (sampleDecodeEnv true) (sampleIndirectLevel 5)
          sampleTiff [9, 9, 9, 9] 0 0).dest = List.replicate (2 * 2) 0) := by
  decide

theorem GUINT32_SWAP_LE_BE_lt (val : Nat) : GUINT32_SWAP_LE_BE val < 4294967296 := by
  unfold GUINT32_SWAP_LE_BE
  exact Nat.mod_lt _ (by decide)

theorem shift_or_eq_rotr8 (val : Nat) (hval : val < 4294967296) :
    ((val <<< 24) % 4294967296) ||| (val >>> 8) = rotr32 val 8 := by
  have hhi : (val <<< 24) % 4294967296 = 2 ^ 24 * (val % 256) := by
    rw [Nat.shiftLeft_eq]
    norm_num
    omega
  have hlo : val >>> 8 = val / 256 := by
    rw [Nat.shiftRight_eq_div_pow]
  have hlt : val / 256 < 2 ^ 24 := by
    norm_num
    omega
  rw [hhi, hlo, ← Nat.mul_add_lt_is_or hlt]
  unfold rotr32
  norm_num
  omega

theorem abgr_to_argb_eq_rotr8 (p : Nat) :
    abgr_to_argb p = rotr32 (GUINT32_SWAP_LE_BE p) 8 := by
  unfold abgr_to_argb
  exact shift_or_eq_rotr8 _ (GUINT32_SWAP_LE_BE_lt p)

theorem rotr32_8_eq_rotl32_24 (x : Nat) : rotr32 x 8 = rotl32 x 24 := by
  unfold rotr32 rotl32
  norm_num
  omega

theorem converted_pixels_getElem (f : Nat → Nat) (raster : List Nat) (n k : Nat) :
    ((raster.take n).map f ++ raster.drop n)[k]? =
      if k < n then (raster[k]?).map f else raster[k]? := by
  by_cases hk : k < n
  · rw [if_pos hk]
    by_cases hlen : k < raster.length
    · rw [List.getElem?_append_left (by simp; omega), List.getElem?_map, List.getElem?_take,
        if_pos hk]
    · rw [List.getElem?_eq_none (by simp; omega), List.getElem?_eq_none (by omega)]
      rfl
  · rw [if_neg hk]
    by_cases hlen : n ≤ raster.length
    · rw [List.getElem?_append_right (by simp; omega), List.getElem?_drop]
      congr 1
      simp
      omega
    · rw [List.drop_eq_nil_of_le (by omega), List.append_nil, List.take_of_length_le (by omega),
        List.getElem?_eq_none (by simp; omega), List.getElem?_eq_none (by omega)]


/-- C10 (amended): when the RGBA image reader succeeds on a `w` x `h` rectangle
(`w * h` in `int` range), `tiff_read_region` succeeds and replaces each of the
first `w * h` pixels `p` the reader produced by the byte-swapped `p` rotated
right by 8 bits, which is the same as rotated left by 24 bits; pixels beyond
`w * h` are left as they are. -/
theorem tiff_read_region_pixel_conversion (env : DecodeEnv) (tiff : Tiff) (dest : List Nat)
    (x y w h : Int) (hw : 0 ≤ w) (hh : 0 ≤ h) (hsz : w * h < 2147483648)
    (hok : env.rgba_ok tiff = true) (hbegin : env.rgba_begin tiff = true)
    (hget : (env.rgba_get tiff dest (wrap32 x) (wrap32 y) w h).1 = true) :
    (tiff_read_region env tiff dest x y w h).success = true ∧
    (tiff_read_region env tiff dest x y w h).dest.length =
      (env.rgba_get tiff dest (wrap32 x) (wrap32 y) w h).2.length ∧
    (∀ k : Nat, (k : Int) < w * h →
      (tiff_read_region env tiff dest x y w h).dest[k]? =
        ((env.rgba_get tiff dest (wrap32 x) (wrap32 y) w h).2[k]?).map
          (fun p => rotr32 (GUINT32_SWAP_LE_BE p) 8)) ∧
    (∀ k : Nat, w * h ≤ (k : Int) →
      (tiff_read_region env tiff dest x y w h).dest[k]? =
        (env.rgba_get tiff dest (wrap32 x) (wrap32 y) w h).2[k]?) ∧
    (∀ p : Nat, rotr32 (GUINT32_SWAP_LE_BE p) 8 = rotl32 (GUINT32_SWAP_LE_BE p) 24) := by
  have hwh : 0 ≤ w * h := Int.mul_nonneg hw hh
  have hwrap : wrap32 (w * h) = w * h := wrap32_of_range _ (by omega) hsz
  have hrun : tiff_read_region env tiff dest x y w h =
      { success := true, err := none,
        dest := ((env.rgba_get tiff dest (wrap32 x) (wrap32 y) w h).2.take (w * h).toNat).map
            abgr_to_argb ++
          (env.rgba_get tiff dest (wrap32 x) (wrap32 y) w h).2.drop (w * h).toNat } := by
    simp [tiff_read_region, hok, hbegin, hget, hwrap]
  have hconv : abgr_to_argb = fun p => rotr32 (GUINT32_SWAP_LE_BE p) 8 :=
    funext abgr_to_argb_eq_rotr8
  rw [hrun]
  refine ⟨rfl, ?_, ?_, ?_, ?_⟩
  · simp only [List.length_append, List.length_map, List.length_take, List.length_drop]
    omega
  · intro k hk
    simp only [converted_pixels_getElem]
    rw [if_pos (by omega), hconv]
  · intro k hk
    simp only [converted_pixels_getElem]
    rw [if_neg (by omega)]
  · intro p
    exact rotr32_8_eq_rotl32_24 _

/-- Witness for C10 (amended): a 2 x 2 read whose raster is
`0x11223344 + k`. -/
theorem tiff_read_region_pixel_conversion_witness :
    (tiff_read_region (sampleDecodeEnv true) sampleTiff [9, 9, 9, 9] 0 0 2 2).dest[0]? =
      (((sampleDecodeEnv true).rgba_get sampleTiff [9, 9, 9, 9] (wrap32 0) (wrap32 0) 2 2).2[0]?).map
        (fun p => rotr32 (GUINT32_SWAP_LE_BE p) 8) :=
  (tiff_read_region_pixel_conversion (sampleDecodeEnv true) sampleTiff [9, 9, 9, 9] 0 0 2 2
    (by decide) (by decide) (by decide) rfl rfl rfl).2.2.1 0 (by decide)

/-- C10 as stated fails: the reader produces the pixel `0x11223344` first; its
byte swap is `0x44332211`, which rotated left by 8 bits is `0x33221144`, but
`tiff_read_region` stores `0x11443322`. -/
theorem tiff_read_region_not_rotate_left_8 :
    (tiff_read_region (sampleDecodeEnv true) sampleTiff [9, 9, 9, 9] 0 0 2 2).dest[0]?
        = some 0x11443322 ∧
    rotl32 (GUINT32_SWAP_LE_BE 0x11223344) 8 = 0x33221144 ∧
    (tiff_read_region (sampleDecodeEnv true) sampleTiff [9, 9, 9, 9] 0 0 2 2).dest[0]?
        ≠ some (rotl32 (GUINT32_SWAP_LE_BE 0x11223344) 8) := by
  decide

theorem CACHE_SIZE_eq : CACHE_SIZE = 1048576 := by decide
theorem THREAD_CACHE_SIZE_eq : THREAD_CACHE_SIZE = 262144 := by decide
theorem CACHE_SIZE_cast : ((CACHE_SIZE : Nat) : Int) = 1048576 := by
  rw [CACHE_SIZE_eq]; rfl
theorem THREAD_CACHE_SIZE_cast : ((THREAD_CACHE_SIZE : Nat) : Int) = 262144 := by
  rw [THREAD_CACHE_SIZE_eq]; rfl

theorem wrapU64_of_range (x : Int) (h0 : 0 ≤ x) (h1 : x < 18446744073709551616) :
    wrapU64 x = x := by
  unfold wrapU64
  omega

theorem fread_iter_eq (env : NetEnv) (size : Nat) (st : FreadState)
    (hcp0 : 0 ≤ st.current_pointer) (hcp1 : st.current_pointer < 4611686018427387904)
    (hcs0 : 0 ≤ st.current_size) (hcs1 : st.current_size < 2147483648)
    (hne : 1 ≤ st.current_size ∨ st.current_pointer % 1048576 ≠ 0) :
    fread_iter env size st =
      match cache_lookup (block_start st.current_pointer) st.cache with
      | some block => .done (fread_advance st st.cache block st.fetched)
      | none =>
        match fetch_block env size (block_start st.current_pointer) with
        | .hang => .hang { st with fetched := st.fetched ++ [block_start st.current_pointer] }
        | .failed =>
          .worker_failed { st with fetched := st.fetched ++ [block_start st.current_pointer] }
        | .block block =>
          .done (fread_advance st (st.cache ++ [(block_start st.current_pointer, block)]) block
            (st.fetched ++ [block_start st.current_pointer])) := by
  have hb : Int.tdiv st.current_pointer (CACHE_SIZE : Int) * (CACHE_SIZE : Int)
      = block_start st.current_pointer := by
    unfold block_start
    rw [Int.tdiv_eq_ediv hcp0 (by rw [CACHE_SIZE_cast]; decide)]
  have hbs : block_start st.current_pointer = st.current_pointer / 1048576 * 1048576 := by
    unfold block_start
    rw [CACHE_SIZE_cast]
  have hw1 : wrapU64 (block_start st.current_pointer) = block_start st.current_pointer := by
    apply wrapU64_of_range <;> rw [hbs] <;> omega
  have hw2 : wrapU64 (st.current_pointer + st.current_size - 1)
      = st.current_pointer + st.current_size - 1 := by
    apply wrapU64_of_range <;> omega
  have hw3 : wrapU64 ((st.current_pointer + st.current_size - 1) / 1048576 * 1048576)
      = (st.current_pointer + st.current_size - 1) / 1048576 * 1048576 := by
    apply wrapU64_of_range <;> omega
  have htest : (block_start st.current_pointer =
      (st.current_pointer + st.current_size - 1) / 1048576 * 1048576) ↔
      ((st.current_pointer + st.current_size - 1) / 1048576 = st.current_pointer / 1048576) := by
    rw [hbs]; omega
  have hcopy : (if wrapU64 (block_start st.current_pointer) =
          wrapU64 (wrapU64 (st.current_pointer + st.current_size - 1) / (CACHE_SIZE : Int)
            * (CACHE_SIZE : Int))
        then wrap32 st.current_size
        else wrap32 ((CACHE_SIZE : Int) - (st.current_pointer - block_start st.current_pointer)))
      = fread_copy_size st.current_pointer st.current_size := by
    rw [hw1, hw2, CACHE_SIZE_cast, hw3]
    unfold fread_copy_size
    rw [CACHE_SIZE_cast]
    by_cases ht : (st.current_pointer + st.current_size - 1) / 1048576
        = st.current_pointer / 1048576
    · rw [if_pos (htest.mpr ht), if_pos ht]
      exact wrap32_of_range _ (by omega) (by omega)
    · rw [if_neg (fun h => ht (htest.mp h)), if_neg ht]
      rw [wrap32_of_range _ (by rw [hbs]; omega) (by rw [hbs]; omega)]
      ring
  have hcopy0 : 0 ≤ fread_copy_size st.current_pointer st.current_size := by
    unfold fread_copy_size
    rw [CACHE_SIZE_cast, hbs]
    split_ifs <;> omega
  have hcopyle : fread_copy_size st.current_pointer st.current_size ≤ st.current_size := by
    unfold fread_copy_size
    rw [CACHE_SIZE_cast, hbs]
    split_ifs <;> omega
  have hoff0 : 0 ≤ st.current_pointer - block_start st.current_pointer := by
    rw [hbs]; omega
  have hguard : ¬ (fread_copy_size st.current_pointer st.current_size < 0 ∨
      st.current_pointer - block_start st.current_pointer < 0) := by
    omega
  have hw4 : wrapU64 (st.current_size - fread_copy_size st.current_pointer st.current_size)
      = st.current_size - fread_copy_size st.current_pointer st.current_size := by
    apply wrapU64_of_range <;> omega
  unfold fread_iter
  simp only [hb, hcopy, hw4, hguard, if_false]
  cases hlook : cache_lookup (block_start st.current_pointer) st.cache with
  | some block => simp [fread_advance]
  | none =>
    cases hfetch : fetch_block env size (block_start st.current_pointer) with
    | hang => simp
    | failed => simp
    | block block => simp [fread_advance]

theorem cache_lookup_none (b : Int) (c : List (Int × List Nat)) :
    cache_lookup b c = none ↔ b ∉ c.map Prod.fst := by
  induction c with
  | nil => simp [cache_lookup]
  | cons e rest ih =>
    simp only [cache_lookup, List.map_cons, List.mem_cons, not_or]
    by_cases he : e.1 = b
    · simp [he]
    · simp only [he, if_false, ih]
      constructor
      · intro h; exact ⟨fun hb => he hb.symm, h⟩
      · intro h; exact h.2

theorem CacheGrown.refl (c0 : List (Int × List Nat)) (f0 : List Int) :
    CacheGrown c0 f0 c0 f0 :=
  ⟨[], by simp, by simp, by simp, by simp, by simp⟩

theorem CacheGrown.snoc (c0 c : List (Int × List Nat)) (f0 f : List Int) (k : Int)
    (block : List Nat) (h : CacheGrown c0 f0 c f)
    (hb : k * (CACHE_SIZE : Int) ∉ c.map Prod.fst) :
    CacheGrown c0 f0 (c ++ [(k * (CACHE_SIZE : Int), block)]) (f ++ [k * (CACHE_SIZE : Int)]) := by
  obtain ⟨added, hc, hf, hmul, hnew, hnd⟩ := h
  subst hc
  subst hf
  simp only [List.map_append, List.mem_append, not_or] at hb
  refine ⟨added ++ [(k * (CACHE_SIZE : Int), block)], by simp, by simp, ?_, ?_, ?_⟩
  · intro e he
    rcases List.mem_append.mp he with he | he
    · exact hmul e he
    · simp only [List.mem_singleton] at he
      exact ⟨k, by rw [he]⟩
  · intro e he
    rcases List.mem_append.mp he with he | he
    · exact hnew e he
    · simp only [List.mem_singleton] at he
      rw [he]
      exact hb.1
  · rw [List.map_append, List.nodup_append]
    refine ⟨hnd, by simp, ?_⟩
    intro x hx hx2
    simp only [List.map_cons, List.map_nil, List.mem_singleton] at hx2
    rw [hx2] at hx
    exact hb.2 hx

theorem fread_iter_cache (env : NetEnv) (size : Nat) (c0 : List (Int × List Nat))
    (f0 : List Int) (st : FreadState) (h : CacheGrown c0 f0 st.cache st.fetched) :
    FreadLoopCache env size c0 f0 (fread_iter env size st) := by
  cases hlook : cache_lookup (Int.tdiv st.current_pointer (CACHE_SIZE : Int) * (CACHE_SIZE : Int))
      st.cache with
  | some block =>
    unfold fread_iter
    simp only [hlook]
    split_ifs <;> exact h
  | none =>
    have hb := (cache_lookup_none _ _).mp hlook
    cases hfetch : fetch_block env size
        (Int.tdiv st.current_pointer (CACHE_SIZE : Int) * (CACHE_SIZE : Int)) with
    | hang =>
      unfold fread_iter
      simp only [hlook, hfetch]
      exact ⟨st.fetched, _, rfl, h, hb, hfetch⟩
    | failed =>
      unfold fread_iter
      simp only [hlook, hfetch]
      exact ⟨st.fetched, _, rfl, h, hb, hfetch⟩
    | block block =>
      unfold fread_iter
      simp only [hlook, hfetch]
      split_ifs <;> exact CacheGrown.snoc c0 st.cache f0 st.fetched _ block h hb

theorem fread_loop_cache (env : NetEnv) (size : Nat) (c0 : List (Int × List Nat))
    (f0 : List Int) :
    ∀ (iters : Nat) (st : FreadState), CacheGrown c0 f0 st.cache st.fetched →
      FreadLoopCache env size c0 f0 (fread_loop env size iters st) := by
  intro iters
  induction iters with
  | zero => intro st h; exact h
  | succ k ih =>
    intro st h
    have hiter := fread_iter_cache env size c0 f0 st h
    simp only [fread_loop]
    cases hres : fread_iter env size st with
    | done st1 =>
      rw [hres] at hiter
      exact ih st1 hiter
    | worker_failed st1 => rw [hres] at hiter; exact hiter
    | hang st1 => rw [hres] at hiter; exact hiter
    | undefined st1 => rw [hres] at hiter; exact hiter

theorem FreadLoopCache.grown (env : NetEnv) (size : Nat) (c0 : List (Int × List Nat))
    (f0 : List Int) (res : FreadLoop) (h : FreadLoopCache env size c0 f0 res) :
    ∃ f, CacheGrown c0 f0 res.state.cache f := by
  cases res with
  | done st => exact ⟨st.fetched, h⟩
  | undefined st => exact ⟨st.fetched, h⟩
  | worker_failed st =>
    obtain ⟨f, b, _, hg, _⟩ := h
    exact ⟨f, hg⟩
  | hang st =>
    obtain ⟨f, b, _, hg, _⟩ := h
    exact ⟨f, hg⟩

theorem CacheGrown.blockCacheOk (c0 c : List (Int × List Nat)) (f0 f : List Int)
    (h : CacheGrown c0 f0 c f) (hok : BlockCacheOk c0) :
    BlockCacheOk c ∧ ∃ added, c = c0 ++ added := by
  obtain ⟨added, hc, _, hmul, hnew, hnd⟩ := h
  subst hc
  refine ⟨⟨?_, ?_⟩, added, rfl⟩
  · intro e he
    rcases List.mem_append.mp he with he | he
    · exact hok.1 e he
    · exact hmul e he
  · rw [List.map_append, List.nodup_append]
    refine ⟨hok.2, hnd, ?_⟩
    intro x hx hx2
    obtain ⟨e, he, hex⟩ := List.mem_map.mp hx2
    rw [← hex] at hx
    exact hnew e he hx

theorem urlio_fread_file_cache (env : NetEnv) (file : UrlFile) (size nmemb : Nat)
    (f1 : UrlFile) (hf : (urlio_fread env file size nmemb).file = some f1) :
    ∃ f, CacheGrown file.cache [] f1.cache f := by
  have hloop := fread_loop_cache env file.size file.cache []
    (fread_cache_count file.pos size nmemb).toNat
    { cache := file.cache, current_pointer := file.pos,
      current_size := wrapU64 ((size : Int) * nmemb), dst := [], fetched := [], copies := [] }
    (CacheGrown.refl _ _)
  obtain ⟨f, hg⟩ := FreadLoopCache.grown _ _ _ _ _ hloop
  refine ⟨f, ?_⟩
  unfold urlio_fread at hf
  cases hres : fread_loop env file.size (fread_cache_count file.pos size nmemb).toNat
      { cache := file.cache, current_pointer := file.pos,
        current_size := wrapU64 ((size : Int) * nmemb), dst := [], fetched := [],
        copies := [] } with
  | done st =>
    rw [hres] at hg
    simp only [hres] at hf
    split_ifs at hf
    · simp only [Option.some.injEq] at hf
      subst hf
      exact hg
  | worker_failed st =>
    rw [hres] at hg
    simp only [hres, Option.some.injEq] at hf
    subst hf
    exact hg
  | hang st =>
    rw [hres] at hg
    simp only [hres, Option.some.injEq] at hf
    subst hf
    exact hg
  | undefined st =>
    rw [hres] at hg
    simp only [hres, Option.some.injEq] at hf
    subst hf
    exact hg

/-- C14: every `urlio_fread` on a remote byte source that leaves the source
alive preserves the invariant of the block cache: every cached offset is a
multiple of `CACHE_SIZE`, no offset is cached twice, and the blocks cached
before the call keep their place, offset and contents (new blocks are appended
after them). -/
theorem urlio_fread_preserves_block_cache (env : NetEnv) (file : UrlFile) (size nmemb : Nat)
    (f1 : UrlFile) (hok : BlockCacheOk file.cache)
    (hf : (urlio_fread env file size nmemb).file = some f1) :
    BlockCacheOk f1.cache ∧
    (∃ added, f1.cache = file.cache ++ added) ∧
    (∀ j : Nat, j < file.cache.length → f1.cache[j]? = file.cache[j]?) := by
  obtain ⟨f, hg⟩ := urlio_fread_file_cache env file size nmemb f1 hf
  obtain ⟨hok1, added, hadd⟩ := CacheGrown.blockCacheOk _ _ _ _ hg hok
  refine ⟨hok1, ⟨added, hadd⟩, ?_⟩
  intro j hj
  rw [hadd, List.getElem?_append_left hj]

theorem fread_iter_done (env : NetEnv) (size : Nat) (st : FreadState)
    (hcp0 : 0 ≤ st.current_pointer) (hcp1 : st.current_pointer < 4611686018427387904)
    (hcs0 : 0 ≤ st.current_size) (hcs1 : st.current_size < 2147483648)
    (hne : 1 ≤ st.current_size ∨ st.current_pointer % 1048576 ≠ 0) :
    (∀ st1, fread_iter env size st ≠ .undefined st1) ∧
    (∀ st1, fread_iter env size st = .done st1 →
      ∃ cache block fetched, st1 = fread_advance st cache block fetched) := by
  rw [fread_iter_eq env size st hcp0 hcp1 hcs0 hcs1 hne]
  cases cache_lookup (block_start st.current_pointer) st.cache with
  | some block =>
    refine ⟨fun st1 h => (by cases h), fun st1 h => ?_⟩
    simp only [FreadLoop.done.injEq] at h
    exact ⟨_, _, _, h.symm⟩
  | none =>
    cases fetch_block env size (block_start st.current_pointer) with
    | hang => exact ⟨fun st1 h => (by cases h), fun st1 h => (by cases h)⟩
    | failed => exact ⟨fun st1 h => (by cases h), fun st1 h => (by cases h)⟩
    | block block =>
      refine ⟨fun st1 h => (by cases h), fun st1 h => ?_⟩
      simp only [FreadLoop.done.injEq] at h
      exact ⟨_, _, _, h.symm⟩

theorem read_block_length (block : List Nat) (off len : Nat) :
    (read_block block off len).length = len := by
  simp [read_block]

theorem fread_loop_shape (env : NetEnv) (size : Nat) :
    ∀ (iters : Nat) (st : FreadState),
      0 ≤ st.current_pointer →
      st.current_pointer + st.current_size < 4611686018427387904 →
      1 ≤ st.current_size → st.current_size < 2147483648 →
      (iters : Int) = (st.current_pointer + st.current_size - 1) / 1048576
        - st.current_pointer / 1048576 + 1 →
      (∀ st1, fread_loop env size iters st ≠ .undefined st1) ∧
      (∀ st1, fread_loop env size iters st = .done st1 →
        st1.dst.length = st.dst.length + st.current_size.toNat ∧
        ∃ copies, st1.copies = st.copies ++ copies ∧ copies.length = iters ∧
          (copies.map fun c => c.2.2).sum = st.current_size ∧
          ∀ c ∈ copies, CopyInBlock c) := by
  intro iters
  induction iters with
  | zero =>
    intro st hcp0 hsum hcs0 hcs1 hiters
    exfalso
    simp only [Nat.cast_zero] at hiters
    omega
  | succ k ih =>
    intro st hcp0 hsum hcs0 hcs1 hiters
    obtain ⟨hundef, hdone⟩ := fread_iter_done env size st hcp0 (by omega) (by omega) hcs1
      (Or.inl hcs0)
    simp only [fread_loop]
    cases hres : fread_iter env size st with
    | worker_failed st1 => exact ⟨fun _ h => (by cases h), fun _ h => (by cases h)⟩
    | hang st1 => exact ⟨fun _ h => (by cases h), fun _ h => (by cases h)⟩
    | undefined st1 => exact absurd hres (hundef st1)
    | done st1 =>
      obtain ⟨cache, block, fetched, hst1⟩ := hdone st1 hres
      have hbs : block_start st.current_pointer = st.current_pointer / 1048576 * 1048576 := by
        unfold block_start
        rw [CACHE_SIZE_cast]
      have hcopy : fread_copy_size st.current_pointer st.current_size =
          if (st.current_pointer + st.current_size - 1) / 1048576 = st.current_pointer / 1048576
          then st.current_size
          else st.current_pointer / 1048576 * 1048576 + 1048576 - st.current_pointer := by
        unfold fread_copy_size
        rw [CACHE_SIZE_cast, hbs]
      have hcp1 : st1.current_pointer = st.current_pointer
          + fread_copy_size st.current_pointer st.current_size := by rw [hst1]; rfl
      have hcs1' : st1.current_size = st.current_size
          - fread_copy_size st.current_pointer st.current_size := by rw [hst1]; rfl
      have hdst : st1.dst.length = st.dst.length
          + (fread_copy_size st.current_pointer st.current_size).toNat := by
        rw [hst1]
        simp [fread_advance, read_block_length]
      have hcopies : st1.copies = st.copies ++ [(block_start st.current_pointer,
          st.current_pointer - block_start st.current_pointer,
          fread_copy_size st.current_pointer st.current_size)] := by rw [hst1]; rfl
      have hin : CopyInBlock (block_start st.current_pointer,
          st.current_pointer - block_start st.current_pointer,
          fread_copy_size st.current_pointer st.current_size) := by
        refine ⟨⟨st.current_pointer / 1048576, by rw [hbs, CACHE_SIZE_cast]⟩, ?_, ?_, ?_⟩
        · simp only [hbs]; omega
        · simp only [hcopy]; split_ifs <;> omega
        · simp only [hcopy, hbs, CACHE_SIZE_cast]; split_ifs <;> omega
      by_cases hsame : (st.current_pointer + st.current_size - 1) / 1048576
          = st.current_pointer / 1048576
      · -- last block of the range
        rw [if_pos hsame] at hcopy
        have hk : k = 0 := by
          push_cast at hiters
          omega
        subst hk
        simp only [fread_loop]
        refine ⟨fun _ h => (by cases h), fun st2 h => ?_⟩
        simp only [FreadLoop.done.injEq] at h
        subst h
        refine ⟨by rw [hdst, hcopy], _, hcopies, rfl, by simp [hcopy], ?_⟩
        intro c hc
        simp only [List.mem_singleton] at hc
        rw [hc]
        exact hin
      · -- the range goes on in the next block
        rw [if_neg hsame] at hcopy
        have ih1 := ih st1 (by rw [hcp1, hcopy]; omega) (by rw [hcp1, hcs1']; omega)
          (by rw [hcs1', hcopy]; omega) (by rw [hcs1', hcopy]; omega)
          (by rw [hcp1, hcs1', hcopy]; push_cast at hiters; omega)
        refine ⟨ih1.1, fun st2 h => ?_⟩
        obtain ⟨hlen, copies, hcop, hclen, hcsum, hcin⟩ := ih1.2 st2 h
        refine ⟨?_, (block_start st.current_pointer,
            st.current_pointer - block_start st.current_pointer,
            fread_copy_size st.current_pointer st.current_size) :: copies, ?_, ?_, ?_, ?_⟩
        · rw [hlen, hdst, hcs1', hcopy]
          omega
        · rw [hcop, hcopies]
          simp
        · simp [hclen]
        · simp only [List.map_cons, List.sum_cons, hcsum, hcs1']
          ring
        · intro c hc
          rcases List.mem_cons.mp hc with hc | hc
          · rw [hc]; exact hin
          · exact hcin c hc

theorem fread_cache_count_eq (pos : Int) (size nmemb : Nat) (hpos0 : 0 ≤ pos)
    (hn0 : 1 ≤ size * nmemb)
    (hn1 : size * nmemb < 2147483648) :
    fread_cache_count pos size nmemb =
      (pos % 1048576 + ((size * nmemb : Nat) : Int) - 1) / 1048576 + 1 ∧
    fread_cache_count pos size nmemb =
      (pos + ((size * nmemb : Nat) : Int) - 1) / 1048576 - pos / 1048576 + 1 := by
  have hn : ((size : Int) * (nmemb : Int)) = ((size * nmemb : Nat) : Int) := by push_cast; ring
  unfold fread_cache_count
  rw [hn, CACHE_SIZE_cast, Int.tmod_eq_emod hpos0 (by decide)]
  generalize ((size * nmemb : Nat) : Int) = n at *
  have hn0' : (1 : Int) ≤ n := by omega
  have hn1' : n < 2147483648 := by omega
  rw [wrapU64_of_range n (by omega) (by omega),
    wrapU64_of_range (pos % 1048576 + n - 1) (by omega) (by omega),
    wrapU64_of_range ((pos % 1048576 + n - 1) / 1048576 + 1) (by omega) (by omega),
    wrap32_of_range _ (by omega) (by omega)]
  constructor
  · rfl
  · omega

theorem fread_cache_count_zero (pos : Int) (size nmemb : Nat) (hpos0 : 0 ≤ pos)
    (hn : size * nmemb = 0) :
    fread_cache_count pos size nmemb = if pos % 1048576 = 0 then 0 else 1 := by
  have hn' : ((size : Int) * (nmemb : Int)) = 0 := by
    have : ((size * nmemb : Nat) : Int) = 0 := by rw [hn]; rfl
    push_cast at this
    exact this
  unfold fread_cache_count
  rw [hn', CACHE_SIZE_cast, Int.tmod_eq_emod hpos0 (by decide)]
  unfold wrapU64 wrap32
  split_ifs <;> omega


theorem fread_loop_length (env : NetEnv) (file : UrlFile) (size nmemb : Nat)
    (hpos0 : 0 ≤ file.pos) (hpos1 : file.pos < 2305843009213693952)
    (hn : size * nmemb < 2147483648) :
    (∀ st, fread_loop env file.size (fread_cache_count file.pos size nmemb).toNat
        { cache := file.cache, current_pointer := file.pos,
          current_size := wrapU64 ((size : Int) * nmemb), dst := [], fetched := [],
          copies := [] } ≠ .undefined st) ∧
    (∀ st, fread_loop env file.size (fread_cache_count file.pos size nmemb).toNat
        { cache := file.cache, current_pointer := file.pos,
          current_size := wrapU64 ((size : Int) * nmemb), dst := [], fetched := [],
          copies := [] } = .done st → st.dst.length = size * nmemb) := by
  have hcast : ((size : Int) * (nmemb : Int)) = ((size * nmemb : Nat) : Int) := by
    push_cast; ring
  have hw : wrapU64 ((size : Int) * nmemb) = ((size * nmemb : Nat) : Int) := by
    rw [hcast]
    exact wrapU64_of_range _ (by omega) (by omega)
  rw [hw]
  by_cases hn0 : size * nmemb = 0
  · -- nothing is requested
    rw [fread_cache_count_zero file.pos size nmemb hpos0 hn0, hn0]
    by_cases hmod : file.pos % 1048576 = 0
    · rw [if_pos hmod]
      simp only [Int.toNat_zero, fread_loop]
      refine ⟨fun st h => (by cases h), fun st h => ?_⟩
      simp only [FreadLoop.done.injEq] at h
      subst h
      rfl
    · rw [if_neg hmod]
      have hone : (1 : Int).toNat = 1 := rfl
      rw [hone]
      simp only [fread_loop]
      obtain ⟨hundef, hdone⟩ := fread_iter_done env file.size
        { cache := file.cache, current_pointer := file.pos,
          current_size := ((0 : Nat) : Int), dst := [], fetched := [], copies := [] }
        hpos0 (by simp only; omega) (by simp) (by simp) (Or.inr hmod)
      cases hres : fread_iter env file.size
          { cache := file.cache, current_pointer := file.pos,
            current_size := ((0 : Nat) : Int), dst := [], fetched := [], copies := [] } with
      | worker_failed st1 => exact ⟨fun _ h => (by cases h), fun _ h => (by cases h)⟩
      | hang st1 => exact ⟨fun _ h => (by cases h), fun _ h => (by cases h)⟩
      | undefined st1 => exact absurd hres (hundef st1)
      | done st1 =>
        refine ⟨fun _ h => (by cases h), fun st h => ?_⟩
        simp only [fread_loop, FreadLoop.done.injEq] at h
        subst h
        obtain ⟨cache, block, fetched, hst1⟩ := hdone st1 hres
        rw [hst1]
        have hcopy : fread_copy_size file.pos ((0 : Nat) : Int) = 0 := by
          unfold fread_copy_size
          rw [CACHE_SIZE_cast, if_pos (by simp only [Nat.cast_zero]; omega)]
          rfl
        simp only [Nat.cast_zero] at hcopy
        simp [fread_advance, read_block_length, hcopy]
  · have hn1 : 1 ≤ size * nmemb := Nat.one_le_iff_ne_zero.mpr hn0
    have hcount := (fread_cache_count_eq file.pos size nmemb hpos0 hn1 hn).2
    have hshape := fread_loop_shape env file.size (fread_cache_count file.pos size nmemb).toNat
      { cache := file.cache, current_pointer := file.pos,
        current_size := ((size * nmemb : Nat) : Int), dst := [], fetched := [], copies := [] }
      hpos0 (by simp only; omega) (by simp only; omega) (by simp only; omega)
      (by simp only; rw [Int.toNat_of_nonneg (by rw [hcount]; omega), hcount])
    refine ⟨hshape.1, fun st h => ?_⟩
    have := (hshape.2 st h).1
    simpa using this

/-- C11 (amended): for a remote byte source with cursor `pos >= 0`, item size
`size >= 1`, `size * nmemb` in `int` range and a request that ends inside the
file (`pos + size * nmemb <= file->size`), every `urlio_fread(ptr, size,
nmemb, file)` that reaches its final `return` returns `nmemb`, the number of
bytes copied into `ptr` divided by `size`; it copied exactly `size * nmemb`
bytes, and the cursor has advanced by exactly that number of bytes and is
still inside the file. -/
theorem urlio_fread_returns_items (env : NetEnv) (file : UrlFile) (size nmemb v : Nat)
    (hpos0 : 0 ≤ file.pos) (hpos1 : file.pos < 2305843009213693952) (hsize : 1 ≤ size)
    (hn : size * nmemb < 2147483648)
    (hin : file.pos + ((size * nmemb : Nat) : Int) ≤ (file.size : Int))
    (hret : (urlio_fread env file size nmemb).status = .returned v) :
    v = nmemb ∧
    (urlio_fread env file size nmemb).dst.length = size * nmemb ∧
    v = (urlio_fread env file size nmemb).dst.length / size ∧
    ∃ f1, (urlio_fread env file size nmemb).file = some f1 ∧
      urlio_ftell f1 = urlio_ftell file + ((size * nmemb : Nat) : Int) ∧
      urlio_ftell f1 ≤ (f1.size : Int) ∧
      f1.size = file.size := by
  obtain ⟨_, hlen⟩ := fread_loop_length env file size nmemb hpos0 hpos1 hn
  have hcast : ((size : Int) * (nmemb : Int)) = ((size * nmemb : Nat) : Int) := by
    push_cast; ring
  have hw : wrapU64 ((size : Int) * nmemb) = ((size * nmemb : Nat) : Int) := by
    rw [hcast]
    exact wrapU64_of_range _ (by omega) (by omega)
  have hsz : size ≠ 0 := by omega
  unfold urlio_fread at hret ⊢
  cases hres : fread_loop env file.size (fread_cache_count file.pos size nmemb).toNat
      { cache := file.cache, current_pointer := file.pos,
        current_size := wrapU64 ((size : Int) * nmemb), dst := [], fetched := [],
        copies := [] } with
  | worker_failed st => simp [hres] at hret
  | hang st => simp [hres] at hret
  | undefined st => simp [hres] at hret
  | done st =>
    have hl := hlen st hres
    simp only [hres] at hret ⊢
    by_cases hlost : (env.restart (file.pos + wrapU64 ((size : Int) * nmemb))).1.length = 0 ∧
        (env.restart (file.pos + wrapU64 ((size : Int) * nmemb))).2 = false
    · simp [hlost] at hret
    · simp only [hlost, hsz, if_false, FreadStatus.returned.injEq] at hret ⊢
      have hv : v = nmemb := by
        rw [← hret, hl]
        exact Nat.mul_div_cancel_left nmemb (by omega)
      refine ⟨hv, hl, hret.symm, _, rfl, ?_, ?_, rfl⟩
      · simp only [urlio_ftell, hw]
      · simp only [urlio_ftell, hw]
        exact hin

/-- Witness for C11 (amended): 5 items of 1 byte read at offset 2 of the 10
bytes of `sampleBytes`. -/
theorem urlio_fread_returns_items_witness :
    (urlio_fread (faithfulNet sampleBytes) (sampleUrlFile 2) 1 5).status = .returned 5 ∧
    (5 = 5 ∧ (urlio_fread (faithfulNet sampleBytes) (sampleUrlFile 2) 1 5).dst.length = 1 * 5) :=
  ⟨by decide,
   ⟨(urlio_fread_returns_items (faithfulNet sampleBytes) (sampleUrlFile 2) 1 5 5
      (by decide) (by decide) (by decide) (by decide) (by decide) (by decide)).1,
    (urlio_fread_returns_items (faithfulNet sampleBytes) (sampleUrlFile 2) 1 5 5
      (by decide) (by decide) (by decide) (by decide) (by decide) (by decide)).2.1⟩⟩

/-- C11 as stated fails: `urlio_fread(ptr, 4, 1, file)` at offset 2 of
`sampleBytes` succeeds, copies the 4 bytes `12 13 14 15` and moves the cursor
from 2 to 6, but returns 1, not 4. -/
theorem urlio_fread_returns_items_not_bytes :
    (urlio_fread (faithfulNet sampleBytes) (sampleUrlFile 2) 4 1).status = .returned 1 ∧
    (urlio_fread (faithfulNet sampleBytes) (sampleUrlFile 2) 4 1).dst = [12, 13, 14, 15] ∧
    ((urlio_fread (faithfulNet sampleBytes) (sampleUrlFile 2) 4 1).file.map urlio_ftell
      = some 6) ∧
    (urlio_fread (faithfulNet sampleBytes) (sampleUrlFile 2) 4 1).status.value ≠
      some (urlio_fread (faithfulNet sampleBytes) (sampleUrlFile 2) 4 1).dst.length := by
  decide

theorem fread_iter_miss_fetched (env : NetEnv) (size : Nat) (st : FreadState)
    (hmiss : cache_lookup (Int.tdiv st.current_pointer (CACHE_SIZE : Int) * (CACHE_SIZE : Int))
      st.cache = none) :
    (fread_iter env size st).state.fetched =
      st.fetched ++ [Int.tdiv st.current_pointer (CACHE_SIZE : Int) * (CACHE_SIZE : Int)] := by
  unfold fread_iter
  simp only [hmiss]
  cases fetch_block env size
      (Int.tdiv st.current_pointer (CACHE_SIZE : Int) * (CACHE_SIZE : Int)) with
  | hang => rfl
  | failed => rfl
  | block block =>
    simp only
    split_ifs <;> rfl

/-- The miss branch of one iteration of the copy loop: the outcome of
`fetch_block` on the block of the cursor decides how the iteration ends, and a
fetched block is appended to the block cache under its offset. -/
theorem fread_iter_miss_fetch (env : NetEnv) (size : Nat) (st : FreadState)
    (hmiss : cache_lookup (Int.tdiv st.current_pointer (CACHE_SIZE : Int) * (CACHE_SIZE : Int))
      st.cache = none) :
    (fetch_block env size (Int.tdiv st.current_pointer (CACHE_SIZE : Int) * (CACHE_SIZE : Int))
        = .hang →
      fread_iter env size st = .hang { st with fetched := st.fetched ++
        [Int.tdiv st.current_pointer (CACHE_SIZE : Int) * (CACHE_SIZE : Int)] }) ∧
    (fetch_block env size (Int.tdiv st.current_pointer (CACHE_SIZE : Int) * (CACHE_SIZE : Int))
        = .failed →
      fread_iter env size st = .worker_failed { st with fetched := st.fetched ++
        [Int.tdiv st.current_pointer (CACHE_SIZE : Int) * (CACHE_SIZE : Int)] }) ∧
    (∀ bytes,
      fetch_block env size (Int.tdiv st.current_pointer (CACHE_SIZE : Int) * (CACHE_SIZE : Int))
        = .block bytes →
      (fread_iter env size st).state.cache = st.cache ++
        [(Int.tdiv st.current_pointer (CACHE_SIZE : Int) * (CACHE_SIZE : Int), bytes)]) := by
  refine ⟨?_, ?_, ?_⟩
  · intro h
    unfold fread_iter
    simp only [hmiss, h]
  · intro h
    unfold fread_iter
    simp only [hmiss, h]
  · intro bytes h
    unfold fread_iter
    simp only [hmiss, h]
    split_ifs <;> rfl

/-- The miss branch runs the four workers on their assigned ranges and
combines what they post: no block while a worker never posts, failure if a
worker posts a bad flag, otherwise the four pieces one after the other. -/
theorem fetch_block_workers (env : NetEnv) (size : Nat) (b : Int) :
    fetch_block env size b =
      match fread_thread env 0 b 262144 size, fread_thread env 1 (b + 262144) 262144 size,
        fread_thread env 2 (b + 524288) 262144 size,
        fread_thread env 3 (b + 786432) 262144 size with
      | some w0, some w1, some w2, some w3 =>
        if w0.good = true ∧ w1.good = true ∧ w2.good = true ∧ w3.good = true
        then .block (w0.cache ++ w1.cache ++ w2.cache ++ w3.cache) else .failed
      | _, _, _, _ => .hang := by
  have hrange : List.range THREAD_NUM = [0, 1, 2, 3] := by decide
  have h0 : worker_assignment b 0 = (b, 262144) := by
    unfold worker_assignment
    rw [THREAD_CACHE_SIZE_cast, THREAD_CACHE_SIZE_eq]
    simp
  have h1 : worker_assignment b 1 = (b + 262144, 262144) := by
    unfold worker_assignment
    rw [THREAD_CACHE_SIZE_cast, THREAD_CACHE_SIZE_eq]
    simp
  have h2 : worker_assignment b 2 = (b + 524288, 262144) := by
    unfold worker_assignment
    rw [THREAD_CACHE_SIZE_cast, THREAD_CACHE_SIZE_eq]
    norm_num
  have h3 : worker_assignment b 3 = (b + 786432, 262144) := by
    unfold worker_assignment
    rw [THREAD_CACHE_SIZE_cast, THREAD_CACHE_SIZE_eq]
    norm_num
  unfold fetch_block
  simp only [hrange, List.map_cons, List.map_nil, h0, h1, h2, h3]
  cases fread_thread env 0 b 262144 size with
  | none => simp
  | some w0 =>
    cases fread_thread env 1 (b + 262144) 262144 size with
    | none => simp
    | some w1 =>
      cases fread_thread env 2 (b + 524288) 262144 size with
      | none => simp
      | some w2 =>
        cases fread_thread env 3 (b + 786432) 262144 size with
        | none => simp
        | some w3 =>
          cases hg0 : w0.good <;> cases hg1 : w1.good <;> cases hg2 : w2.good <;>
            cases hg3 : w3.good <;> simp [hg0, hg1, hg2, hg3]

/-- C13: on a read miss at cursor position `p >= 0` the block fetched starts at
`floor(p / CACHE_SIZE) * CACHE_SIZE`, with `CACHE_SIZE = THREAD_NUM *
THREAD_CACHE_SIZE = 4 * 262144 = 1048576`; it contains `p`; worker `t < 4` is
assigned offset `blockStart + t * 262144` and length 262144; each range starts
where the previous one ends, the four ranges are pairwise disjoint, and their
union is exactly `[blockStart, blockStart + CACHE_SIZE)`.  The miss branch of
the copy loop runs `fread_thread` for the workers 0..3 on exactly these ranges:
the iteration waits for ever if one of them never posts, returns 0 if one posts
a bad flag, and otherwise appends the four pieces, in the order of the
workers, to the block cache as the block at `blockStart`. -/
theorem fread_miss_block_and_workers (p : Int) (hp : 0 ≤ p) :
    (CACHE_SIZE = THREAD_NUM * THREAD_CACHE_SIZE ∧ THREAD_NUM = 4 ∧
      THREAD_CACHE_SIZE = 262144 ∧ CACHE_SIZE = 1048576) ∧
    (∀ (env : NetEnv) (size : Nat) (st : FreadState), st.current_pointer = p →
      cache_lookup (block_start p) st.cache = none →
      (fread_iter env size st).state.fetched = st.fetched ++ [block_start p]) ∧
    (block_start p = p / 1048576 * 1048576 ∧ block_start p ≤ p ∧
      p < block_start p + 1048576) ∧
    (∀ t : Nat, t < 4 →
      worker_assignment (block_start p) t = (block_start p + (t : Int) * 262144, 262144)) ∧
    (∀ t : Nat, t + 1 < 4 →
      (worker_assignment (block_start p) (t + 1)).1 =
        (worker_assignment (block_start p) t).1 + (worker_assignment (block_start p) t).2) ∧
    (∀ x : Int, (block_start p ≤ x ∧ x < block_start p + 1048576) ↔
      ∃ t : Nat, t < 4 ∧ (worker_assignment (block_start p) t).1 ≤ x ∧
        x < (worker_assignment (block_start p) t).1 + (worker_assignment (block_start p) t).2) ∧
    (∀ (t1 t2 : Nat) (x : Int), t1 < 4 → t2 < 4 →
      ((worker_assignment (block_start p) t1).1 ≤ x ∧
        x < (worker_assignment (block_start p) t1).1 + (worker_assignment (block_start p) t1).2) →
      ((worker_assignment (block_start p) t2).1 ≤ x ∧
        x < (worker_assignment (block_start p) t2).1 + (worker_assignment (block_start p) t2).2) →
      t1 = t2) ∧
    (∀ (env : NetEnv) (size : Nat),
      fetch_block env size (block_start p) =
        match fread_thread env 0 (block_start p) 262144 size,
          fread_thread env 1 (block_start p + 262144) 262144 size,
          fread_thread env 2 (block_start p + 524288) 262144 size,
          fread_thread env 3 (block_start p + 786432) 262144 size with
        | some w0, some w1, some w2, some w3 =>
          if w0.good = true ∧ w1.good = true ∧ w2.good = true ∧ w3.good = true
          then .block (w0.cache ++ w1.cache ++ w2.cache ++ w3.cache) else .failed
        | _, _, _, _ => .hang) ∧
    (∀ (env : NetEnv) (size : Nat) (st : FreadState), st.current_pointer = p →
      cache_lookup (block_start p) st.cache = none →
      (fetch_block env size (block_start p) = .hang →
        fread_iter env size st
          = .hang { st with fetched := st.fetched ++ [block_start p] }) ∧
      (fetch_block env size (block_start p) = .failed →
        fread_iter env size st
          = .worker_failed { st with fetched := st.fetched ++ [block_start p] }) ∧
      (∀ bytes, fetch_block env size (block_start p) = .block bytes →
        (fread_iter env size st).state.cache = st.cache ++ [(block_start p, bytes)])) := by
  have hbs : block_start p = p / 1048576 * 1048576 := by
    unfold block_start
    rw [CACHE_SIZE_cast]
  have hwa : ∀ t : Nat, worker_assignment (block_start p) t
      = (block_start p + (t : Int) * 262144, 262144) := by
    intro t
    unfold worker_assignment
    rw [THREAD_CACHE_SIZE_cast, THREAD_CACHE_SIZE_eq]
  have hb : ∀ st : FreadState, st.current_pointer = p →
      Int.tdiv st.current_pointer (CACHE_SIZE : Int) * (CACHE_SIZE : Int) = block_start p := by
    intro st hcp
    unfold block_start
    rw [hcp, Int.tdiv_eq_ediv hp (by rw [CACHE_SIZE_cast]; decide)]
  refine ⟨⟨by decide, rfl, by decide, by decide⟩, ?_, ⟨hbs, by omega, by omega⟩,
    fun t _ => hwa t, ?_, ?_, ?_, fun env size => fetch_block_workers env size _, ?_⟩
  · intro env size st hcp hmiss
    have := fread_iter_miss_fetched env size st (by rw [hb st hcp]; exact hmiss)
    rw [hb st hcp] at this
    exact this
  · intro t _
    simp only [hwa]
    push_cast
    ring
  · intro x
    simp only [hwa]
    constructor
    · intro hx
      refine ⟨((x - block_start p) / 262144).toNat, ?_, ?_, ?_⟩ <;>
        (try rw [Int.toNat_of_nonneg (by omega)]) <;> omega
    · rintro ⟨t, ht, h1, h2⟩
      push_cast at h1 h2
      omega
  · intro t1 t2 x ht1 ht2 h1 h2
    simp only [hwa] at h1 h2
    push_cast at h1 h2
    omega
  · intro env size st hcp hmiss
    have := fread_iter_miss_fetch env size st (by rw [hb st hcp]; exact hmiss)
    rw [hb st hcp] at this
    exact this

/-- Witness for C13: a miss at cursor 1500000 fetches the block starting at
1048576, and worker 3 is assigned the range starting at 1048576 + 3 * 262144;
on the 10-byte file `sampleBytes` served without fault, a miss at cursor 2
makes the four workers deliver the block at offset 0, the whole file. -/
theorem fread_miss_block_and_workers_witness :
    (block_start 1500000 = 1500000 / 1048576 * 1048576 ∧ block_start 1500000 ≤ 1500000 ∧
      1500000 < block_start 1500000 + 1048576) ∧
    worker_assignment (block_start 1500000) 3
      = (block_start 1500000 + ((3 : Nat) : Int) * 262144, 262144) ∧
    fetch_block (faithfulNet sampleBytes) 10 (block_start 2) = .block sampleBytes :=
  ⟨(fread_miss_block_and_workers 1500000 (by decide)).2.2.1,
   (fread_miss_block_and_workers 1500000 (by decide)).2.2.2.1 3 (by decide),
   by decide⟩

/-- Witness for C14: a read of 5 bytes at offset 2 of `sampleBytes` with nothing
cached before leaves one block, at offset 0. -/
theorem urlio_fread_preserves_block_cache_witness :
    BlockCacheOk (sampleUrlFile 2).cache ∧
    (urlio_fread (faithfulNet sampleBytes) (sampleUrlFile 2) 1 5).file
      = some { sampleUrlFile 7 with cache := [(0, sampleBytes)] } ∧
    BlockCacheOk [(0, sampleBytes)] :=
  ⟨⟨fun _ he => (by cases he), List.nodup_nil⟩, by decide,
   (urlio_fread_preserves_block_cache (faithfulNet sampleBytes) (sampleUrlFile 2) 1 5
      { sampleUrlFile 7 with cache := [(0, sampleBytes)] }
      ⟨fun _ he => (by cases he), List.nodup_nil⟩ (by decide)).1⟩

theorem cache_lookup_append_some (b : Int) (c ext : List (Int × List Nat)) (block : List Nat)
    (h : cache_lookup b c = some block) : cache_lookup b (c ++ ext) = some block := by
  induction c with
  | nil => simp [cache_lookup] at h
  | cons e rest ih =>
    simp only [cache_lookup, List.cons_append] at h ⊢
    by_cases he : e.1 = b
    · simp only [he, if_true] at h ⊢
      exact h
    · simp only [he, if_false] at h ⊢
      exact ih h

theorem cache_lookup_append_none (b : Int) (c ext : List (Int × List Nat))
    (h : cache_lookup b c = none) : cache_lookup b (c ++ ext) = cache_lookup b ext := by
  induction c with
  | nil => rfl
  | cons e rest ih =>
    simp only [cache_lookup, List.cons_append] at h ⊢
    by_cases he : e.1 = b
    · simp [he] at h
    · simp only [he, if_false] at h ⊢
      exact ih h

theorem fread_iter_replay (env env2 : NetEnv) (size size2 : Nat) (st st1 st2 : FreadState)
    (hcp0 : 0 ≤ st.current_pointer) (hcp1 : st.current_pointer < 4611686018427387904)
    (hcs0 : 0 ≤ st.current_size) (hcs1 : st.current_size < 2147483648)
    (hne : 1 ≤ st.current_size ∨ st.current_pointer % 1048576 ≠ 0)
    (hiter : fread_iter env size st = .done st1)
    (hcp : st2.current_pointer = st.current_pointer)
    (hcs : st2.current_size = st.current_size)
    (hcache : ∃ ext, st2.cache = st1.cache ++ ext) :
    ∃ block cache1 fetched1, st1 = fread_advance st cache1 block fetched1 ∧
      fread_iter env2 size2 st2 = .done (fread_advance st2 st2.cache block st2.fetched) := by
  obtain ⟨ext, hext⟩ := hcache
  rw [fread_iter_eq env size st hcp0 hcp1 hcs0 hcs1 hne] at hiter
  rw [fread_iter_eq env2 size2 st2 (by rw [hcp]; exact hcp0) (by rw [hcp]; exact hcp1)
    (by rw [hcs]; exact hcs0) (by rw [hcs]; exact hcs1) (by rw [hcp, hcs]; exact hne), hcp]
  cases hlook : cache_lookup (block_start st.current_pointer) st.cache with
  | some block =>
    simp only [hlook, FreadLoop.done.injEq] at hiter
    have hc : st1.cache = st.cache := by rw [← hiter]; rfl
    have hlook2 : cache_lookup (block_start st.current_pointer) st2.cache = some block := by
      rw [hext, hc]
      exact cache_lookup_append_some _ _ _ _ hlook
    simp only [hlook2]
    exact ⟨block, _, _, hiter.symm, rfl⟩
  | none =>
    simp only [hlook] at hiter
    cases hfetch : fetch_block env size (block_start st.current_pointer) with
    | hang => simp [hfetch] at hiter
    | failed => simp [hfetch] at hiter
    | block block =>
      simp only [hfetch, FreadLoop.done.injEq] at hiter
      have hc : st1.cache = st.cache ++ [(block_start st.current_pointer, block)] := by
        rw [← hiter]; rfl
      have hlook2 : cache_lookup (block_start st.current_pointer) st2.cache = some block := by
        rw [hext, hc]
        apply cache_lookup_append_some
        rw [cache_lookup_append_none _ _ _ hlook]
        simp [cache_lookup]
      simp only [hlook2]
      exact ⟨block, _, _, hiter.symm, rfl⟩

theorem fread_loop_done_cache (env : NetEnv) (size iters : Nat) (st st1 : FreadState)
    (h : fread_loop env size iters st = .done st1) : ∃ added, st1.cache = st.cache ++ added := by
  have hg := fread_loop_cache env size st.cache st.fetched iters st (CacheGrown.refl _ _)
  rw [h] at hg
  obtain ⟨added, hc, _⟩ := hg
  exact ⟨added, hc⟩

theorem fread_loop_replay (env env2 : NetEnv) (size size2 : Nat) :
    ∀ (iters : Nat) (st st1 st2 : FreadState),
      0 ≤ st.current_pointer →
      st.current_pointer + st.current_size < 4611686018427387904 →
      1 ≤ st.current_size → st.current_size < 2147483648 →
      (iters : Int) = (st.current_pointer + st.current_size - 1) / 1048576
        - st.current_pointer / 1048576 + 1 →
      fread_loop env size iters st = .done st1 →
      st2.current_pointer = st.current_pointer → st2.current_size = st.current_size →
      (∃ ext, st2.cache = st1.cache ++ ext) →
      ∃ st3 bytes, fread_loop env2 size2 iters st2 = .done st3 ∧ st3.cache = st2.cache ∧
        st3.fetched = st2.fetched ∧ st1.dst = st.dst ++ bytes ∧ st3.dst = st2.dst ++ bytes := by
  intro iters
  induction iters with
  | zero =>
    intro st st1 st2 hcp0 hsum hcs0 hcs1 hiters
    exfalso
    simp only [Nat.cast_zero] at hiters
    omega
  | succ k ih =>
    intro st st1 st2 hcp0 hsum hcs0 hcs1 hiters hloop hcp hcs hcache
    simp only [fread_loop] at hloop ⊢
    cases hres : fread_iter env size st with
    | worker_failed s => simp [hres] at hloop
    | hang s => simp [hres] at hloop
    | undefined s => simp [hres] at hloop
    | done stm =>
      simp only [hres] at hloop
      obtain ⟨added, hadded⟩ := fread_loop_done_cache env size k stm st1 hloop
      obtain ⟨ext, hext⟩ := hcache
      obtain ⟨block, cache1, fetched1, hstm, hiter2⟩ := fread_iter_replay env env2 size size2
        st stm st2 hcp0 (by omega) (by omega) hcs1 (Or.inl hcs0) hres hcp hcs
        ⟨added ++ ext, by rw [hext, hadded, List.append_assoc]⟩
      simp only [hiter2]
      have hbs : block_start st.current_pointer = st.current_pointer / 1048576 * 1048576 := by
        unfold block_start
        rw [CACHE_SIZE_cast]
      have hcopy : fread_copy_size st.current_pointer st.current_size =
          if (st.current_pointer + st.current_size - 1) / 1048576 = st.current_pointer / 1048576
          then st.current_size
          else st.current_pointer / 1048576 * 1048576 + 1048576 - st.current_pointer := by
        unfold fread_copy_size
        rw [CACHE_SIZE_cast, hbs]
      by_cases hsame : (st.current_pointer + st.current_size - 1) / 1048576
          = st.current_pointer / 1048576
      · have hk : k = 0 := by
          push_cast at hiters
          omega
        subst hk
        simp only [fread_loop, FreadLoop.done.injEq] at hloop ⊢
        subst hloop
        refine ⟨_, read_block block
          (st.current_pointer - block_start st.current_pointer).toNat
          (fread_copy_size st.current_pointer st.current_size).toNat, rfl, rfl, rfl, ?_, ?_⟩
        · rw [hstm]; rfl
        · simp only [fread_advance, hcp, hcs]
      · rw [if_neg hsame] at hcopy
        obtain ⟨st3, bytes, hloop3, hc3, hf3, hd1, hd3⟩ := ih stm st1
          (fread_advance st2 st2.cache block st2.fetched)
          (by rw [hstm]; simp only [fread_advance]; omega)
          (by rw [hstm]; simp only [fread_advance]; omega)
          (by rw [hstm]; simp only [fread_advance]; omega)
          (by rw [hstm]; simp only [fread_advance]; omega)
          (by rw [hstm]; simp only [fread_advance]; push_cast at hiters; omega)
          hloop
          (by rw [hstm]; simp only [fread_advance, hcp, hcs])
          (by rw [hstm]; simp only [fread_advance, hcp, hcs])
          ⟨ext, hext⟩
        refine ⟨st3, read_block block
          (st.current_pointer - block_start st.current_pointer).toNat
          (fread_copy_size st.current_pointer st.current_size).toNat ++ bytes,
          hloop3, hc3, hf3, ?_, ?_⟩
        · rw [hd1, hstm]
          simp only [fread_advance, List.append_assoc]
        · rw [hd3]
          simp only [fread_advance, List.append_assoc, hcp, hcs]

theorem fread_request_replay (env env2 : NetEnv) (size1 size2 : Nat) (pos : Int)
    (c c2 : List (Int × List Nat)) (size nmemb : Nat) (st1 : FreadState)
    (hpos0 : 0 ≤ pos) (hpos1 : pos < 2305843009213693952) (hn : size * nmemb < 2147483648)
    (hloop : fread_loop env size1 (fread_cache_count pos size nmemb).toNat
        { cache := c, current_pointer := pos, current_size := wrapU64 ((size : Int) * nmemb),
          dst := [], fetched := [], copies := [] } = .done st1)
    (hcache : c2 = st1.cache) :
    ∃ st3, fread_loop env2 size2 (fread_cache_count pos size nmemb).toNat
        { cache := c2, current_pointer := pos, current_size := wrapU64 ((size : Int) * nmemb),
          dst := [], fetched := [], copies := [] } = .done st3 ∧
      st3.cache = c2 ∧ st3.fetched = [] ∧ st3.dst = st1.dst := by
  have hcast : ((size : Int) * (nmemb : Int)) = ((size * nmemb : Nat) : Int) := by
    push_cast; ring
  have hw : wrapU64 ((size : Int) * nmemb) = ((size * nmemb : Nat) : Int) := by
    rw [hcast]
    exact wrapU64_of_range _ (by omega) (by omega)
  rw [hw] at hloop ⊢
  by_cases hn0 : size * nmemb = 0
  · rw [fread_cache_count_zero pos size nmemb hpos0 hn0, hn0] at hloop ⊢
    by_cases hmod : pos % 1048576 = 0
    · rw [if_pos hmod] at hloop ⊢
      simp only [Int.toNat_zero, fread_loop, FreadLoop.done.injEq] at hloop ⊢
      subst hloop
      exact ⟨_, rfl, rfl, rfl, rfl⟩
    · rw [if_neg hmod] at hloop ⊢
      have hone : (1 : Int).toNat = 1 := rfl
      rw [hone] at hloop ⊢
      simp only [fread_loop, Nat.cast_zero] at hloop ⊢
      cases hres : fread_iter env size1
          { cache := c, current_pointer := pos, current_size := (0 : Int), dst := [],
            fetched := [], copies := [] } with
      | worker_failed s => simp [hres] at hloop
      | hang s => simp [hres] at hloop
      | undefined s => simp [hres] at hloop
      | done stm =>
        simp only [hres, FreadLoop.done.injEq] at hloop
        subst hloop
        obtain ⟨block, cache1, fetched1, hstm, hiter2⟩ := fread_iter_replay env env2 size1 size2
          { cache := c, current_pointer := pos, current_size := (0 : Int), dst := [],
            fetched := [], copies := [] } stm
          { cache := c2, current_pointer := pos, current_size := (0 : Int), dst := [],
            fetched := [], copies := [] }
          hpos0 (by simp only; omega) (by simp) (by simp) (Or.inr hmod) hres rfl rfl
          ⟨[], by simp [hcache]⟩
        simp only [hiter2]
        refine ⟨_, rfl, rfl, rfl, ?_⟩
        rw [hstm]
        rfl
  · have hn1 : 1 ≤ size * nmemb := Nat.one_le_iff_ne_zero.mpr hn0
    have hcount := (fread_cache_count_eq pos size nmemb hpos0 hn1 hn).2
    obtain ⟨st3, bytes, hloop3, hc3, hf3, hd1, hd3⟩ := fread_loop_replay env env2 size1 size2
      (fread_cache_count pos size nmemb).toNat
      { cache := c, current_pointer := pos, current_size := ((size * nmemb : Nat) : Int),
        dst := [], fetched := [], copies := [] } st1
      { cache := c2, current_pointer := pos, current_size := ((size * nmemb : Nat) : Int),
        dst := [], fetched := [], copies := [] }
      hpos0 (by simp only; omega) (by simp only; omega) (by simp only; omega)
      (by simp only; rw [Int.toNat_of_nonneg (by rw [hcount]; omega), hcount])
      hloop rfl rfl ⟨[], by simp [hcache]⟩
    refine ⟨st3, hloop3, hc3, hf3, ?_⟩
    rw [hd3, hd1]

/-- C15: for a remote byte source with cursor `p >= 0`, after an
`urlio_fread` of `size * nmemb` bytes (in `int` range) at `p` that returned
through its final `return`, a successful `urlio_fseek(file, p, SEEK_SET)` and a
second `urlio_fread` of the same `size` and `nmemb` dispatch no worker (every
block touched is found in the cache), copy the same bytes as the first read and
leave the block cache as the first read left it; the second read returns the
same value unless the main transfer cannot be restarted after the copy. -/
theorem urlio_fread_reread_from_cache (env env2 env3 : NetEnv) (file f1 f2 : UrlFile)
    (size nmemb v : Nat) (hpos0 : 0 ≤ file.pos) (hpos1 : file.pos < 2305843009213693952)
    (hn : size * nmemb < 2147483648)
    (hret : (urlio_fread env file size nmemb).status = .returned v)
    (hf1 : (urlio_fread env file size nmemb).file = some f1)
    (hseek : urlio_fseek env2 f1 file.pos SEEK_SET = (0, some f2)) :
    (urlio_fread env3 f2 size nmemb).fetched = [] ∧
    (urlio_fread env3 f2 size nmemb).dst = (urlio_fread env file size nmemb).dst ∧
    ((urlio_fread env3 f2 size nmemb).status = .returned v ∨
      (urlio_fread env3 f2 size nmemb).status = .transfer_lost) ∧
    (∀ f3, (urlio_fread env3 f2 size nmemb).file = some f3 → f3.cache = f1.cache) ∧
    ((urlio_fread env3 f2 size nmemb).status = .returned v →
      ∃ f3, (urlio_fread env3 f2 size nmemb).file = some f3 ∧ f3.cache = f1.cache) := by
  -- the first read
  have h1 : ∃ st1, fread_loop env file.size (fread_cache_count file.pos size nmemb).toNat
        { cache := file.cache, current_pointer := file.pos,
          current_size := wrapU64 ((size : Int) * nmemb), dst := [], fetched := [],
          copies := [] } = .done st1 ∧
      (urlio_fread env file size nmemb).dst = st1.dst ∧ f1.cache = st1.cache ∧
      v = st1.dst.length / size ∧ size ≠ 0 := by
    unfold urlio_fread at hret hf1 ⊢
    cases hres : fread_loop env file.size (fread_cache_count file.pos size nmemb).toNat
        { cache := file.cache, current_pointer := file.pos,
          current_size := wrapU64 ((size : Int) * nmemb), dst := [], fetched := [],
          copies := [] } with
    | worker_failed st => simp [hres] at hret
    | hang st => simp [hres] at hret
    | undefined st => simp [hres] at hret
    | done st =>
      simp only [hres] at hret hf1 ⊢
      by_cases hlost : (env.restart (file.pos + wrapU64 ((size : Int) * nmemb))).1.length = 0 ∧
          (env.restart (file.pos + wrapU64 ((size : Int) * nmemb))).2 = false
      · simp [hlost] at hret
      · by_cases hsz : size = 0
        · rw [if_neg hlost, if_pos hsz] at hret
          simp at hret
        · simp only [hlost, hsz, if_false, FreadStatus.returned.injEq, Option.some.injEq]
            at hret hf1 ⊢
          refine ⟨st, rfl, rfl, ?_, hret.symm, hsz⟩
          rw [← hf1]
  obtain ⟨st1, hloop1, hdst1, hc1, hv, hsz⟩ := h1
  -- the seek
  have h2 : f2.pos = file.pos ∧ f2.cache = f1.cache := by
    unfold urlio_fseek at hseek
    simp only [if_true] at hseek
    split_ifs at hseek
    · simp at hseek
    · simp only [Prod.mk.injEq, Option.some.injEq, true_and] at hseek
      rw [← hseek]
      exact ⟨rfl, rfl⟩
  obtain ⟨hp2, hc2⟩ := h2
  -- the second read
  obtain ⟨st3, hloop3, hc3, hf3, hd3⟩ := fread_request_replay env env3 file.size f2.size
    file.pos file.cache f2.cache size nmemb st1 hpos0 hpos1 hn hloop1 (by rw [hc2, hc1])
  rw [hdst1]
  unfold urlio_fread
  rw [hp2]
  simp only [hloop3]
  split_ifs with hlost
  · exact ⟨hf3, hd3, Or.inr rfl, fun f3 h => (by cases h), fun h => (by cases h)⟩
  · refine ⟨hf3, hd3, Or.inl ?_, ?_, ?_⟩
    · simp only [FreadStatus.returned.injEq]
      rw [hd3, hv]
    · intro f3 h
      simp only [Option.some.injEq] at h
      rw [← h]
      simp only
      rw [hc3, hc2]
    · intro _
      exact ⟨_, rfl, by simp only; rw [hc3, hc2]⟩

/-- Witness for C15: 5 bytes read at offset 2 of `sampleBytes`, a seek back to
offset 2 and the same read again. -/
theorem urlio_fread_reread_from_cache_witness :
    (urlio_fread (faithfulNet sampleBytes) (sampleUrlFile 2) 1 5).status = .returned 5 ∧
    (urlio_fread (faithfulNet sampleBytes)
      { sampleUrlFile 2 with cache := [(0, sampleBytes)] } 1 5).fetched = [] ∧
    (urlio_fread (faithfulNet sampleBytes)
      { sampleUrlFile 2 with cache := [(0, sampleBytes)] } 1 5).dst = [12, 13, 14, 15, 16] :=
  ⟨by decide,
   (urlio_fread_reread_from_cache (faithfulNet sampleBytes) (faithfulNet sampleBytes)
      (faithfulNet sampleBytes) (sampleUrlFile 2)
      { sampleUrlFile 7 with cache := [(0, sampleBytes)] }
      { sampleUrlFile 2 with cache := [(0, sampleBytes)] } 1 5 5
      (by decide) (by decide) (by decide) (by decide) (by decide) (by decide)).1,
   by decide⟩

theorem fetch_block_failed (env : NetEnv) (size : Nat) (b : Int)
    (h : fetch_block env size b = .failed) :
    ∃ t w, t < THREAD_NUM ∧
      fread_thread env t (worker_assignment b t).1 (worker_assignment b t).2 size = some w ∧
      w.good = false := by
  unfold fetch_block at h
  simp only at h
  split_ifs at h with h1 h2
  simp only [List.any_eq_true, List.mem_map, List.mem_range] at h2
  obtain ⟨r, ⟨t, ht, hr⟩, hw⟩ := h2
  cases r with
  | none => simp at hw
  | some w =>
    simp only [Bool.not_eq_true'] at hw
    exact ⟨t, w, ht, hr, hw⟩

/-- C16 (amended): when a worker of a read miss reports failure, `urlio_fread`
returns 0 and leaves the cursor where it was; the block whose worker failed is
not inserted; the block cache afterwards is the cache before the request
followed by the blocks the same request fetched completely before the failing
one, in the order of their dispatch, so it is exactly the old cache when the
failing block is the first one the request misses. -/
theorem urlio_fread_worker_failure (env : NetEnv) (file : UrlFile) (size nmemb : Nat)
    (hfail : (urlio_fread env file size nmemb).status = .worker_failed) :
    (urlio_fread env file size nmemb).status.value = some 0 ∧
    ∃ f1 before b added,
      (urlio_fread env file size nmemb).file = some f1 ∧
      f1.pos = file.pos ∧ f1.size = file.size ∧
      (urlio_fread env file size nmemb).fetched = before ++ [b] ∧
      (∃ t w, t < THREAD_NUM ∧
        fread_thread env t (worker_assignment b t).1 (worker_assignment b t).2 file.size
          = some w ∧ w.good = false) ∧
      b ∉ f1.cache.map Prod.fst ∧
      f1.cache = file.cache ++ added ∧ added.map Prod.fst = before ∧
      (before = [] → f1.cache = file.cache) := by
  have hloop := fread_loop_cache env file.size file.cache []
    (fread_cache_count file.pos size nmemb).toNat
    { cache := file.cache, current_pointer := file.pos,
      current_size := wrapU64 ((size : Int) * nmemb), dst := [], fetched := [], copies := [] }
    (CacheGrown.refl _ _)
  unfold urlio_fread at hfail ⊢
  cases hres : fread_loop env file.size (fread_cache_count file.pos size nmemb).toNat
      { cache := file.cache, current_pointer := file.pos,
        current_size := wrapU64 ((size : Int) * nmemb), dst := [], fetched := [],
        copies := [] } with
  | hang st => simp [hres] at hfail
  | undefined st => simp [hres] at hfail
  | done st =>
    simp only [hres] at hfail
    split_ifs at hfail
  | worker_failed st =>
    rw [hres] at hloop
    obtain ⟨f, b, hfetched, ⟨added, hc, hf, _, _, _⟩, hnot, hfb⟩ := hloop
    simp only [List.nil_append] at hf
    simp only [hres]
    refine ⟨rfl, _, f, b, added, rfl, rfl, rfl, hfetched, fetch_block_failed env _ b hfb, hnot,
      hc, hf.symm, ?_⟩
    intro hnil
    rw [hnil] at hf
    have : added = [] := by
      cases added with
      | nil => rfl
      | cons a rest => simp at hf
    simp only [hc, this, List.append_nil]

/-- Witness for C16 (amended): a read of 2 bytes at offset 1048576 on
`firstBlockOnlyNet`: the only block touched cannot be fetched, and the cache
stays empty. -/
theorem urlio_fread_worker_failure_witness :
    (urlio_fread firstBlockOnlyNet (sampleLargeUrlFile 1048576) 1 2).status = .worker_failed ∧
    (urlio_fread firstBlockOnlyNet (sampleLargeUrlFile 1048576) 1 2).status.value = some 0 ∧
    (urlio_fread firstBlockOnlyNet (sampleLargeUrlFile 1048576) 1 2).file
      = some (sampleLargeUrlFile 1048576) :=
  ⟨by decide,
   (urlio_fread_worker_failure firstBlockOnlyNet (sampleLargeUrlFile 1048576) 1 2
      (by decide)).1,
   by decide⟩

/-- C16 as stated fails: on `firstBlockOnlyNet` a read of 2 bytes at offset
1048575 touches the blocks at 0 and 1048576.  The workers of the first block
succeed and the block is inserted; worker 0 of the second block reports failure
(its good flag is false).  The call returns 0 with the cursor unchanged, but the
block cache, empty before the request, now holds the block at offset 0. -/
theorem urlio_fread_failure_keeps_earlier_block :
    (sampleLargeUrlFile 1048575).cache = [] ∧
    (fread_thread firstBlockOnlyNet 0 (worker_assignment 1048576 0).1
      (worker_assignment 1048576 0).2 2000000).map (fun w => w.good) = some false ∧
    (urlio_fread firstBlockOnlyNet (sampleLargeUrlFile 1048575) 1 2).status = .worker_failed ∧
    (urlio_fread firstBlockOnlyNet (sampleLargeUrlFile 1048575) 1 2).status.value = some 0 ∧
    (urlio_fread firstBlockOnlyNet (sampleLargeUrlFile 1048575) 1 2).fetched = [0, 1048576] ∧
    (urlio_fread firstBlockOnlyNet (sampleLargeUrlFile 1048575) 1 2).file
      = some { sampleLargeUrlFile 1048575 with cache := [(0, [7, 7, 7, 7])] } ∧
    ((urlio_fread firstBlockOnlyNet (sampleLargeUrlFile 1048575) 1 2).file.map
      fun f => f.cache) ≠ some (sampleLargeUrlFile 1048575).cache := by
  decide

/-- C17: for a remote byte source, an `urlio_fseek(file, off, whence)` that
returns 0 has `whence` one of `SEEK_SET`, `SEEK_CUR`, `SEEK_END`, and afterwards
`urlio_ftell` returns `off`, the previous cursor plus `off`, or the size plus
`off` respectively, the block cache and the size being as before; the call
returns 0 whenever `whence` is one of the three and the transfer restarts.  Any
other `whence` returns -1 and leaves the source, the cursor included,
unchanged. -/
theorem urlio_fseek_sets_cursor (env : NetEnv) (file : UrlFile) (off whence : Int) :
    (∀ f1, urlio_fseek env file off whence = (0, some f1) →
      (whence = SEEK_SET ∨ whence = SEEK_CUR ∨ whence = SEEK_END) ∧
      (whence = SEEK_SET → urlio_ftell f1 = off) ∧
      (whence = SEEK_CUR → urlio_ftell f1 = urlio_ftell file + off) ∧
      (whence = SEEK_END → urlio_ftell f1 = (file.size : Int) + off) ∧
      f1.cache = file.cache ∧ f1.size = file.size) ∧
    ((whence = SEEK_SET ∨ whence = SEEK_CUR ∨ whence = SEEK_END) →
      (∀ p, (env.restart p).2 = true) →
      ∃ f1, urlio_fseek env file off whence = (0, some f1)) ∧
    (whence ≠ SEEK_SET → whence ≠ SEEK_CUR → whence ≠ SEEK_END →
      urlio_fseek env file off whence = (-1, some file) ∧
      ((urlio_fseek env file off whence).2.map urlio_ftell) = some (urlio_ftell file)) := by
  refine ⟨?_, ?_, ?_⟩
  · intro f1 h
    unfold urlio_fseek at h
    by_cases h0 : whence = SEEK_SET
    · simp only [h0, if_true] at h
      split_ifs at h
      · simp at h
      · simp only [Prod.mk.injEq, Option.some.injEq, true_and] at h
        subst h
        refine ⟨Or.inl h0, fun _ => rfl, ?_, ?_, rfl, rfl⟩
        · intro h1; rw [h0] at h1; exact absurd h1 (by decide)
        · intro h1; rw [h0] at h1; exact absurd h1 (by decide)
    · by_cases h1 : whence = SEEK_CUR
      · simp only [h0, h1, if_true, if_false] at h
        have hne : ¬ (SEEK_CUR = SEEK_SET) := by decide
        simp only [hne, if_false] at h
        split_ifs at h
        · simp at h
        · simp only [Prod.mk.injEq, Option.some.injEq, true_and] at h
          subst h
          refine ⟨Or.inr (Or.inl h1), fun h2 => absurd h2 h0, fun _ => rfl, ?_, rfl, rfl⟩
          intro h2; rw [h1] at h2; exact absurd h2 (by decide)
      · by_cases h2 : whence = SEEK_END
        · simp only [h0, h1, h2, if_true, if_false] at h
          have hne1 : ¬ (SEEK_END = SEEK_SET) := by decide
          have hne2 : ¬ (SEEK_END = SEEK_CUR) := by decide
          simp only [hne1, hne2, if_false] at h
          split_ifs at h
          · simp at h
          · simp only [Prod.mk.injEq, Option.some.injEq, true_and] at h
            subst h
            exact ⟨Or.inr (Or.inr h2), fun h3 => absurd h3 h0, fun h3 => absurd h3 h1,
              fun _ => rfl, rfl, rfl⟩
        · simp only [h0, h1, h2, if_false] at h
          simp at h
  · intro hw hrestart
    unfold urlio_fseek
    have hgo : ∀ p, ¬ ((env.restart p).1.length = 0 ∧ (env.restart p).2 = false) := by
      intro p hp
      rw [hrestart p] at hp
      exact absurd hp.2 (by decide)
    rcases hw with h | h | h
    · simp only [h, if_true, hgo, if_false]
      exact ⟨_, rfl⟩
    · have hne : ¬ (SEEK_CUR = SEEK_SET) := by decide
      simp only [h, hne, if_true, hgo, if_false]
      exact ⟨_, rfl⟩
    · have hne1 : ¬ (SEEK_END = SEEK_SET) := by decide
      have hne2 : ¬ (SEEK_END = SEEK_CUR) := by decide
      simp only [h, hne1, hne2, if_true, hgo, if_false]
      exact ⟨_, rfl⟩
  · intro h0 h1 h2
    have : urlio_fseek env file off whence = (-1, some file) := by
      unfold urlio_fseek
      simp only [h0, h1, h2, if_false]
    rw [this]
    exact ⟨rfl, rfl⟩

/-- Witness for C17: `urlio_fseek(file, -3, SEEK_END)` on a source of 10 bytes
with the cursor at 2 moves the cursor to 7. -/
theorem urlio_fseek_sets_cursor_witness :
    urlio_fseek (faithfulNet sampleBytes) (sampleUrlFile 2) (-3) SEEK_END
      = (0, some (sampleUrlFile 7)) ∧
    urlio_ftell (sampleUrlFile 7) = ((sampleUrlFile 2).size : Int) + (-3) ∧
    urlio_fseek (faithfulNet sampleBytes) (sampleUrlFile 2) 4 7 = (-1, some (sampleUrlFile 2)) :=
  ⟨by decide,
   ((urlio_fseek_sets_cursor (faithfulNet sampleBytes) (sampleUrlFile 2) (-3) SEEK_END).1
      (sampleUrlFile 7) (by decide)).2.2.2.1 rfl,
   ((urlio_fseek_sets_cursor (faithfulNet sampleBytes) (sampleUrlFile 2) 4 7).2.2
      (by decide) (by decide) (by decide)).1⟩

theorem frelease_loop_past_end (url : String) (fuel count : Nat) (ret : Int)
    (reg : List UrlEntry) (h : reg.length ≤ count) :
    frelease_loop url fuel count ret reg = .returned ret reg := by
  cases fuel with
  | zero =>
    simp only [frelease_loop]
    rw [if_neg (by omega)]
  | succ f =>
    simp only [frelease_loop]
    rw [List.getElem?_eq_none h]

theorem frelease_loop_no_match (url : String) :
    ∀ (rest pre : List UrlEntry) (fuel : Nat) (ret : Int),
      (∀ e ∈ rest, e.freed = false ∧ e.file.url ≠ url) → rest.length ≤ fuel →
      frelease_loop url fuel pre.length ret (pre ++ rest) = .returned ret (pre ++ rest) := by
  intro rest
  induction rest with
  | nil =>
    intro pre fuel ret _ _
    exact frelease_loop_past_end url fuel _ ret _ (by simp)
  | cons e rest ih =>
    intro pre fuel ret hok hfuel
    cases fuel with
    | zero => simp at hfuel
    | succ f =>
      have he := hok e (List.mem_cons_self _ _)
      have hget : (pre ++ e :: rest)[pre.length]? = some e := by
        rw [List.getElem?_append_right (Nat.le_refl _)]
        simp
      simp only [frelease_loop, hget, he.1, he.2, if_false, Bool.false_eq_true]
      have := ih (pre ++ [e]) f ret (fun x hx => hok x (List.mem_cons_of_mem _ hx))
        (by simp only [List.length_cons] at hfuel; omega)
      simp only [List.length_append, List.length_singleton, List.append_assoc,
        List.singleton_append] at this
      exact this

theorem eraseIdx_append_cons (pre post : List UrlEntry) (e : UrlEntry) :
    (pre ++ e :: post).eraseIdx pre.length = pre ++ post := by
  induction pre with
  | nil => rfl
  | cons p pre ih =>
    simp only [List.cons_append, List.length_cons, List.eraseIdx_cons_succ, ih]

theorem frelease_loop_match (url : String) :
    ∀ (mid pre : List UrlEntry) (fuel : Nat) (ret : Int) (e : UrlEntry) (post : List UrlEntry),
      e.freed = false → e.file.url = url →
      (∀ x ∈ mid, x.freed = false ∧ x.file.url ≠ url) →
      (∀ x ∈ post, x.freed = false ∧ x.file.url ≠ url) →
      mid.length + 1 + post.length ≤ fuel →
      frelease_loop url fuel pre.length ret (pre ++ (mid ++ e :: post))
        = .returned 0 (pre ++ (mid ++ post)) := by
  intro mid
  induction mid with
  | nil =>
    intro pre fuel ret e post hfree hurl _ hpost hfuel
    cases fuel with
    | zero => omega
    | succ f =>
      have hget : (pre ++ e :: post)[pre.length]? = some e := by
        rw [List.getElem?_append_right (Nat.le_refl _)]
        simp
      simp only [List.nil_append, frelease_loop, hget, hfree, hurl, if_true, if_false,
        Bool.false_eq_true, eraseIdx_append_cons]
      cases post with
      | nil => exact frelease_loop_past_end url f _ 0 _ (by simp)
      | cons p post =>
        have := frelease_loop_no_match url post (pre ++ [p]) f 0
          (fun x hx => hpost x (List.mem_cons_of_mem _ hx))
          (by simp only [List.length_nil, List.length_cons] at hfuel; omega)
        simp only [List.length_append, List.length_singleton, List.append_assoc,
          List.singleton_append] at this
        exact this
  | cons m mid ih =>
    intro pre fuel ret e post hfree hurl hmid hpost hfuel
    cases fuel with
    | zero => omega
    | succ f =>
      have hm := hmid m (List.mem_cons_self _ _)
      have hget : (pre ++ (m :: mid ++ e :: post))[pre.length]? = some m := by
        rw [List.getElem?_append_right (Nat.le_refl _)]
        simp
      simp only [frelease_loop, hget, hm.1, hm.2, if_false, Bool.false_eq_true]
      have := ih (pre ++ [m]) f ret e post hfree hurl
        (fun x hx => hmid x (List.mem_cons_of_mem _ hx)) hpost
        (by simp only [List.length_cons] at hfuel; omega)
      simp only [List.length_append, List.length_singleton, List.append_assoc,
        List.singleton_append] at this
      exact this

/-- On a registry with one entry per URL, none of them freed, and for every
URL `U`: if an entry with URL `U` exists, `urlio_frelease(U)` returns 0, no
entry has URL `U` afterwards, the number of entries has dropped by exactly 1,
and the registry afterwards consists of the other entries in their former
order; if no entry has URL `U`, it returns -1 and the registry is unchanged. -/
theorem urlio_frelease_removes_entry (reg : List UrlEntry) (url : String)
    (hnodup : (reg.map fun e => e.file.url).Nodup) (hlive : ∀ e ∈ reg, e.freed = false) :
    ((∃ e ∈ reg, e.file.url = url) →
      ∃ reg1, urlio_frelease reg url = .returned 0 reg1 ∧
        (∀ e ∈ reg1, e.file.url ≠ url) ∧ reg1.length + 1 = reg.length ∧
        reg1 = reg.filter (fun e => decide (e.file.url ≠ url)) ∧ reg1.Sublist reg) ∧
    ((∀ e ∈ reg, e.file.url ≠ url) → urlio_frelease reg url = .returned (-1) reg) := by
  constructor
  · rintro ⟨e, he, hurl⟩
    obtain ⟨mid, post, hsplit⟩ := List.append_of_mem he
    subst hsplit
    simp only [List.map_append, List.map_cons] at hnodup
    have hmid : ∀ x ∈ mid, x.freed = false ∧ x.file.url ≠ url := by
      intro x hx
      refine ⟨hlive x (List.mem_append_left _ hx), ?_⟩
      intro hxu
      have hdis := (List.nodup_append.mp hnodup).2.2
      exact hdis (List.mem_map_of_mem (fun e => e.file.url) hx)
        (by rw [hxu, ← hurl]; exact List.mem_cons_self _ _)
    have hpost : ∀ x ∈ post, x.freed = false ∧ x.file.url ≠ url := by
      intro x hx
      refine ⟨hlive x (List.mem_append_right _ (List.mem_cons_of_mem _ hx)), ?_⟩
      intro hxu
      have hnd := (List.nodup_append.mp hnodup).2.1
      rw [List.nodup_cons] at hnd
      exact hnd.1 (by rw [hurl, ← hxu]; exact List.mem_map_of_mem (fun e => e.file.url) hx)
    have hloop := frelease_loop_match url mid [] (mid ++ e :: post).length (-1) e post
      (hlive e he) hurl hmid hpost (by simp; omega)
    simp only [List.nil_append, List.length_nil] at hloop
    refine ⟨mid ++ post, hloop, ?_, by simp; omega, ?_, ?_⟩
    · intro x hx
      rcases List.mem_append.mp hx with hx | hx
      · exact (hmid x hx).2
      · exact (hpost x hx).2
    · rw [List.filter_append, List.filter_cons]
      have hfm : mid.filter (fun e => decide (e.file.url ≠ url)) = mid :=
        List.filter_eq_self.mpr (fun x hx => by simpa using (hmid x hx).2)
      have hfp : post.filter (fun e => decide (e.file.url ≠ url)) = post :=
        List.filter_eq_self.mpr (fun x hx => by simpa using (hpost x hx).2)
      rw [hfm, hfp]
      simp [hurl]
    · exact List.Sublist.append (List.Sublist.refl _) (List.sublist_cons_self _ _)
  · intro hno
    have := frelease_loop_no_match url reg [] reg.length (-1)
      (fun e he => ⟨hlive e he, hno e he⟩) (Nat.le_refl _)
    simpa using this

/-- Releasing the second of the three URLs of `sampleRegistry`. -/
theorem urlio_frelease_removes_entry_witness :
    (∃ reg1, urlio_frelease sampleRegistry sampleUrlB = .returned 0 reg1 ∧
        (∀ e ∈ reg1, e.file.url ≠ sampleUrlB) ∧ reg1.length + 1 = sampleRegistry.length ∧
        reg1 = sampleRegistry.filter (fun e => decide (e.file.url ≠ sampleUrlB)) ∧
        reg1.Sublist sampleRegistry) ∧
    urlio_frelease sampleRegistry sampleUrlB = .returned 0
      [{ addr := 1, file := freshUrlFile sampleUrlA 10, freed := false },
       { addr := 3, file := freshUrlFile sampleUrlC 10, freed := false }] :=
  ⟨(urlio_frelease_removes_entry sampleRegistry sampleUrlB (by decide) (by decide)).1
      ⟨{ addr := 2, file := freshUrlFile sampleUrlB 10, freed := false }, by decide, rfl⟩,
   by decide⟩

theorem fopen_resurrect_url (env : NetEnv) (file f : UrlFile)
    (h : fopen_resurrect env file = some f) : f.url = file.url := by
  unfold fopen_resurrect at h
  simp only at h
  split_ifs at h
  simp only [Option.some.injEq] at h
  rw [← h]

theorem fopen_existing_urls (env : NetEnv) (url : String) :
    ∀ (reg : List UrlEntry) (r : FopenResult × List UrlEntry),
      fopen_existing env url reg = some r →
      (r.2.map fun e => e.file.url) = reg.map fun e => e.file.url := by
  intro reg
  induction reg with
  | nil => intro r h; simp [fopen_existing] at h
  | cons e rest ih =>
    intro r h
    simp only [fopen_existing] at h
    by_cases hfreed : e.freed = true
    · simp only [hfreed, if_true, Option.some.injEq] at h
      rw [← h]
    · simp only [hfreed, if_false, Bool.false_eq_true] at h
      by_cases hurl : e.file.url = url
      · simp only [hurl, if_true] at h
        cases hres : fopen_resurrect env e.file with
        | none =>
          simp only [hres, Option.some.injEq] at h
          rw [← h]
          rfl
        | some f =>
          simp only [hres, Option.some.injEq] at h
          rw [← h]
          simp only [List.map_cons, fopen_resurrect_url env e.file f hres]
      · simp only [hurl, if_false] at h
        cases hrec : fopen_existing env url rest with
        | none => simp [hrec] at h
        | some r1 =>
          simp only [hrec, Option.some.injEq] at h
          rw [← h]
          simp only [List.map_cons, ih r1 hrec]

theorem fopen_existing_none (env : NetEnv) (url : String) :
    ∀ (reg : List UrlEntry), fopen_existing env url reg = none →
      url ∉ reg.map fun e => e.file.url := by
  intro reg
  induction reg with
  | nil => intro _; simp
  | cons e rest ih =>
    intro h
    simp only [fopen_existing] at h
    by_cases hfreed : e.freed = true
    · simp [hfreed] at h
    · simp only [hfreed, if_false, Bool.false_eq_true] at h
      by_cases hurl : e.file.url = url
      · simp only [hurl, if_true] at h
        cases hres : fopen_resurrect env e.file with
        | none => simp [hres] at h
        | some f => simp [hres] at h
      · simp only [hurl, if_false] at h
        cases hrec : fopen_existing env url rest with
        | some r1 => simp [hrec] at h
        | none =>
          simp only [List.map_cons, List.mem_cons, not_or]
          exact ⟨fun h1 => hurl h1.symm, ih hrec⟩

theorem urlio_fopen_urls_nodup (env : NetEnv) (reg : List UrlEntry) (url : String)
    (h : (reg.map fun e => e.file.url).Nodup) :
    ((urlio_fopen env reg url).2.map fun e => e.file.url).Nodup := by
  unfold urlio_fopen
  by_cases hlocal : env.local_file = true
  · simp only [hlocal, if_true]
    exact h
  · simp only [hlocal, if_false, Bool.false_eq_true]
    cases hex : fopen_existing env url reg with
    | some r =>
      simp only
      rw [fopen_existing_urls env url reg r hex]
      exact h
    | none =>
      have hnot := fopen_existing_none env url reg hex
      simp only
      split_ifs
      · exact h
      · exact h
      · exact h
      · split
        · split_ifs <;> exact h
        · simp only [List.map_append, List.map_cons, List.map_nil]
          rw [List.nodup_append]
          refine ⟨h, List.nodup_singleton _, ?_⟩
          intro x hx hx2
          simp only [List.mem_singleton] at hx2
          rw [hx2] at hx
          exact hnot hx

theorem fclose_mark_urls (addr : Nat) :
    ∀ reg : List UrlEntry,
      ((fclose_mark addr reg).map fun e => e.file.url) = reg.map fun e => e.file.url := by
  intro reg
  induction reg with
  | nil => rfl
  | cons e rest ih =>
    simp only [fclose_mark]
    split_ifs
    · rfl
    · simp only [List.map_cons, ih]

theorem frelease_loop_sublist (url : String) :
    ∀ (fuel count : Nat) (ret r : Int) (reg reg1 : List UrlEntry),
      frelease_loop url fuel count ret reg = .returned r reg1 → reg1.Sublist reg := by
  intro fuel
  induction fuel with
  | zero =>
    intro count ret r reg reg1 h
    simp only [frelease_loop] at h
    split_ifs at h
    simp only [FreleaseResult.returned.injEq] at h
    rw [← h.2]
  | succ f ih =>
    intro count ret r reg reg1 h
    simp only [frelease_loop] at h
    cases hget : reg[count]? with
    | none =>
      simp only [hget, FreleaseResult.returned.injEq] at h
      rw [← h.2]
    | some e =>
      simp only [hget] at h
      split_ifs at h
      · exact (ih _ _ _ _ _ h).trans (List.eraseIdx_sublist _ _)
      · exact ih _ _ _ _ _ h

theorem registryCall_urls_nodup (reg reg1 : List UrlEntry) (c : RegistryCall)
    (h : (reg.map fun e => e.file.url).Nodup) (hc : registryCall reg c = some reg1) :
    (reg1.map fun e => e.file.url).Nodup := by
  cases c with
  | fopen env url =>
    have hn := urlio_fopen_urls_nodup env reg url h
    simp only [registryCall] at hc
    cases hres : urlio_fopen env reg url with
    | mk res reg2 =>
      rw [hres] at hn hc
      cases res <;> simp only [Option.some.injEq] at hc <;> first
        | (rw [← hc]; exact hn)
        | cases hc
  | fclose addr =>
    simp only [registryCall, urlio_fclose, Option.some.injEq] at hc
    rw [← hc, fclose_mark_urls]
    exact h
  | frelease url =>
    simp only [registryCall] at hc
    cases hres : urlio_frelease reg url with
    | returned r reg2 =>
      simp only [hres, Option.some.injEq] at hc
      subst hc
      exact (List.Sublist.map _ (frelease_loop_sublist url _ _ _ _ _ _ hres)).nodup h
    | undefined => simp [hres] at hc
    | out_of_fuel => simp [hres] at hc

/-- C19: in every registry state reached from the empty registry by a sequence
of `urlio_fopen`, `urlio_fclose` and `urlio_frelease` calls, each with a defined
result, no two entries have the same URL. -/
theorem registry_one_entry_per_url (calls : List RegistryCall) (reg : List UrlEntry)
    (h : runRegistry [] calls = some reg) :
    (reg.map fun e => e.file.url).Nodup ∧
    reg.Pairwise (fun a b => a.file.url ≠ b.file.url) := by
  have key : ∀ (calls : List RegistryCall) (reg0 reg : List UrlEntry),
      (reg0.map fun e => e.file.url).Nodup → runRegistry reg0 calls = some reg →
      (reg.map fun e => e.file.url).Nodup := by
    intro calls
    induction calls with
    | nil =>
      intro reg0 reg h0 hrun
      simp only [runRegistry, Option.some.injEq] at hrun
      rw [← hrun]
      exact h0
    | cons c cs ih =>
      intro reg0 reg h0 hrun
      simp only [runRegistry] at hrun
      cases hc : registryCall reg0 c with
      | none => simp [hc] at hrun
      | some reg1 =>
        simp only [hc] at hrun
        exact ih reg1 reg (registryCall_urls_nodup reg0 reg1 c h0 hc) hrun
  have hn := key calls [] reg List.nodup_nil h
  exact ⟨hn, (List.pairwise_map.mp hn)⟩

/-- Witness for C19: the same URL opened twice, a second URL opened, the first
source closed and the second released: one entry is left. -/
theorem registry_one_entry_per_url_witness :
    runRegistry [] [.fopen (faithfulNet sampleBytes) sampleUrlA,
      .fopen (faithfulNet sampleBytes) sampleUrlA,
      .fopen { faithfulNet sampleBytes with malloc_addr := 2 } sampleUrlB,
      .fclose 1, .frelease sampleUrlB]
      = some [{ addr := 1, file := { freshUrlFile sampleUrlA 10 with close_flag := true },
                freed := false }] ∧
    ([{ addr := 1, file := { freshUrlFile sampleUrlA 10 with close_flag := true },
        freed := false }].map fun e : UrlEntry => e.file.url).Nodup :=
  ⟨by decide,
   (registry_one_entry_per_url [.fopen (faithfulNet sampleBytes) sampleUrlA,
      .fopen (faithfulNet sampleBytes) sampleUrlA,
      .fopen { faithfulNet sampleBytes with malloc_addr := 2 } sampleUrlB,
      .fclose 1, .frelease sampleUrlB] _ (by decide)).1⟩

theorem fgets_line_le : ∀ (buffer : List Nat) (want : Nat), fgets_line buffer want ≤ want := by
  intro buffer
  induction buffer with
  | nil =>
    intro want
    cases want <;> simp [fgets_line]
  | cons c rest ih =>
    intro want
    cases want with
    | zero => simp [fgets_line]
    | succ w =>
      simp only [fgets_line]
      split_ifs
      · omega
      · have := ih w
        omega

theorem use_buffer_length_le (buffer : List Nat) (want : Nat) :
    (use_buffer buffer want).length ≤ buffer.length - want := by
  unfold use_buffer
  split_ifs
  · simp
  · simp

theorem fileCall_cursor_in_file (file f1 : UrlFile) (c : FileCall)
    (hp0 : 0 ≤ file.pos) (hp1 : file.pos ≤ (file.size : Int)) (hc : CallInRange file c)
    (hstep : fileCall file c = some f1) :
    (0 ≤ f1.pos ∧ f1.pos ≤ (f1.size : Int)) ∧ f1.size = file.size := by
  cases c with
  | fopen env =>
    simp only [fileCall, fopen_resurrect] at hstep
    split_ifs at hstep
    simp only [Option.some.injEq] at hstep
    subst hstep
    exact ⟨⟨le_refl _, by simp only; omega⟩, rfl⟩
  | rewind env =>
    simp only [fileCall, urlio_rewind] at hstep
    split_ifs at hstep
    simp only [Option.some.injEq] at hstep
    subst hstep
    exact ⟨⟨le_refl _, by simp only; omega⟩, rfl⟩
  | fseek env offset origin =>
    obtain ⟨hset, hcur, hend⟩ := hc
    simp only [fileCall, urlio_fseek] at hstep
    by_cases h0 : origin = SEEK_SET
    · simp only [h0, if_true] at hstep
      split_ifs at hstep
      simp only [Option.some.injEq] at hstep
      subst hstep
      exact ⟨⟨(hset h0).1, (hset h0).2⟩, rfl⟩
    · by_cases h1 : origin = SEEK_CUR
      · have hne : ¬ (SEEK_CUR = SEEK_SET) := by decide
        simp only [h1, hne, if_true, if_false] at hstep
        split_ifs at hstep
        simp only [Option.some.injEq] at hstep
        subst hstep
        exact ⟨⟨(hcur h1).1, (hcur h1).2⟩, rfl⟩
      · by_cases h2 : origin = SEEK_END
        · have hne1 : ¬ (SEEK_END = SEEK_SET) := by decide
          have hne2 : ¬ (SEEK_END = SEEK_CUR) := by decide
          simp only [h2, hne1, hne2, if_true, if_false] at hstep
          split_ifs at hstep
          simp only [Option.some.injEq] at hstep
          subst hstep
          exact ⟨⟨(hend h2).1, by have := (hend h2).2; simp only; omega⟩, rfl⟩
        · simp only [h0, h1, h2, if_false, Option.some.injEq] at hstep
          subst hstep
          exact ⟨⟨hp0, hp1⟩, rfl⟩
  | fgets env size =>
    obtain ⟨hsize, hreq⟩ := hc
    simp only [fileCall, Option.some.injEq] at hstep
    subst hstep
    have hwant : ((wrapU64 ((size : Int) - 1)).toNat : Int) ≤ (size : Int) - 1 := by
      have hx : (0 : Int) ≤ (size : Int) - 1 := by omega
      unfold wrapU64
      generalize (size : Int) - 1 = x at hx ⊢
      omega
    unfold urlio_fgets
    simp only
    split_ifs with hempty hshort
    · exact ⟨⟨hp0, hp1⟩, rfl⟩
    · refine ⟨⟨by simp only; omega, ?_⟩, rfl⟩
      have h1 := fgets_line_le
        (env.fill file.pos file.buffer file.still_running (wrapU64 ((size : Int) - 1)).toNat).1
        (env.fill file.pos file.buffer file.still_running
          (wrapU64 ((size : Int) - 1)).toNat).1.length
      simp only
      omega
    · refine ⟨⟨by simp only; omega, ?_⟩, rfl⟩
      have h1 := fgets_line_le
        (env.fill file.pos file.buffer file.still_running (wrapU64 ((size : Int) - 1)).toNat).1
        (wrapU64 ((size : Int) - 1)).toNat
      simp only
      omega
  | fgetc env =>
    simp only [fileCall, Option.some.injEq] at hstep
    subst hstep
    have hreq : file.pos + 1 ≤ (file.size : Int) := hc
    unfold urlio_fgetc
    simp only
    cases hbuf : (env.fill file.pos file.buffer file.still_running 1).1 with
    | nil => exact ⟨⟨hp0, hp1⟩, rfl⟩
    | cons c rest =>
      refine ⟨⟨?_, ?_⟩, rfl⟩
      · simp only
        omega
      · simp only
        omega
  | fread env size nmemb =>
    have hreq : file.pos + ((size * nmemb : Nat) : Int) ≤ (file.size : Int) := hc
    have hwrap : 0 ≤ wrapU64 ((size : Int) * nmemb) ∧
        wrapU64 ((size : Int) * nmemb) ≤ ((size * nmemb : Nat) : Int) := by
      have hx : (0 : Int) ≤ (size : Int) * nmemb := by positivity
      unfold wrapU64
      push_cast
      generalize (size : Int) * (nmemb : Int) = x at hx ⊢
      constructor <;> omega
    simp only [fileCall] at hstep
    unfold urlio_fread at hstep
    cases hres : fread_loop env file.size (fread_cache_count file.pos size nmemb).toNat
        { cache := file.cache, current_pointer := file.pos,
          current_size := wrapU64 ((size : Int) * nmemb), dst := [], fetched := [],
          copies := [] } with
    | hang st => simp [hres] at hstep
    | undefined st => simp [hres] at hstep
    | worker_failed st =>
      simp only [hres, Option.some.injEq] at hstep
      subst hstep
      exact ⟨⟨hp0, hp1⟩, rfl⟩
    | done st =>
      simp only [hres] at hstep
      split_ifs at hstep with hlost hsz
      simp only [Option.some.injEq] at hstep
      subst hstep
      exact ⟨⟨by simp only; omega, by simp only; omega⟩, rfl⟩

/-- C18 (amended): on a remote byte source whose cursor is in `[0, size]`,
every sequence of `urlio_fopen`, `urlio_fseek`, `urlio_fread`, `urlio_fgets`,
`urlio_fgetc` and `urlio_rewind` calls that asks for nothing outside the file
(every seek target in `[0, size]`, every `urlio_fread` request ending at or
before `size`, every `urlio_fgets(ptr, n, file)` with `n >= 1` and
`pos + n - 1 <= size`, every `urlio_fgetc` made with `pos < size`) keeps
`0 <= pos <= size`, whatever the network delivers; `size` itself never
changes. -/
theorem urlio_cursor_in_bounds (calls : List FileCall) (file f1 : UrlFile)
    (hstart : 0 ≤ urlio_ftell file ∧ urlio_ftell file ≤ (file.size : Int))
    (hrange : RunInRange file calls) (hrun : runFile file calls = some f1) :
    0 ≤ urlio_ftell f1 ∧ urlio_ftell f1 ≤ (f1.size : Int) ∧ f1.size = file.size := by
  have key : ∀ (calls : List FileCall) (file : UrlFile),
      (0 ≤ file.pos ∧ file.pos ≤ (file.size : Int)) →
      RunInRange file calls → runFile file calls = some f1 →
      (0 ≤ f1.pos ∧ f1.pos ≤ (f1.size : Int)) ∧ f1.size = file.size := by
    intro calls
    induction calls with
    | nil =>
      intro file hI _ hrun
      simp only [runFile, Option.some.injEq] at hrun
      subst hrun
      exact ⟨hI, rfl⟩
    | cons c cs ih =>
      intro file hI hrange hrun
      simp only [runFile] at hrun
      obtain ⟨hc, hrest⟩ := hrange
      cases hstep : fileCall file c with
      | none => simp [hstep] at hrun
      | some f2 =>
        simp only [hstep] at hrun hrest
        obtain ⟨hI2, hsz2⟩ := fileCall_cursor_in_file file f2 c hI.1 hI.2 hc hstep
        obtain ⟨hI1, hsz1⟩ := ih f2 hI2 hrest hrun
        exact ⟨hI1, hsz1.trans hsz2⟩
  obtain ⟨hI, hsz⟩ := key calls file hstart hrange hrun
  exact ⟨hI.1, hI.2, hsz⟩

/-- Witness for C18 (amended): on `sampleBytes`, a seek to offset 2, one
`urlio_fgetc` and an `urlio_fread` of 5 bytes leave the cursor at 8. -/
theorem urlio_cursor_in_bounds_witness :
    runFile (sampleUrlFile 0) [.fseek (faithfulNet sampleBytes) 2 SEEK_SET,
      .fgetc (faithfulNet sampleBytes), .fread (faithfulNet sampleBytes) 1 5]
      = some { sampleUrlFile 8 with cache := [(0, sampleBytes)] } ∧
    (0 ≤ urlio_ftell { sampleUrlFile 8 with cache := [(0, sampleBytes)] } ∧
      urlio_ftell { sampleUrlFile 8 with cache := [(0, sampleBytes)] } ≤ 10) :=
  ⟨by decide,
   (urlio_cursor_in_bounds [.fseek (faithfulNet sampleBytes) 2 SEEK_SET,
      .fgetc (faithfulNet sampleBytes), .fread (faithfulNet sampleBytes) 1 5]
      (sampleUrlFile 0) { sampleUrlFile 8 with cache := [(0, sampleBytes)] }
      ⟨by decide, by decide⟩
      ⟨⟨fun _ => ⟨by decide, by decide⟩,
          fun h => absurd h (by decide), fun h => absurd h (by decide)⟩,
        ⟨show (2 : Int) + 1 ≤ ((10 : Nat) : Int) from by decide,
          ⟨show (3 : Int) + ((1 * 5 : Nat) : Int) ≤ ((10 : Nat) : Int) from by decide,
            trivial⟩⟩⟩
      (by decide)).1,
   (urlio_cursor_in_bounds [.fseek (faithfulNet sampleBytes) 2 SEEK_SET,
      .fgetc (faithfulNet sampleBytes), .fread (faithfulNet sampleBytes) 1 5]
      (sampleUrlFile 0) { sampleUrlFile 8 with cache := [(0, sampleBytes)] }
      ⟨by decide, by decide⟩
      ⟨⟨fun _ => ⟨by decide, by decide⟩,
          fun h => absurd h (by decide), fun h => absurd h (by decide)⟩,
        ⟨show (2 : Int) + 1 ≤ ((10 : Nat) : Int) from by decide,
          ⟨show (3 : Int) + ((1 * 5 : Nat) : Int) ≤ ((10 : Nat) : Int) from by decide,
            trivial⟩⟩⟩
      (by decide)).2.1⟩

/-- At the end of the file `urlio_fgetc` can pass the size: on a source opened
on the 10 bytes of `sampleBytes`, with the cursor at 10, the buffer empty and
the transfer ended, the retry loop restarts the transfer at its resume offset
0; `urlio_fgetc` then returns the first byte of the file instead of `EOF` and
leaves the cursor at 11. -/
theorem urlio_fgetc_at_end_passes_size :
    (urlio_fgetc (redeliveringNet sampleBytes)
      { sampleUrlFile 10 with still_running := false }).1 = 10 ∧
    urlio_ftell (urlio_fgetc (redeliveringNet sampleBytes)
      { sampleUrlFile 10 with still_running := false }).2 = 11 ∧
    (urlio_fgetc (redeliveringNet sampleBytes)
      { sampleUrlFile 10 with still_running := false }).2.size = 10 := by
  decide

/-- C18 as stated fails: on the remote source that `urlio_fopen` creates for a
file of 10 bytes, `urlio_fseek(file, 5, SEEK_END)` returns 0 and leaves the
cursor at 15, beyond the size, and `urlio_fseek(file, -1, SEEK_SET)` returns 0
and leaves the cursor at -1. -/
theorem urlio_fseek_cursor_out_of_bounds :
    urlio_fopen (faithfulNet sampleBytes) [] sampleUrlA
      = (.opened 1, [{ addr := 1, file := freshUrlFile sampleUrlA 10, freed := false }]) ∧
    urlio_fseek (faithfulNet sampleBytes) (freshUrlFile sampleUrlA 10) 5 SEEK_END
      = (0, some { freshUrlFile sampleUrlA 10 with pos := 15 }) ∧
    runFile (freshUrlFile sampleUrlA 10) [.fseek (faithfulNet sampleBytes) 5 SEEK_END]
      = some { freshUrlFile sampleUrlA 10 with pos := 15 } ∧
    ¬ (urlio_ftell { freshUrlFile sampleUrlA 10 with pos := 15 }
        ≤ (({ freshUrlFile sampleUrlA 10 with pos := 15 } : UrlFile).size : Int)) ∧
    runFile (freshUrlFile sampleUrlA 10) [.fseek (faithfulNet sampleBytes) (-1) SEEK_SET]
      = some { freshUrlFile sampleUrlA 10 with pos := -1 } ∧
    ¬ (0 ≤ urlio_ftell { freshUrlFile sampleUrlA 10 with pos := -1 }) := by
  decide

theorem urlio_frelease_filter (reg : List UrlEntry) (url : String)
    (hnodup : (reg.map fun e => e.file.url).Nodup) (hlive : ∀ e ∈ reg, e.freed = false) :
    ∃ r : Int, urlio_frelease reg url
      = .returned r (reg.filter (fun e => decide (e.file.url ≠ url))) := by
  by_cases hex : ∃ e ∈ reg, e.file.url = url
  · obtain ⟨e, he, hurl⟩ := hex
    obtain ⟨mid, post, hsplit⟩ := List.append_of_mem he
    subst hsplit
    simp only [List.map_append, List.map_cons] at hnodup
    have hmid : ∀ x ∈ mid, x.freed = false ∧ x.file.url ≠ url := by
      intro x hx
      refine ⟨hlive x (List.mem_append_left _ hx), ?_⟩
      intro hxu
      have hdis := (List.nodup_append.mp hnodup).2.2
      exact hdis (List.mem_map_of_mem (fun e => e.file.url) hx)
        (by rw [hxu, ← hurl]; exact List.mem_cons_self _ _)
    have hpost : ∀ x ∈ post, x.freed = false ∧ x.file.url ≠ url := by
      intro x hx
      refine ⟨hlive x (List.mem_append_right _ (List.mem_cons_of_mem _ hx)), ?_⟩
      intro hxu
      have hnd := (List.nodup_append.mp hnodup).2.1
      rw [List.nodup_cons] at hnd
      exact hnd.1 (by rw [hurl, ← hxu]; exact List.mem_map_of_mem (fun e => e.file.url) hx)
    have hloop := frelease_loop_match url mid [] (mid ++ e :: post).length (-1) e post
      (hlive e he) hurl hmid hpost (by simp; omega)
    simp only [List.nil_append, List.length_nil] at hloop
    refine ⟨0, ?_⟩
    rw [List.filter_append, List.filter_cons]
    have hfm : mid.filter (fun e => decide (e.file.url ≠ url)) = mid :=
      List.filter_eq_self.mpr (fun x hx => by simpa using (hmid x hx).2)
    have hfp : post.filter (fun e => decide (e.file.url ≠ url)) = post :=
      List.filter_eq_self.mpr (fun x hx => by simpa using (hpost x hx).2)
    rw [hfm, hfp]
    simp only [hurl, ne_eq, not_true_eq_false, decide_False, Bool.false_eq_true, if_false]
    exact hloop
  · have hno : ∀ e ∈ reg, e.file.url ≠ url := fun e he h => hex ⟨e, he, h⟩
    have := frelease_loop_no_match url reg [] reg.length (-1)
      (fun e he => ⟨hlive e he, hno e he⟩) (Nat.le_refl _)
    refine ⟨-1, ?_⟩
    rw [List.filter_eq_self.mpr (fun x hx => by simpa using hno x hx)]
    simpa using this

theorem fopen_existing_absent (env : NetEnv) (url : String) :
    ∀ reg : List UrlEntry, (∀ e ∈ reg, e.freed = false ∧ e.file.url ≠ url) →
      fopen_existing env url reg = none := by
  intro reg
  induction reg with
  | nil => intro _; rfl
  | cons e rest ih =>
    intro h
    have he := h e (List.mem_cons_self _ _)
    simp only [fopen_existing, he.1, he.2, if_false, Bool.false_eq_true,
      ih (fun x hx => h x (List.mem_cons_of_mem _ hx))]

/-- C21: on a registry with one entry per URL, none of them freed, after
`urlio_frelease(U)` a `urlio_fopen(U)` that returns a remote byte source finds
no entry for `U` and appends a new one, which it returns: its cursor is 0, its
block cache is empty, its `close_flag` is clear, and its size, buffer and
transfer state are those the network gives to the new transfer, whatever the
entries of the registry held before the release. -/
theorem frelease_then_fopen_is_fresh (env : NetEnv) (reg reg1 reg2 : List UrlEntry)
    (url : String) (r : Int) (a : Nat)
    (hnodup : (reg.map fun e => e.file.url).Nodup) (hlive : ∀ e ∈ reg, e.freed = false)
    (hrel : urlio_frelease reg url = .returned r reg1)
    (hopen : urlio_fopen env reg1 url = (.opened a, reg2)) :
    (∀ e ∈ reg1, e.file.url ≠ url) ∧
    a = env.malloc_addr ∧
    ∃ f : UrlFile, reg2 = reg1 ++ [{ addr := a, file := f, freed := false }] ∧
      f.url = url ∧ urlio_ftell f = 0 ∧ f.cache = [] ∧ f.close_flag = false ∧
      f = { url := url, pos := 0, size := (wrapU64 env.content_length).toNat,
            buffer := (env.restart 0).1, still_running := (env.restart 0).2, cache := [],
            close_flag := false } := by
  obtain ⟨r', hfilter⟩ := urlio_frelease_filter reg url hnodup hlive
  rw [hfilter] at hrel
  simp only [FreleaseResult.returned.injEq] at hrel
  obtain ⟨_, hreg1⟩ := hrel
  have hno : ∀ e ∈ reg1, e.freed = false ∧ e.file.url ≠ url := by
    intro e he
    rw [← hreg1] at he
    have hm := List.mem_filter.mp he
    exact ⟨hlive e hm.1, by simpa using hm.2⟩
  have habsent := fopen_existing_absent env url reg1 hno
  refine ⟨fun e he => (hno e he).2, ?_⟩
  unfold urlio_fopen at hopen
  simp only [habsent] at hopen
  split_ifs at hopen with h1 h2 h3 h4
  all_goals try (simp only [Prod.mk.injEq] at hopen; exact absurd hopen.1 (by simp))
  split at hopen
  · split_ifs at hopen <;> simp at hopen
  · simp only [Prod.mk.injEq, FopenResult.opened.injEq] at hopen
    obtain ⟨ha, hreg2⟩ := hopen
    subst ha
    exact ⟨rfl, _, hreg2.symm, rfl, rfl, rfl, rfl, rfl⟩

/-- Witness for C21: the second URL of `sampleRegistry`, read up to offset 7 with
one block cached, is released and opened again. -/
theorem frelease_then_fopen_is_fresh_witness :
    urlio_frelease
      [{ addr := 1, file := freshUrlFile sampleUrlA 10, freed := false },
       { addr := 2, file := { freshUrlFile sampleUrlB 10 with
                                pos := 7, cache := [(0, sampleBytes)], close_flag := true },
         freed := false }] sampleUrlB
      = .returned 0 [{ addr := 1, file := freshUrlFile sampleUrlA 10, freed := false }] ∧
    urlio_fopen { faithfulNet sampleBytes with malloc_addr := 5 }
      [{ addr := 1, file := freshUrlFile sampleUrlA 10, freed := false }] sampleUrlB
      = (.opened 5, [{ addr := 1, file := freshUrlFile sampleUrlA 10, freed := false },
                     { addr := 5, file := freshUrlFile sampleUrlB 10, freed := false }]) ∧
    (5 = ({ faithfulNet sampleBytes with malloc_addr := 5 } : NetEnv).malloc_addr) :=
  ⟨by decide, by decide,
   (frelease_then_fopen_is_fresh { faithfulNet sampleBytes with malloc_addr := 5 }
      [{ addr := 1, file := freshUrlFile sampleUrlA 10, freed := false },
       { addr := 2, file := { freshUrlFile sampleUrlB 10 with
                                pos := 7, cache := [(0, sampleBytes)], close_flag := true },
         freed := false }]
      [{ addr := 1, file := freshUrlFile sampleUrlA 10, freed := false }]
      [{ addr := 1, file := freshUrlFile sampleUrlA 10, freed := false },
       { addr := 5, file := freshUrlFile sampleUrlB 10, freed := false }]
      sampleUrlB 0 5 (by decide) (by decide) (by decide) (by decide)).2.1⟩

theorem fclose_mark_at (addr : Nat) :
    ∀ (pre : List UrlEntry) (e : UrlEntry) (post : List UrlEntry),
      (∀ x ∈ pre, x.addr ≠ addr) → e.addr = addr →
      fclose_mark addr (pre ++ e :: post)
        = pre ++ { e with file := { e.file with close_flag := true } } :: post := by
  intro pre
  induction pre with
  | nil =>
    intro e post _ he
    simp only [List.nil_append, fclose_mark, he, if_true]
  | cons p pre ih =>
    intro e post hpre he
    have hp := hpre p (List.mem_cons_self _ _)
    rw [List.cons_append, List.cons_append]
    simp only [fclose_mark, hp, if_false]
    rw [ih e post (fun x hx => hpre x (List.mem_cons_of_mem _ hx)) he]

theorem fopen_existing_at (env : NetEnv) (url : String) :
    ∀ (pre : List UrlEntry) (e : UrlEntry) (post : List UrlEntry),
      (∀ x ∈ pre, x.freed = false ∧ x.file.url ≠ url) → e.freed = false → e.file.url = url →
      fopen_existing env url (pre ++ e :: post) =
        match fopen_resurrect env e.file with
        | some f => some (.opened e.addr, pre ++ { e with file := f } :: post)
        | none => some (.null, pre ++ { e with freed := true } :: post) := by
  intro pre
  induction pre with
  | nil =>
    intro e post _ hlive hurl
    simp only [List.nil_append, fopen_existing, hlive, hurl, if_true, if_false,
      Bool.false_eq_true]
  | cons p pre ih =>
    intro e post hpre hlive hurl
    have hp := hpre p (List.mem_cons_self _ _)
    simp only [List.cons_append]
    simp only [fopen_existing, hp.1, hp.2, if_false, Bool.false_eq_true]
    rw [ih e post (fun x hx => hpre x (List.mem_cons_of_mem _ hx)) hlive hurl]
    cases fopen_resurrect env e.file <;> rfl

theorem fopen_resurrect_some (env : NetEnv) (file f : UrlFile)
    (h : fopen_resurrect env file = some f) :
    f = { file with pos := 0, buffer := (env.restart 0).1, still_running := (env.restart 0).2,
                    close_flag := false } := by
  unfold fopen_resurrect at h
  simp only at h
  split_ifs at h
  simp only [Option.some.injEq] at h
  exact h.symm

theorem frelease_loop_freed (url : String) :
    ∀ (mid pre : List UrlEntry) (fuel : Nat) (ret : Int) (e : UrlEntry) (post : List UrlEntry),
      e.freed = true →
      (∀ x ∈ mid, x.freed = false ∧ x.file.url ≠ url) →
      mid.length + 1 ≤ fuel →
      frelease_loop url fuel pre.length ret (pre ++ (mid ++ e :: post)) = .undefined := by
  intro mid
  induction mid with
  | nil =>
    intro pre fuel ret e post hfree _ hfuel
    cases fuel with
    | zero => omega
    | succ f =>
      have hget : (pre ++ e :: post)[pre.length]? = some e := by
        rw [List.getElem?_append_right (Nat.le_refl _)]
        simp
      simp only [List.nil_append, frelease_loop, hget, hfree, if_true]
  | cons m mid ih =>
    intro pre fuel ret e post hfree hmid hfuel
    cases fuel with
    | zero => omega
    | succ f =>
      have hm := hmid m (List.mem_cons_self _ _)
      have hget : (pre ++ (m :: mid ++ e :: post))[pre.length]? = some m := by
        rw [List.getElem?_append_right (Nat.le_refl _)]
        simp
      simp only [frelease_loop, hget, hm.1, hm.2, if_false, Bool.false_eq_true]
      have := ih (pre ++ [m]) f ret e post hfree
        (fun x hx => hmid x (List.mem_cons_of_mem _ hx))
        (by simp only [List.length_cons] at hfuel; omega)
      simp only [List.length_append, List.length_singleton, List.append_assoc,
        List.singleton_append] at this
      exact this

/-- C20 (code bug): `urlio_fopen` leaves a dangling element in `url_cache`, on
which `urlio_frelease` has no defined result.  When the registry holds a live
entry `e` (the first with its URL) and the transfer of `e` cannot be restarted
(no byte and not running after the restart), `urlio_fopen(e.url)` frees the
`URLIO_FILE`, returns `NULL` and leaves the element in `url_cache`; a later
`urlio_frelease(U)`, for the URL of `e` as for any other URL `U` that no
earlier entry has, reads the URL of the freed `URLIO_FILE`: it neither
returns 0 with the entry removed nor returns -1 with the registry unchanged. -/
theorem urlio_frelease_reads_freed_entry (env : NetEnv) (pre post : List UrlEntry)
    (e : UrlEntry) (url : String) (hlocal : env.local_file = false)
    (hlost : (env.restart 0).1.length = 0 ∧ (env.restart 0).2 = false)
    (he : e.freed = false)
    (hpre : ∀ x ∈ pre, x.freed = false ∧ x.file.url ≠ e.file.url)
    (hurl : ∀ x ∈ pre, x.file.url ≠ url) :
    urlio_fopen env (pre ++ e :: post) e.file.url
      = (.null, pre ++ { e with freed := true } :: post) ∧
    urlio_frelease (pre ++ { e with freed := true } :: post) url = .undefined ∧
    (∀ (ret : Int) (reg1 : List UrlEntry),
      urlio_frelease (pre ++ { e with freed := true } :: post) url ≠ .returned ret reg1) := by
  have hres : fopen_resurrect env e.file = none := by
    unfold fopen_resurrect
    simp only [hlost, and_self, if_true]
  have hopen : urlio_fopen env (pre ++ e :: post) e.file.url
      = (.null, pre ++ { e with freed := true } :: post) := by
    unfold urlio_fopen
    rw [if_neg (by rw [hlocal]; decide), fopen_existing_at env e.file.url pre e post hpre he rfl,
      hres]
  have hrel : urlio_frelease (pre ++ { e with freed := true } :: post) url = .undefined := by
    unfold urlio_frelease
    have := frelease_loop_freed url pre [] (pre ++ { e with freed := true } :: post).length
      (-1) { e with freed := true } post rfl (fun x hx => ⟨(hpre x hx).1, hurl x hx⟩)
      (by simp only [List.length_append, List.length_cons]; omega)
    simpa using this
  refine ⟨hopen, hrel, ?_⟩
  intro ret reg1 h
  rw [hrel] at h
  cases h

/-- Witness for C20: `urlio_fopen` of the first sample URL on the empty
registry creates its entry; a second `urlio_fopen` of the same URL while the
server refuses the connection returns `NULL` and leaves the freed entry in the
registry, which two calls with defined results have thus reached; on it
`urlio_frelease` is undefined for the URL of the entry and for a URL that the
registry never held. -/
theorem urlio_frelease_reads_freed_entry_witness :
    runRegistry [] [.fopen (faithfulNet sampleBytes) sampleUrlA,
        .fopen (refusingNet sampleBytes) sampleUrlA]
      = some [{ addr := 1, file := freshUrlFile sampleUrlA 10, freed := true }] ∧
    urlio_frelease [{ addr := 1, file := freshUrlFile sampleUrlA 10, freed := true }]
      sampleUrlA = .undefined ∧
    urlio_frelease [{ addr := 1, file := freshUrlFile sampleUrlA 10, freed := true }]
      sampleUrlB = .undefined :=
  ⟨by decide,
   (urlio_frelease_reads_freed_entry (refusingNet sampleBytes) [] []
      { addr := 1, file := freshUrlFile sampleUrlA 10, freed := false } sampleUrlA
      rfl ⟨rfl, rfl⟩ rfl (fun _ h => absurd h (List.not_mem_nil _))
      (fun _ h => absurd h (List.not_mem_nil _))).2.1,
   (urlio_frelease_reads_freed_entry (refusingNet sampleBytes) [] []
      { addr := 1, file := freshUrlFile sampleUrlA 10, freed := false } sampleUrlB
      rfl ⟨rfl, rfl⟩ rfl (fun _ h => absurd h (List.not_mem_nil _))
      (fun _ h => absurd h (List.not_mem_nil _))).2.1⟩

/-- C22: on a registry of live remote byte sources with distinct addresses and
one entry per URL, `urlio_fclose` on the registered source `e` returns 0 and
only sets its `close_flag`: every other entry, and the cursor, buffer and block
cache of `e`, are as before.  A following `urlio_fopen` of the same URL that
returns a remote byte source returns the address of that entry; the entry then
has cursor 0, `close_flag` clear, as transfer buffer what the restarted transfer
has delivered (nothing of the old buffer), and the block cache it had before the
close, so every block lookup gives what it gave before; the other entries
are unchanged. -/
theorem fclose_then_fopen_resurrects (env : NetEnv) (pre post : List UrlEntry) (e : UrlEntry)
    (a : Nat) (reg2 : List UrlEntry)
    (haddr : ((pre ++ e :: post).map fun x => x.addr).Nodup)
    (hurl : ((pre ++ e :: post).map fun x => x.file.url).Nodup)
    (hlive : ∀ x ∈ pre ++ e :: post, x.freed = false)
    (hopen : urlio_fopen env (urlio_fclose (pre ++ e :: post) e.addr).2 e.file.url
      = (.opened a, reg2)) :
    urlio_fclose (pre ++ e :: post) e.addr
      = (0, pre ++ { e with file := { e.file with close_flag := true } } :: post) ∧
    a = e.addr ∧
    ∃ f : UrlFile, reg2 = pre ++ { e with file := f } :: post ∧
      urlio_ftell f = 0 ∧ f.close_flag = false ∧ f.buffer = (env.restart 0).1 ∧
      f.cache = e.file.cache ∧ f.url = e.file.url ∧ f.size = e.file.size ∧
      (∀ b : Int, cache_lookup b f.cache = cache_lookup b e.file.cache) := by
  have hpre_addr : ∀ x ∈ pre, x.addr ≠ e.addr := by
    intro x hx hxa
    simp only [List.map_append, List.map_cons] at haddr
    exact (List.nodup_append.mp haddr).2.2 (List.mem_map_of_mem (fun x => x.addr) hx)
      (by rw [hxa]; exact List.mem_cons_self _ _)
  have hpre_url : ∀ x ∈ pre, x.freed = false ∧ x.file.url ≠ e.file.url := by
    intro x hx
    refine ⟨hlive x (List.mem_append_left _ hx), ?_⟩
    intro hxu
    simp only [List.map_append, List.map_cons] at hurl
    exact (List.nodup_append.mp hurl).2.2 (List.mem_map_of_mem (fun x => x.file.url) hx)
      (by rw [hxu]; exact List.mem_cons_self _ _)
  have hclose : urlio_fclose (pre ++ e :: post) e.addr
      = (0, pre ++ { e with file := { e.file with close_flag := true } } :: post) := by
    unfold urlio_fclose
    rw [fclose_mark_at e.addr pre e post hpre_addr rfl]
  refine ⟨hclose, ?_⟩
  rw [hclose] at hopen
  have hex := fopen_existing_at env e.file.url pre
    { e with file := { e.file with close_flag := true } } post hpre_url
    (hlive e (List.mem_append_right _ (List.mem_cons_self _ _))) rfl
  unfold urlio_fopen at hopen
  by_cases hlocal : env.local_file = true
  · simp [hlocal] at hopen
  · simp only [hlocal, if_false, Bool.false_eq_true, hex] at hopen
    cases hres : fopen_resurrect env { e.file with close_flag := true } with
    | none =>
      simp only [hres] at hopen
      simp at hopen
    | some f =>
      simp only [hres, Prod.mk.injEq, FopenResult.opened.injEq] at hopen
      obtain ⟨ha, hreg2⟩ := hopen
      have hf := fopen_resurrect_some env _ f hres
      subst hf
      exact ⟨ha.symm, _, hreg2.symm, rfl, rfl, rfl, rfl, rfl, rfl, fun _ => rfl⟩

/-- Witness for C22: the second source of a registry, read up to offset 7 with
one block cached, is closed and opened again. -/
theorem fclose_then_fopen_resurrects_witness :
    urlio_fclose ([{ addr := 1, file := freshUrlFile sampleUrlA 10, freed := false }] ++
      { addr := 2, file := { freshUrlFile sampleUrlB 10 with
                               pos := 7, cache := [(0, sampleBytes)] }, freed := false } :: [])
      2
      = (0, [{ addr := 1, file := freshUrlFile sampleUrlA 10, freed := false }] ++
          { addr := 2, file := { freshUrlFile sampleUrlB 10 with
              pos := 7, cache := [(0, sampleBytes)], close_flag := true },
            freed := false } :: []) ∧
    urlio_fopen (faithfulNet sampleBytes)
      [{ addr := 1, file := freshUrlFile sampleUrlA 10, freed := false },
       { addr := 2, file := { freshUrlFile sampleUrlB 10 with
           pos := 7, cache := [(0, sampleBytes)], close_flag := true }, freed := false }]
      sampleUrlB
      = (.opened 2, [{ addr := 1, file := freshUrlFile sampleUrlA 10, freed := false },
          { addr := 2, file := { freshUrlFile sampleUrlB 10 with cache := [(0, sampleBytes)] },
            freed := false }]) :=
  ⟨(fclose_then_fopen_resurrects (faithfulNet sampleBytes)
      [{ addr := 1, file := freshUrlFile sampleUrlA 10, freed := false }] []
      { addr := 2, file := { freshUrlFile sampleUrlB 10 with
                               pos := 7, cache := [(0, sampleBytes)] }, freed := false }
      2 [{ addr := 1, file := freshUrlFile sampleUrlA 10, freed := false },
          { addr := 2, file := { freshUrlFile sampleUrlB 10 with cache := [(0, sampleBytes)] },
            freed := false }]
      (by decide) (by decide) (by decide) (by decide)).1,
   by decide⟩

theorem hash_data_disabled (h : Hash) (hd : h.enabled = false) (data : Option (List Nat))
    (datalen : Int) : _openremoteslide_hash_data (some h) data datalen = some h := by
  cases data with
  | none => rfl
  | some d => simp [_openremoteslide_hash_data, hd]

theorem hash_file_loop_returns {σ : Type} (ops : UrlioOps σ) :
    ∀ (fuel : Nat) (hash : Option Hash) (f : σ) (buf : List Nat) (bytes_left : Int),
      bytes_left ≤ (fuel : Int) →
      ∃ r, hash_file_loop ops fuel hash f buf bytes_left = some r := by
  intro fuel
  induction fuel with
  | zero =>
    intro hash f buf bytes_left hle
    simp only [Nat.cast_zero] at hle
    simp only [hash_file_loop]
    rw [if_neg (by omega)]
    exact ⟨_, rfl⟩
  | succ k ih =>
    intro hash f buf bytes_left hle
    simp only [hash_file_loop]
    split_ifs with hpos hne
    · exact ⟨_, rfl⟩
    · apply ih
      push_cast at hle
      have hmin : (1 : Int) ≤ min 4096 bytes_left := by omega
      rw [not_not] at hne
      rw [hne]
      omega
    · exact ⟨_, rfl⟩

theorem hash_file_part_returns {σ : Type} (ops : UrlioOps σ) (hash : Option Hash)
    (f : Option σ) (offset size : Int) :
    ∃ r, _openremoteslide_hash_file_part ops hash f offset size = some r := by
  unfold _openremoteslide_hash_file_part
  cases f with
  | none => exact ⟨_, rfl⟩
  | some f =>
    simp only
    split
    · exact ⟨_, rfl⟩
    · rename_i size1 f1 _
      split_ifs
      · exact ⟨_, rfl⟩
      · obtain ⟨r, hr⟩ := hash_file_loop_returns ops size1.toNat hash
          (ops.fseek f1 offset SEEK_SET).2 (List.replicate 4096 0) size1 (by omega)
        rw [hr]
        exact ⟨_, rfl⟩

theorem hash_file_loop_disabled {σ : Type} (ops : UrlioOps σ) (h : Hash)
    (hd : h.enabled = false) :
    ∀ (fuel : Nat) (f : σ) (buf : List Nat) (bytes_left : Int) (r : Bool × Option Hash × σ),
      hash_file_loop ops fuel (some h) f buf bytes_left = some r → r.2.1 = some h := by
  intro fuel
  induction fuel with
  | zero =>
    intro f buf bytes_left r hr
    simp only [hash_file_loop] at hr
    split_ifs at hr
    simp only [Option.some.injEq] at hr
    rw [← hr]
  | succ k ih =>
    intro f buf bytes_left r hr
    simp only [hash_file_loop] at hr
    split_ifs at hr with hpos hne
    · simp only [Option.some.injEq] at hr
      rw [← hr]
    · rw [hash_data_disabled h hd] at hr
      exact ih _ _ _ _ hr
    · simp only [Option.some.injEq] at hr
      rw [← hr]

theorem hash_file_part_disabled {σ : Type} (ops : UrlioOps σ) (h : Hash)
    (hd : h.enabled = false) (f : Option σ) (offset size : Int) :
    ∃ ok, _openremoteslide_hash_file_part ops (some h) f offset size = some (ok, some h) := by
  obtain ⟨r, hr⟩ := hash_file_part_returns ops (some h) f offset size
  have hsame : r.2 = some h := by
    unfold _openremoteslide_hash_file_part at hr
    cases f with
    | none =>
      simp only [Option.some.injEq] at hr
      rw [← hr]
    | some f =>
      simp only at hr
      split at hr
      · simp only [Option.some.injEq] at hr
        rw [← hr]
      · rename_i size1 f1 _
        split_ifs at hr
        · simp only [Option.some.injEq] at hr
          rw [← hr]
        · cases hloop : hash_file_loop ops size1.toNat (some h)
            (ops.fseek f1 offset SEEK_SET).2 (List.replicate 4096 0) size1 with
          | none =>
            rw [hloop] at hr
            cases hr
          | some r1 =>
            simp only [hloop, Option.some.injEq] at hr
            rw [← hr]
            exact hash_file_loop_disabled ops h hd _ _ _ _ r1 hloop
  refine ⟨r.1, ?_⟩
  rw [hr, ← hsame]

/-- C23: disabling a hash is terminal: after `_openremoteslide_hash_disable`
every sequence of `_openremoteslide_hash_data`, `_openremoteslide_hash_string`
and `_openremoteslide_hash_file_part` calls returns and leaves the hash
disabled with the bytes fed to its checksum exactly as they were, so
`_openremoteslide_hash_get_string` returns NULL after it. -/
theorem hash_disable_is_terminal {σ : Type} (h : Hash) (calls : List (HashCall σ))
    (digest : List Nat → String) :
    ∃ h1, _openremoteslide_hash_disable (some h) = some h1 ∧ h1.enabled = false ∧
      h1.checksum = h.checksum ∧
      runHash (_openremoteslide_hash_disable (some h)) calls = some (some h1) ∧
      _openremoteslide_hash_get_string digest h1 = none := by
  refine ⟨{ h with enabled := false }, rfl, rfl, rfl, ?_, rfl⟩
  have key : ∀ (calls : List (HashCall σ)) (h1 : Hash), h1.enabled = false →
      runHash (some h1) calls = some (some h1) := by
    intro calls
    induction calls with
    | nil => intro h1 _; rfl
    | cons c cs ih =>
      intro h1 hd
      cases c with
      | data data datalen =>
        simp only [runHash, hashCall, hash_data_disabled h1 hd]
        exact ih h1 hd
      | string str =>
        simp only [runHash, hashCall, _openremoteslide_hash_string, hash_data_disabled h1 hd]
        exact ih h1 hd
      | file_part ops f offset size =>
        obtain ⟨ok, hok⟩ := hash_file_part_disabled ops h1 hd f offset size
        simp only [runHash, hashCall, hok]
        exact ih h1 hd
  exact key calls _ rfl

/-- Witness for C23: a disabled hash after an update with data, one with a
string and one with a whole file. -/
theorem hash_disable_is_terminal_witness :
    ∃ h1, _openremoteslide_hash_disable (some { checksum := [1, 2], enabled := true })
        = some h1 ∧ h1.enabled = false ∧
      h1.checksum = [1, 2] ∧
      runHash (_openremoteslide_hash_disable (some { checksum := [1, 2], enabled := true }))
        [.data (some [5, 6]) 2, .string (some sampleCString),
         .file_part stdioOps (some sampleStdioFile) 0 (-1)] = some (some h1) ∧
      _openremoteslide_hash_get_string (fun _ => sampleUrlA) h1 = none :=
  hash_disable_is_terminal { checksum := [1, 2], enabled := true }
    [.data (some [5, 6]) 2, .string (some sampleCString),
     .file_part stdioOps (some sampleStdioFile) 0 (-1)] (fun _ => sampleUrlA)

theorem takeWhile_nonzero_append (s rest : List Nat) (hs : ∀ c ∈ s, c ≠ 0) :
    (s ++ 0 :: rest).takeWhile (fun c => decide (c ≠ 0)) = s := by
  induction s with
  | nil => simp [List.takeWhile]
  | cons c s ih =>
    have hc := hs c (List.mem_cons_self _ _)
    simp only [List.cons_append, List.takeWhile_cons, hc, ne_eq, not_false_eq_true,
      decide_True, if_true]
    rw [ih (fun x hx => hs x (List.mem_cons_of_mem _ hx))]

theorem strlen_c_string (s rest : List Nat) (hs : ∀ c ∈ s, c ≠ 0) :
    strlen (s ++ 0 :: rest) = s.length := by
  unfold strlen
  rw [takeWhile_nonzero_append s rest hs]

theorem take_c_string (s rest : List Nat) : (s ++ 0 :: rest).take (s.length + 1) = s ++ [0] := by
  induction s with
  | nil => simp
  | cons c s ih =>
    simp only [List.cons_append, List.length_cons, List.take_succ_cons, ih]

/-- C24: for every enabled hash and every C string with characters `s` (none
of them NUL, `strlen(s) + 1` within `int32_t`), found in memory with its
terminator, `_openremoteslide_hash_string` feeds the checksum exactly the bytes
of `s` followed by one NUL byte, which is `strlen(s) + 1` bytes and the same as
`_openremoteslide_hash_data` on the string with its terminator; a NULL string
is hashed as the empty string, a single NUL byte. -/
theorem hash_string_feeds_string_and_nul (h : Hash) (s rest : List Nat)
    (henabled : h.enabled = true) (hs : ∀ c ∈ s, c ≠ 0) (hlen : s.length + 1 < 2147483648) :
    _openremoteslide_hash_string (some h) (some (s ++ 0 :: rest))
      = some { h with checksum := h.checksum ++ (s ++ [0]) } ∧
    (s ++ [0]).length = strlen (s ++ 0 :: rest) + 1 ∧
    _openremoteslide_hash_string (some h) (some (s ++ 0 :: rest))
      = _openremoteslide_hash_data (some h) (some (s ++ 0 :: rest)) ((s.length : Int) + 1) ∧
    _openremoteslide_hash_string (some h) none = some { h with checksum := h.checksum ++ [0] } ∧
    _openremoteslide_hash_string (some h) none
      = _openremoteslide_hash_string (some h) (some (0 :: rest)) := by
  have hstr := strlen_c_string s rest hs
  have hwrap : wrap32 ((s.length : Int) + 1) = (s.length : Int) + 1 :=
    wrap32_of_range _ (by omega) (by omega)
  have hdata : _openremoteslide_hash_data (some h) (some (s ++ 0 :: rest)) ((s.length : Int) + 1)
      = some { h with checksum := h.checksum ++ (s ++ [0]) } := by
    have hne : ((s.length : Int) + 1) ≠ 0 := by omega
    have hnn : ¬ ((s.length : Int) + 1 < 0) := by omega
    have htn : ((s.length : Int) + 1).toNat = s.length + 1 := by omega
    simp only [_openremoteslide_hash_data, henabled, hne, ne_eq, not_false_eq_true, and_self,
      if_true, g_checksum_update, hnn, if_false, htn, take_c_string]
  have hnull : _openremoteslide_hash_string (some h) none
      = some { h with checksum := h.checksum ++ [0] } := by
    have h1 : wrap32 (((strlen [0] : Nat) : Int) + 1) = 1 := by decide
    simp only [_openremoteslide_hash_string, h1, _openremoteslide_hash_data, henabled,
      g_checksum_update]
    rfl
  have hempty : _openremoteslide_hash_string (some h) (some (0 :: rest))
      = some { h with checksum := h.checksum ++ [0] } := by
    have h0 : strlen (0 :: rest) = 0 := by simp [strlen]
    have h1 : wrap32 (((0 : Nat) : Int) + 1) = 1 := by decide
    simp only [_openremoteslide_hash_string, h0, h1, _openremoteslide_hash_data, henabled,
      g_checksum_update]
    rfl
  refine ⟨?_, ?_, ?_, hnull, ?_⟩
  · simp only [_openremoteslide_hash_string, hstr, hwrap]
    exact hdata
  · rw [hstr]
    simp
  · simp only [_openremoteslide_hash_string, hstr, hwrap]
  · rw [hnull, hempty]

/-- Witness for C24: the string "ab" is fed as the three bytes 97, 98, 0. -/
theorem hash_string_feeds_string_and_nul_witness :
    _openremoteslide_hash_string (some { checksum := [1, 2], enabled := true })
      (some ([97, 98] ++ 0 :: []))
      = some { checksum := [1, 2] ++ ([97, 98] ++ [0]), enabled := true } :=
  (hash_string_feeds_string_and_nul { checksum := [1, 2], enabled := true } [97, 98] [] rfl
    (by decide) (by decide)).1

theorem hash_feed_feed (hash : Option Hash) (a b : List Nat) :
    hash_feed (hash_feed hash a) b = hash_feed hash (a ++ b) := by
  cases hash with
  | none => rfl
  | some h =>
    by_cases he : h.enabled = true
    · simp [hash_feed, he, List.append_assoc]
    · simp [hash_feed, he]

theorem hash_feed_nil (hash : Option Hash) : hash_feed hash [] = hash := by
  cases hash with
  | none => rfl
  | some h =>
    cases h with
    | mk c e =>
      cases e
      · rfl
      · simp [hash_feed]

theorem hash_data_eq_feed (hash : Option Hash) (buf : List Nat) (n : Nat) (hn0 : 1 ≤ n)
    (hn1 : n ≤ 4096) :
    _openremoteslide_hash_data hash (some buf) (wrap32 (n : Int)) = hash_feed hash (buf.take n) := by
  have hwrap : wrap32 (n : Int) = (n : Int) := wrap32_of_range _ (by omega) (by omega)
  rw [hwrap]
  cases hash with
  | none => rfl
  | some h =>
    have hne : (n : Int) ≠ 0 := by omega
    have hnn : ¬ ((n : Int) < 0) := by omega
    by_cases he : h.enabled = true
    · simp only [_openremoteslide_hash_data, he, hne, ne_eq, not_false_eq_true, and_self,
        if_true, g_checksum_update, hnn, if_false, Int.toNat_ofNat, hash_feed]
    · simp [_openremoteslide_hash_data, hash_feed, he]

theorem stdioOps_readsFile (F : List Nat) : ReadsFile stdioOps F (StdioAt F) := by
  refine ⟨?_, ?_, ?_, ?_⟩
  · rintro f p ⟨hc, hp, hle⟩
    have hne1 : ¬ (SEEK_END = SEEK_SET) := by decide
    have hne2 : ¬ (SEEK_END = SEEK_CUR) := by decide
    have hnn : ¬ ((f.content.length : Int) + 0 < 0) := by omega
    simp only [stdioOps, stdio_fseek, hne1, hne2, if_false, if_true, hnn]
    refine ⟨trivial, hc, ?_, ?_⟩
    · simp only [add_zero, Int.toNat_ofNat, hc]
    · exact Nat.le_refl _
  · rintro f p ⟨hc, hp, hle⟩
    simp only [stdioOps, stdio_ftell, hp]
  · rintro f p off ⟨hc, hp, hle⟩ hoff
    have hnn : ¬ ((off : Int) < 0) := by omega
    simp only [stdioOps, stdio_fseek, if_true, hnn, if_false]
    exact ⟨trivial, hc, by simp, hoff⟩
  · rintro f p n ⟨hc, hp, hle⟩ hn hin
    have hlen : ((f.content.drop f.pos).take (1 * n)).length = n := by
      rw [hc, hp]
      simp only [Nat.one_mul, List.length_take, List.length_drop]
      omega
    simp only [stdioOps, stdio_fread, hlen, Nat.div_one, if_false, Nat.one_ne_zero]
    refine ⟨trivial, ?_, hc, ?_, ?_⟩
    · rw [hc, hp, Nat.one_mul]
    · rw [hp]
    · omega

theorem hash_file_loop_feeds {σ : Type} (ops : UrlioOps σ) (F : List Nat)
    (At : σ → Nat → Prop) (hreads : ReadsFile ops F At) :
    ∀ (fuel : Nat) (hash : Option Hash) (f : σ) (buf : List Nat) (p n : Nat),
      At f p → p + n ≤ F.length → n ≤ fuel →
      ∃ f1, hash_file_loop ops fuel hash f buf (n : Int)
        = some (true, hash_feed hash ((F.drop p).take n), f1) := by
  obtain ⟨_, _, _, hread⟩ := hreads
  intro fuel
  induction fuel with
  | zero =>
    intro hash f buf p n _ _ hn
    have hn0 : n = 0 := by omega
    subst hn0
    simp only [hash_file_loop, Nat.cast_zero, lt_self_iff_false, if_false, gt_iff_lt,
      List.take_zero, hash_feed_nil]
    exact ⟨f, rfl⟩
  | succ k ih =>
    intro hash f buf p n hat hin hn
    by_cases hn0 : n = 0
    · subst hn0
      simp only [hash_file_loop, Nat.cast_zero, lt_self_iff_false, if_false, gt_iff_lt,
        List.take_zero, hash_feed_nil]
      exact ⟨f, rfl⟩
    · have hpos : (n : Int) > 0 := by omega
      have hmin : min (4096 : Int) (n : Int) = ((min 4096 n : Nat) : Int) := by omega
      have hm1 : 1 ≤ min 4096 n := by omega
      have hm2 : min 4096 n ≤ 4096 := by omega
      obtain ⟨hret, hbytes, hat1⟩ := hread f p (min 4096 n) hat hm1 (by omega)
      have hstoredlen : ((F.drop p).take (min 4096 n)).length = min 4096 n := by
        simp only [List.length_take, List.length_drop]
        omega
      simp only [hash_file_loop, hpos, if_true, hmin, Int.toNat_ofNat, hret, hbytes,
        ne_eq, not_true_eq_false, if_false, hstoredlen]
      rw [hash_data_eq_feed _ _ _ hm1 hm2]
      have htake : ((F.drop p).take (min 4096 n) ++ buf.drop (min 4096 n)).take (min 4096 n)
          = (F.drop p).take (min 4096 n) := by
        rw [List.take_append_of_le_length (by rw [hstoredlen])]
        exact List.take_of_length_le (by rw [hstoredlen])
      rw [htake]
      have hsub : ((n : Int) - ((min 4096 n : Nat) : Int)) = ((n - min 4096 n : Nat) : Int) := by
        omega
      rw [hsub]
      obtain ⟨f1, hf1⟩ := ih (hash_feed hash ((F.drop p).take (min 4096 n)))
        (ops.fread f 1 (min 4096 n)).2.2
        ((F.drop p).take (min 4096 n) ++ buf.drop (min 4096 n)) (p + min 4096 n)
        (n - min 4096 n) hat1 (by omega) (by omega)
      refine ⟨f1, ?_⟩
      rw [hf1, hash_feed_feed]
      have hsplit : n = min 4096 n + (n - min 4096 n) := by omega
      have : (F.drop p).take (min 4096 n) ++ (F.drop (p + min 4096 n)).take (n - min 4096 n)
          = (F.drop p).take n := by
        conv_rhs => rw [hsplit, List.take_add, List.drop_drop]
      rw [this]

/-- C25: for a reader `ops` whose reads give the bytes of the file `F` (as
stdio does), every offset in `[0, L]` and `size` either -1 or in
`[0, L - offset]`, `_openremoteslide_hash_file_part` returns `true` and has fed
the digest exactly the bytes `[offset, offset + size)` of `F`, to the end of
`F` when `size == -1`, in order: the updates in chunks of at most 4096 bytes
leave the hash as one update with the whole range does.  For every reader the
call returns (the loop ends), and an iteration whose read returns another
number of bytes than requested ends the loop with `false`, the chunk not being
fed. -/
theorem hash_file_part_feeds_range {σ : Type} (ops : UrlioOps σ) (F : List Nat)
    (At : σ → Nat → Prop) (hash : Option Hash) (f : σ) (p0 : Nat) (offset size : Int)
    (hreads : ReadsFile ops F At) (hat : At f p0) (hoff0 : 0 ≤ offset)
    (hoff1 : offset ≤ (F.length : Int))
    (hsize : size = -1 ∨ (0 ≤ size ∧ size ≤ (F.length : Int) - offset)) :
    _openremoteslide_hash_file_part ops hash (some f) offset size
      = some (true, hash_feed hash ((F.drop offset.toNat).take
          (if size = -1 then F.length - offset.toNat else size.toNat))) ∧
    (∀ (hash1 : Option Hash) (f1 : Option σ) (offset1 size1 : Int),
      ∃ r, _openremoteslide_hash_file_part ops hash1 f1 offset1 size1 = some r) ∧
    (∀ (fuel : Nat) (hash1 : Option Hash) (f1 : σ) (buf : List Nat) (bytes_left : Int),
      0 < bytes_left →
      ((ops.fread f1 1 (min 4096 bytes_left).toNat).1 : Int) ≠ min 4096 bytes_left →
      hash_file_loop ops (fuel + 1) hash1 f1 buf bytes_left
        = some (false, hash1, (ops.fread f1 1 (min 4096 bytes_left).toNat).2.2)) := by
  refine ⟨?_, fun hash1 f1 offset1 size1 => hash_file_part_returns ops hash1 f1 offset1 size1,
    ?_⟩
  · obtain ⟨hend, htell, hset, _⟩ := hreads
    have hoffn : offset = ((offset.toNat : Nat) : Int) := by omega
    unfold _openremoteslide_hash_file_part
    simp only
    by_cases hm : size = -1
    · obtain ⟨he1, he2⟩ := hend f p0 hat
      have ht := htell _ _ he2
      have hne : ¬ ((F.length : Int) = -1) := by omega
      simp only [hm, if_true, he1, ne_eq, not_true_eq_false, if_false, ht, hne]
      have hs := hset _ _ offset.toNat he2 (by omega)
      rw [← hoffn] at hs
      have hne2 : ¬ ((ops.fseek (ops.fseek f 0 SEEK_END).2 offset SEEK_SET).1 = -1) := by
        rw [hs.1]; decide
      simp only [hne2, if_false]
      have hsz : (F.length : Int) - offset = ((F.length - offset.toNat : Nat) : Int) := by
        omega
      rw [hsz, Int.toNat_ofNat]
      obtain ⟨f1, hf1⟩ := hash_file_loop_feeds ops F At ⟨hend, htell, hset, by assumption⟩
        (F.length - offset.toNat) hash _ (List.replicate 4096 0) offset.toNat
        (F.length - offset.toNat) hs.2 (by omega) (Nat.le_refl _)
      rw [hf1]
    · have hsz := hsize.resolve_left hm
      simp only [hm, if_false]
      have hs := hset _ _ offset.toNat hat (by omega)
      rw [← hoffn] at hs
      have hne2 : ¬ ((ops.fseek f offset SEEK_SET).1 = -1) := by
        rw [hs.1]; decide
      simp only [hne2, if_false]
      have hszn : size = ((size.toNat : Nat) : Int) := by omega
      obtain ⟨f1, hf1⟩ := hash_file_loop_feeds ops F At ⟨hend, htell, hset, by assumption⟩
        size.toNat hash _ (List.replicate 4096 0) offset.toNat size.toNat hs.2 (by omega)
        (Nat.le_refl _)
      rw [← hszn] at hf1
      rw [hf1]
  · intro fuel hash1 f1 buf bytes_left hpos hne
    simp only [hash_file_loop, gt_iff_lt, hpos, if_true, ne_eq, hne, not_false_eq_true]

/-- Witness for C25: bytes 2 to 6 of a stdio file of ten bytes. -/
theorem hash_file_part_feeds_range_witness :
    _openremoteslide_hash_file_part stdioOps (some { checksum := [1], enabled := true })
      (some sampleStdioFile) 2 5
      = some (true, hash_feed (some { checksum := [1], enabled := true })
          ((sampleBytes.drop (2 : Int).toNat).take
            (if (5 : Int) = -1 then sampleBytes.length - (2 : Int).toNat
             else (5 : Int).toNat))) ∧
    hash_feed (some { checksum := [1], enabled := true })
      ((sampleBytes.drop 2).take 5) = some { checksum := [1, 12, 13, 14, 15, 16], enabled := true } :=
  ⟨(hash_file_part_feeds_range stdioOps sampleBytes (StdioAt sampleBytes)
      (some { checksum := [1], enabled := true }) sampleStdioFile 0 2 5
      (stdioOps_readsFile sampleBytes) ⟨rfl, rfl, by decide⟩ (by decide) (by decide)
      (Or.inr ⟨by decide, by decide⟩)).1,
   by decide⟩

theorem divRoundUp_nat (a b : Nat) (hb : 0 < b) :
    divRoundUp (a : Int) (b : Int) = ((a / b + (if a % b ≠ 0 then 1 else 0) : Nat) : Int) := by
  unfold divRoundUp
  rw [Int.tdiv_eq_ediv (by omega) (by omega), Int.tmod_eq_emod (by omega) (by omega)]
  by_cases h : a % b = 0
  · have h' : (a : Int) % (b : Int) = 0 := by exact_mod_cast h
    simp [h, h']
  · have h' : (a : Int) % (b : Int) ≠ 0 := by
      intro hc
      apply h
      exact_mod_cast hc
    simp [h, h']

theorem ceil_div_least (a b : Nat) (hb : 0 < b) :
    a ≤ (a / b + (if a % b ≠ 0 then 1 else 0)) * b ∧
    (∀ n : Nat, a ≤ n * b → a / b + (if a % b ≠ 0 then 1 else 0) ≤ n) ∧
    (∀ k : Nat, k + 1 < a / b + (if a % b ≠ 0 then 1 else 0) → (k + 1) * b ≤ a) ∧
    (0 < a → (a / b + (if a % b ≠ 0 then 1 else 0) - 1) * b < a) := by
  have hqr : b * (a / b) + a % b = a := Nat.div_add_mod a b
  have hr : a % b < b := Nat.mod_lt a hb
  have hcomm : b * (a / b) = a / b * b := Nat.mul_comm _ _
  refine ⟨?_, ?_, ?_, ?_⟩
  · by_cases h : a % b = 0
    · simp only [h, ne_eq, not_true_eq_false, if_false, Nat.add_zero]
      omega
    · simp only [h, ne_eq, not_false_eq_true, if_true, Nat.add_mul, Nat.one_mul]
      omega
  · intro n hn
    by_contra hlt
    by_cases h : a % b = 0
    · simp only [h, ne_eq, not_true_eq_false, if_false, Nat.add_zero] at hlt
      have h1 : (n + 1) * b ≤ a / b * b := Nat.mul_le_mul_right b (by omega)
      rw [Nat.add_mul, Nat.one_mul] at h1
      omega
    · simp only [h, ne_eq, not_false_eq_true, if_true] at hlt
      have h1 : n * b ≤ a / b * b := Nat.mul_le_mul_right b (by omega)
      omega
  · intro k hk
    have hk1 : k + 1 ≤ a / b := by
      split_ifs at hk <;> omega
    have h1 : (k + 1) * b ≤ a / b * b := Nat.mul_le_mul_right b hk1
    omega
  · intro ha
    by_cases h : a % b = 0
    · simp only [h, ne_eq, not_true_eq_false, if_false, Nat.add_zero]
      have hq : 0 < a / b := by
        rcases Nat.eq_zero_or_pos (a / b) with h0 | h0
        · rw [h0] at hqr
          omega
        · exact h0
      have h1 : (a / b - 1) * b + b = a / b * b := by
        rw [← Nat.succ_mul]
        congr 1
        omega
      omega
    · simp only [h, ne_eq, not_false_eq_true, if_true, Nat.add_sub_cancel]
      omega

/-- C26: for a directory with all required tags, image width `iw`, image
length `ih` and tile width `tw > 0`, tile length `th > 0`,
`_openremoteslide_tiff_level_init` fills the level descriptor with
`tiles_across = (iw / tw) + !!(iw % tw)`, which is the integer ceiling of
`iw / tw`: the least `n` with `n * tw >= iw`; likewise `tiles_down` from `ih`
and `th`.  So every tile column before the last lies inside the image, and
only the last one, which starts inside the image, can extend beyond it; the
same holds for the rows. -/
theorem tiff_level_init_tile_counts (tiff tiff1 : Tiff) (dir : Nat) (level : Option Level)
    (tiffl : TiffLevel) (tw th iw ih comp planar photo bps spp : Nat)
    (hdir : _openremoteslide_tiff_set_dir tiff dir = (tiff1, true))
    (htw : tiff1.tags.tile_width = some tw) (hth : tiff1.tags.tile_length = some th)
    (hiw : tiff1.tags.image_width = some iw) (hih : tiff1.tags.image_length = some ih)
    (hcomp : tiff1.tags.compression = some comp)
    (hplanar : tiff1.tags.planar_config = some planar)
    (hphoto : tiff1.tags.photometric = some photo)
    (hbps : tiff1.tags.bits_per_sample = some bps)
    (hspp : tiff1.tags.samples_per_pixel = some spp)
    (htw0 : 0 < tw) (hth0 : 0 < th) :
    ∃ t l x, _openremoteslide_tiff_level_init tiff dir level (some tiffl) = .ok t l (some x) ∧
      x.tiles_across = divRoundUp iw tw ∧ x.tiles_down = divRoundUp ih th ∧
      x.tiles_across = (iw : Int) / tw + (if (iw : Int) % tw ≠ 0 then 1 else 0) ∧
      x.tiles_down = (ih : Int) / th + (if (ih : Int) % th ≠ 0 then 1 else 0) ∧
      ((iw : Int) ≤ x.tiles_across * tw ∧
        (∀ n : Nat, iw ≤ n * tw → x.tiles_across ≤ (n : Int)) ∧
        (∀ c : Nat, (c : Int) + 1 < x.tiles_across → (c + 1) * tw ≤ iw) ∧
        (0 < iw → (x.tiles_across - 1) * tw < (iw : Int))) ∧
      ((ih : Int) ≤ x.tiles_down * th ∧
        (∀ n : Nat, ih ≤ n * th → x.tiles_down ≤ (n : Int)) ∧
        (∀ c : Nat, (c : Int) + 1 < x.tiles_down → (c + 1) * th ≤ ih) ∧
        (0 < ih → (x.tiles_down - 1) * th < (ih : Int))) := by
  have hrun : _openremoteslide_tiff_level_init tiff dir level (some tiffl) =
      LevelInitResult.ok tiff1
        (match level with
          | none => none
          | some _ => some { w := iw, h := ih, tile_w := tw, tile_h := th })
        (some { tiffl with
            dir := dir
            image_w := iw
            image_h := ih
            tile_w := tw
            tile_h := th
            tiles_across := divRoundUp iw tw
            tiles_down := divRoundUp ih th
            tile_read_direct :=
              (decide (comp = COMPRESSION_JPEG) && decide (planar = PLANARCONFIG_CONTIG) &&
                (decide (photo = PHOTOMETRIC_RGB) || decide (photo = PHOTOMETRIC_YCBCR)) &&
                decide (bps = 8) && decide (spp = 3))
            photometric := photo }) := by
    have hz : ¬ (tw = 0 ∨ th = 0) := by omega
    simp only [_openremoteslide_tiff_level_init, hdir, getFieldOrFail, htw, hth, hiw, hih,
      hcomp, hplanar, hphoto, hbps, hspp, hz, if_false]
    rfl
  have key : ∀ a b : Nat, 0 < b →
      divRoundUp a b = (a : Int) / b + (if (a : Int) % b ≠ 0 then 1 else 0) ∧
      ((a : Int) ≤ divRoundUp a b * b ∧
        (∀ n : Nat, a ≤ n * b → divRoundUp a b ≤ (n : Int)) ∧
        (∀ c : Nat, (c : Int) + 1 < divRoundUp a b → (c + 1) * b ≤ a) ∧
        (0 < a → (divRoundUp a b - 1) * b < (a : Int))) := by
    intro a b hb
    obtain ⟨h1, h2, h3, h4⟩ := ceil_div_least a b hb
    refine ⟨?_, ?_, ?_, ?_, ?_⟩
    · unfold divRoundUp
      rw [Int.tdiv_eq_ediv (by omega) (by omega), Int.tmod_eq_emod (by omega) (by omega)]
    · rw [divRoundUp_nat a b hb]
      exact_mod_cast h1
    · intro n hn
      rw [divRoundUp_nat a b hb]
      exact_mod_cast h2 n hn
    · intro c hc
      rw [divRoundUp_nat a b hb] at hc
      exact h3 c (by exact_mod_cast hc)
    · intro ha
      rw [divRoundUp_nat a b hb]
      have h5 := h4 ha
      have hpos : 1 ≤ a / b + (if a % b ≠ 0 then 1 else 0) := by
        rcases Nat.eq_zero_or_pos (a / b + (if a % b ≠ 0 then 1 else 0)) with h0 | h0
        · rw [h0, Nat.zero_mul] at h1
          omega
        · exact h0
      have hcast : ∀ c : Nat, 1 ≤ c → ((c : Int) - 1) = ((c - 1 : Nat) : Int) := by
        intro c hc
        omega
      rw [hcast _ hpos]
      exact_mod_cast h5
  obtain ⟨ka1, ka2⟩ := key iw tw htw0
  obtain ⟨kd1, kd2⟩ := key ih th hth0
  exact ⟨_, _, _, hrun, rfl, rfl, ka1, kd1, ka2, kd2⟩

/-- Witness for C26: the 300 x 200 image of `sampleTags` with 256 x 256 tiles
has 2 tiles across and 1 down. -/
theorem tiff_level_init_tile_counts_witness :
    (∃ t l x, _openremoteslide_tiff_level_init sampleTiff 0 none (some zeroTiffLevel)
        = .ok t l (some x) ∧ x.tiles_across = divRoundUp (300 : Nat) (256 : Nat) ∧
        x.tiles_down = divRoundUp (200 : Nat) (256 : Nat)) ∧
    divRoundUp 300 256 = 2 ∧ divRoundUp 200 256 = 1 :=
  ⟨(tiff_level_init_tile_counts sampleTiff sampleTiff 0 none zeroTiffLevel
      256 256 300 200 7 1 6 8 3 rfl rfl rfl rfl rfl rfl rfl rfl rfl rfl
      (by decide) (by decide)).imp fun _ ht => ht.imp fun _ hl => hl.imp fun _ hx =>
        ⟨hx.1, hx.2.1, hx.2.2.1⟩,
   by decide, by decide⟩

theorem and_byte_mask (p k : Nat) : p &&& (255 <<< k) = (p / 2 ^ k % 256) * 2 ^ k := by
  apply Nat.eq_of_testBit_eq
  intro i
  have h255 : (255 : Nat) = 2 ^ 8 - 1 := by norm_num
  have h256 : (256 : Nat) = 2 ^ 8 := by norm_num
  rw [← Nat.shiftLeft_eq, ← Nat.shiftRight_eq_div_pow, h256, h255]
  simp only [Nat.testBit_and, Nat.testBit_shiftLeft, Nat.testBit_two_pow_sub_one,
    Nat.testBit_mod_two_pow, Nat.testBit_shiftRight]
  by_cases hk : k ≤ i
  · have : k + (i - k) = i := by omega
    simp [hk, this, Bool.and_comm]
  · simp [hk]

theorem or_of_bytes (b0 b1 b2 b3 : Nat) (h1 : b1 < 256) (h2 : b2 < 256) (h3 : b3 < 256) :
    16777216 * b0 ||| 65536 * b1 ||| 256 * b2 ||| b3
      = 16777216 * b0 + 65536 * b1 + 256 * b2 + b3 := by
  have e1 : 16777216 * b0 ||| 65536 * b1 = 16777216 * b0 + 65536 * b1 := by
    have := Nat.mul_add_lt_is_or (i := 24) (b := 65536 * b1) (by norm_num; omega) b0
    norm_num at this
    exact this.symm
  have e2 : 16777216 * b0 + 65536 * b1 ||| 256 * b2 = 16777216 * b0 + 65536 * b1 + 256 * b2 := by
    have := Nat.mul_add_lt_is_or (i := 16) (b := 256 * b2) (by norm_num; omega) (256 * b0 + b1)
    norm_num at this
    have e : 65536 * (256 * b0 + b1) = 16777216 * b0 + 65536 * b1 := by omega
    rw [e] at this
    exact this.symm
  have e3 : 16777216 * b0 + 65536 * b1 + 256 * b2 ||| b3
      = 16777216 * b0 + 65536 * b1 + 256 * b2 + b3 := by
    have := Nat.mul_add_lt_is_or (i := 8) (b := b3) (by norm_num; omega)
      (65536 * b0 + 256 * b1 + b2)
    norm_num at this
    have e : 256 * (65536 * b0 + 256 * b1 + b2) = 16777216 * b0 + 65536 * b1 + 256 * b2 := by
      omega
    rw [e] at this
    exact this.symm
  rw [e1, e2, e3]

theorem GUINT32_SWAP_LE_BE_bytes (p : Nat) (hp : p < 4294967296) :
    GUINT32_SWAP_LE_BE p
      = 16777216 * (p % 256) + 65536 * (p / 256 % 256) + 256 * (p / 65536 % 256)
        + p / 16777216 := by
  have m0 : (0x000000ff : Nat) = 255 <<< 0 := by decide
  have m1 : (0x0000ff00 : Nat) = 255 <<< 8 := by decide
  have m2 : (0x00ff0000 : Nat) = 255 <<< 16 := by decide
  have m3 : (0xff000000 : Nat) = 255 <<< 24 := by decide
  unfold GUINT32_SWAP_LE_BE
  rw [m0, m1, m2, m3, and_byte_mask, and_byte_mask, and_byte_mask, and_byte_mask]
  simp only [Nat.shiftLeft_eq, Nat.shiftRight_eq_div_pow]
  have t0 : p / 2 ^ 0 % 256 * 2 ^ 0 * 2 ^ 24 = 16777216 * (p % 256) := by
    norm_num
    omega
  have t1 : p / 2 ^ 8 % 256 * 2 ^ 8 * 2 ^ 8 = 65536 * (p / 256 % 256) := by
    norm_num
    omega
  have t2 : p / 2 ^ 16 % 256 * 2 ^ 16 / 2 ^ 8 = 256 * (p / 65536 % 256) := by
    norm_num
    omega
  have t3 : p / 2 ^ 24 % 256 * 2 ^ 24 / 2 ^ 24 = p / 16777216 := by
    norm_num
    omega
  rw [t0, t1, t2, t3, or_of_bytes _ _ _ _ (by omega) (by omega) (by omega)]
  omega

theorem abgr_to_argb_bytes (p : Nat) (hp : p < 4294967296) :
    abgr_to_argb p
      = 16777216 * (p / 16777216) + 65536 * (p % 256) + 256 * (p / 256 % 256)
        + p / 65536 % 256 := by
  rw [abgr_to_argb_eq_rotr8, GUINT32_SWAP_LE_BE_bytes p hp]
  unfold rotr32
  norm_num
  omega

theorem abgr_to_argb_of_bytes (a b g r : Nat) (ha : a < 256) (hb : b < 256) (hg : g < 256)
    (hr : r < 256) :
    abgr_to_argb (16777216 * a + 65536 * b + 256 * g + r)
      = 16777216 * a + 65536 * r + 256 * g + b := by
  rw [abgr_to_argb_bytes _ (by omega)]
  omega

/-- C27: the body of the pixel loop of `tiff_read_region` converts ABGR to
ARGB: for every 32-bit pixel `0xAABBGGRR`, with alpha `a` in the top byte,
then blue `b`, green `g` and red `r` in the low byte, the output is
`0xAARRGGBB`: alpha and green stay in place, red and blue change places.  The
output is again a 32-bit value, and converting twice gives back the pixel. -/
theorem abgr_to_argb_swaps_red_and_blue (a b g r : Nat) (ha : a < 256) (hb : b < 256)
    (hg : g < 256) (hr : r < 256) :
    abgr_to_argb (16777216 * a + 65536 * b + 256 * g + r)
      = 16777216 * a + 65536 * r + 256 * g + b ∧
    abgr_to_argb (abgr_to_argb (16777216 * a + 65536 * b + 256 * g + r))
      = 16777216 * a + 65536 * b + 256 * g + r ∧
    (∀ p : Nat, p < 4294967296 →
      abgr_to_argb p < 4294967296 ∧ abgr_to_argb (abgr_to_argb p) = p ∧
      abgr_to_argb p / 16777216 = p / 16777216 ∧
      abgr_to_argb p / 65536 % 256 = p % 256 ∧
      abgr_to_argb p / 256 % 256 = p / 256 % 256 ∧
      abgr_to_argb p % 256 = p / 65536 % 256) := by
  refine ⟨abgr_to_argb_of_bytes a b g r ha hb hg hr, ?_, ?_⟩
  · rw [abgr_to_argb_of_bytes a b g r ha hb hg hr, abgr_to_argb_of_bytes a r g b ha hr hg hb]
  · intro p hp
    obtain ⟨a1, b1, g1, r1, ha1, hb1, hg1, hr1, hpe⟩ : ∃ a1 b1 g1 r1 : Nat,
        a1 < 256 ∧ b1 < 256 ∧ g1 < 256 ∧ r1 < 256 ∧
        p = 16777216 * a1 + 65536 * b1 + 256 * g1 + r1 :=
      ⟨p / 16777216, p / 65536 % 256, p / 256 % 256, p % 256, by omega, by omega, by omega,
        by omega, by omega⟩
    subst hpe
    rw [abgr_to_argb_of_bytes a1 b1 g1 r1 ha1 hb1 hg1 hr1,
      abgr_to_argb_of_bytes a1 r1 g1 b1 ha1 hr1 hg1 hb1]
    have hY1 : (16777216 * a1 + 65536 * r1 + 256 * g1 + b1) / 16777216 = a1 := by omega
    have hX1 : (16777216 * a1 + 65536 * b1 + 256 * g1 + r1) / 16777216 = a1 := by omega
    have hY2 : (16777216 * a1 + 65536 * r1 + 256 * g1 + b1) / 65536 = 256 * a1 + r1 := by
      omega
    have hX2 : (16777216 * a1 + 65536 * b1 + 256 * g1 + r1) / 65536 = 256 * a1 + b1 := by
      omega
    have hY3 : (16777216 * a1 + 65536 * r1 + 256 * g1 + b1) / 256
        = 65536 * a1 + 256 * r1 + g1 := by omega
    have hX3 : (16777216 * a1 + 65536 * b1 + 256 * g1 + r1) / 256
        = 65536 * a1 + 256 * b1 + g1 := by omega
    rw [hY1, hX1, hY2, hX2, hY3, hX3]
    refine ⟨by omega, rfl, rfl, by omega, by omega, by omega⟩

/-- Witness for C27: the pixel `0x80112233` becomes `0x80332211`. -/
theorem abgr_to_argb_swaps_red_and_blue_witness :
    abgr_to_argb (16777216 * 128 + 65536 * 17 + 256 * 34 + 51)
      = 16777216 * 128 + 65536 * 51 + 256 * 34 + 17 :=
  (abgr_to_argb_swaps_red_and_blue 128 17 34 51 (by decide) (by decide) (by decide)
    (by decide)).1

theorem tiffcache_get_put_outstanding {α : Type} (tc : Tiffcache α) (opened : Option α)
    (hout : 0 ≤ tc.outstanding) :
    ∃ tc1 closed,
      _openremoteslide_tiffcache_put (_openremoteslide_tiffcache_get tc opened).1
        (_openremoteslide_tiffcache_get tc opened).2 = some (tc1, closed) ∧
      tc1.outstanding = tc.outstanding := by
  unfold _openremoteslide_tiffcache_get tiffcache_get_locked tiffcache_get_failed
  cases hc : tc.cache with
  | nil =>
    cases opened with
    | none =>
      simp only [_openremoteslide_tiffcache_put]
      exact ⟨_, _, rfl, by simp⟩
    | some h =>
      have hne : ¬ (tc.outstanding + 1 = 0) := by omega
      simp only [_openremoteslide_tiffcache_put, hne, if_false]
      split_ifs
      · exact ⟨_, _, rfl, by simp⟩
      · exact ⟨_, _, rfl, by simp⟩
  | cons h rest =>
    have hne : ¬ (tc.outstanding + 1 = 0) := by omega
    simp only [_openremoteslide_tiffcache_put, hne, if_false]
    split_ifs
    · exact ⟨_, _, rfl, by simp⟩
    · exact ⟨_, _, rfl, by simp⟩

/-- C28: a failed checkout leaves the pool as it was: with an empty idle queue
and a failing `tiff_open`, `_openremoteslide_tiffcache_get` returns NULL and the
pool, `outstanding` and idle queue, is as before the call;
`_openremoteslide_tiffcache_put(tc, NULL)` changes nothing; and on every path
of `get_associated_image_data` and `_openremoteslide_tiff_add_associated_image`
(the checkout hits the queue, opens a handle or fails; the work on the handle
succeeds or not) the call returns with `outstanding` as it was before, for
every pool with `outstanding >= 0`. -/
theorem tiffcache_failed_checkout_leaves_pool {α : Type} (tc : Tiffcache α)
    (opened : Option α) (work : α → Bool) (hout : 0 ≤ tc.outstanding) :
    (tc.cache = [] → _openremoteslide_tiffcache_get tc none = (tc, none)) ∧
    _openremoteslide_tiffcache_put tc none = some (tc, none) ∧
    (tc.cache = [] → get_associated_image_data tc none work = some (tc, none, false)) ∧
    (tc.cache = [] →
      _openremoteslide_tiff_add_associated_image tc none work = some (tc, none, false)) ∧
    (∃ tc1 closed ok, get_associated_image_data tc opened work = some (tc1, closed, ok) ∧
      tc1.outstanding = tc.outstanding) ∧
    (∃ tc1 closed ok,
      _openremoteslide_tiff_add_associated_image tc opened work = some (tc1, closed, ok) ∧
      tc1.outstanding = tc.outstanding) := by
  have hget : tc.cache = [] → _openremoteslide_tiffcache_get tc none = (tc, none) := by
    intro hc
    cases tc with
    | mk cache outstanding =>
      simp only at hc
      subst hc
      simp [_openremoteslide_tiffcache_get, tiffcache_get_locked, tiffcache_get_failed]
  obtain ⟨tc1, closed, hput, hsame⟩ := tiffcache_get_put_outstanding tc opened hout
  refine ⟨hget, rfl, ?_, ?_, ?_, ?_⟩
  · intro hc
    simp only [get_associated_image_data, hget hc, _openremoteslide_tiffcache_put]
  · intro hc
    simp only [_openremoteslide_tiff_add_associated_image, hget hc,
      _openremoteslide_tiffcache_put]
  · refine ⟨tc1, closed, (match (_openremoteslide_tiffcache_get tc opened).2 with
      | some h => work h
      | none => false), ?_, hsame⟩
    simp only [get_associated_image_data, hput]
  · refine ⟨tc1, closed, (match (_openremoteslide_tiffcache_get tc opened).2 with
      | some h => work h
      | none => false), ?_, hsame⟩
    simp only [_openremoteslide_tiff_add_associated_image, hput]

/-- Witness for C28: a new pool, a failing `tiff_open`. -/
theorem tiffcache_failed_checkout_leaves_pool_witness :
    get_associated_image_data (_openremoteslide_tiffcache_create : Tiffcache Nat) none
      (fun _ => true) = some (_openremoteslide_tiffcache_create, none, false) :=
  (tiffcache_failed_checkout_leaves_pool (_openremoteslide_tiffcache_create : Tiffcache Nat)
    none (fun _ => true) (by decide)).2.2.1 rfl

/-- C29 fails in the code: for a remote byte source with cursor `pos >= 0` and
a request `urlio_fread(ptr, 1, n, file)` that reaches beyond the end of the file
(`pos + n > size`, `n >= 1` in `int` range), a call that reaches its final `return`
returns `n`, which is more than the `max(0, size - pos)` bytes that remain, and
moves the cursor to `pos + n`, beyond the size. -/
theorem urlio_fread_reports_bytes_past_end (env : NetEnv) (file : UrlFile) (n v : Nat)
    (hpos0 : 0 ≤ file.pos) (hpos1 : file.pos < 2305843009213693952) (hn0 : 1 ≤ n)
    (hn : n < 2147483648) (hpast : (file.size : Int) < file.pos + (n : Int))
    (hret : (urlio_fread env file 1 n).status = .returned v) :
    v = n ∧ max 0 ((file.size : Int) - file.pos) < (v : Int) ∧
    ∃ f1, (urlio_fread env file 1 n).file = some f1 ∧
      urlio_ftell f1 = file.pos + (n : Int) ∧ (f1.size : Int) < urlio_ftell f1 := by
  obtain ⟨_, hlen⟩ := fread_loop_length env file 1 n hpos0 hpos1 (by omega)
  have hw : wrapU64 (((1 : Nat) : Int) * n) = (n : Int) := by
    rw [Nat.cast_one, one_mul]
    exact wrapU64_of_range _ (by omega) (by omega)
  unfold urlio_fread at hret ⊢
  cases hres : fread_loop env file.size (fread_cache_count file.pos 1 n).toNat
      { cache := file.cache, current_pointer := file.pos,
        current_size := wrapU64 (((1 : Nat) : Int) * n), dst := [], fetched := [],
        copies := [] } with
  | worker_failed st =>
    simp only [hres] at hret
    cases hret
  | hang st =>
    simp only [hres] at hret
    cases hret
  | undefined st =>
    simp only [hres] at hret
    cases hret
  | done st =>
    have hl := hlen st hres
    simp only [hres] at hret ⊢
    by_cases hlost : (env.restart (file.pos + wrapU64 (((1 : Nat) : Int) * n))).1.length = 0 ∧
        (env.restart (file.pos + wrapU64 (((1 : Nat) : Int) * n))).2 = false
    · rw [if_pos hlost] at hret
      simp at hret
    · simp only [hlost, Nat.one_ne_zero, if_false, FreadStatus.returned.injEq, Nat.div_one]
        at hret ⊢
      have hv : v = n := by rw [← hret, hl, Nat.one_mul]
      refine ⟨hv, by omega, _, rfl, ?_, ?_⟩
      · simp only [urlio_ftell, hw]
      · simp only [urlio_ftell, hw]
        exact hpast

/-- Witness for C29: 5 bytes requested at offset 8 of the 10 bytes of
`sampleBytes`: 5 is returned, 2 bytes remain. -/
theorem urlio_fread_reports_bytes_past_end_witness :
    (urlio_fread (faithfulNet sampleBytes) (sampleUrlFile 8) 1 5).status = .returned 5 ∧
    max 0 (((sampleUrlFile 8).size : Int) - (sampleUrlFile 8).pos) < ((5 : Nat) : Int) ∧
    max 0 (((sampleUrlFile 8).size : Int) - (sampleUrlFile 8).pos) = 2 :=
  ⟨by decide,
   (urlio_fread_reports_bytes_past_end (faithfulNet sampleBytes) (sampleUrlFile 8) 5 5
      (by decide) (by decide) (by decide) (by decide) (by decide) (by decide)).2.1,
   by decide⟩

theorem tiff_set_dir_tile_size (tiff tiff1 : Tiff) (dir : Nat)
    (hcur : tiff.tags.tile_width ≠ some 0 ∧ tiff.tags.tile_length ≠ some 0)
    (hdir : _openremoteslide_tiff_set_dir tiff dir = (tiff1, true)) :
    tiff1.tags.tile_width ≠ some 0 ∧ tiff1.tags.tile_length ≠ some 0 := by
  unfold _openremoteslide_tiff_set_dir at hdir
  split_ifs at hdir with hsame
  · simp only [Prod.mk.injEq, and_true] at hdir
    rw [← hdir]
    exact hcur
  · unfold TIFFSetDirectory at hdir
    cases hget : tiff.dirs.get? dir with
    | none =>
      rw [hget] at hdir
      simp at hdir
    | some t =>
      rw [hget] at hdir
      simp only at hdir
      split_ifs at hdir with hzero
      · simp at hdir
      · simp only [Prod.mk.injEq, and_true] at hdir
        rw [← hdir]
        simp only
        exact ⟨fun h => hzero (Or.inl h), fun h => hzero (Or.inr h)⟩

theorem tiff_set_dir_refused (tiff : Tiff) (dir : Nat) (t : TiffDirTags)
    (hother : dir ≠ tiff.cur) (hget : tiff.dirs.get? dir = some t)
    (hzero : t.tile_width = some 0 ∨ t.tile_length = some 0) :
    _openremoteslide_tiff_set_dir tiff dir = ({ tiff with cur := dir, tags := t }, false) := by
  unfold _openremoteslide_tiff_set_dir TIFFSetDirectory
  rw [if_neg hother, hget]
  simp only [hzero, if_true]

/-- On a handle whose current directory libtiff has accepted (its tile width
and tile length are not 0) `_openremoteslide_tiff_level_init` evaluates no
division by zero: it fails with "Cannot set TIFF directory" or "Cannot get
required TIFF tag", or it returns `true`, and then a descriptor it has filled
has a tile width and a tile length different from 0.  A directory of the file
whose TILEWIDTH or TILELENGTH is 0, other than the current one, is rejected
with "Cannot set TIFF directory". -/
theorem tiff_level_init_accepted_handle (tiff : Tiff) (dir : Nat)
    (level : Option Level) (tiffl : Option TiffLevel)
    (hcur : tiff.tags.tile_width ≠ some 0 ∧ tiff.tags.tile_length ≠ some 0) :
    _openremoteslide_tiff_level_init tiff dir level tiffl ≠ .undefined ∧
    (_openremoteslide_tiff_level_init tiff dir level tiffl = .set_dir_failed ∨
      (∃ tag, _openremoteslide_tiff_level_init tiff dir level tiffl = .missing_tag tag) ∨
      ∃ tiff1 level1 tiffl1,
        _openremoteslide_tiff_level_init tiff dir level tiffl = .ok tiff1 level1 tiffl1 ∧
        ∀ tl, tiffl1 = some tl → tl.tile_w ≠ 0 ∧ tl.tile_h ≠ 0) ∧
    (∀ t : TiffDirTags, dir ≠ tiff.cur → tiff.dirs.get? dir = some t →
      (t.tile_width = some 0 ∨ t.tile_length = some 0) →
      _openremoteslide_tiff_level_init tiff dir level tiffl = .set_dir_failed) := by
  have hmain : _openremoteslide_tiff_level_init tiff dir level tiffl = .set_dir_failed ∨
      (∃ tag, _openremoteslide_tiff_level_init tiff dir level tiffl = .missing_tag tag) ∨
      ∃ tiff1 level1 tiffl1,
        _openremoteslide_tiff_level_init tiff dir level tiffl = .ok tiff1 level1 tiffl1 ∧
        ∀ tl, tiffl1 = some tl → tl.tile_w ≠ 0 ∧ tl.tile_h ≠ 0 := by
    cases hsd : _openremoteslide_tiff_set_dir tiff dir with
    | mk tiff1 ok =>
      cases ok with
      | false =>
        left
        simp only [_openremoteslide_tiff_level_init, hsd, if_true]
      | true =>
        right
        obtain ⟨hw, hl⟩ := tiff_set_dir_tile_size tiff tiff1 dir hcur hsd
        simp only [_openremoteslide_tiff_level_init, hsd, Bool.true_eq_false, if_false]
        cases htw : tiff1.tags.tile_width with
        | none => exact Or.inl ⟨_, rfl⟩
        | some tw =>
        cases hth : tiff1.tags.tile_length with
        | none => exact Or.inl ⟨_, rfl⟩
        | some th =>
        cases hiw : tiff1.tags.image_width with
        | none => exact Or.inl ⟨_, rfl⟩
        | some iw =>
        cases hih : tiff1.tags.image_length with
        | none => exact Or.inl ⟨_, rfl⟩
        | some ih =>
        cases hcomp : tiff1.tags.compression with
        | none => exact Or.inl ⟨_, rfl⟩
        | some comp =>
        cases hplanar : tiff1.tags.planar_config with
        | none => exact Or.inl ⟨_, rfl⟩
        | some planar =>
        cases hphoto : tiff1.tags.photometric with
        | none => exact Or.inl ⟨_, rfl⟩
        | some photo =>
        cases hbps : tiff1.tags.bits_per_sample with
        | none => exact Or.inl ⟨_, rfl⟩
        | some bps =>
        cases hspp : tiff1.tags.samples_per_pixel with
        | none => exact Or.inl ⟨_, rfl⟩
        | some spp =>
          right
          have htw0 : tw ≠ 0 := fun h => hw (by rw [htw, h])
          have hth0 : th ≠ 0 := fun h => hl (by rw [hth, h])
          simp only [getFieldOrFail]
          cases tiffl with
          | none => exact ⟨_, _, _, rfl, fun tl h => by cases h⟩
          | some tl0 =>
            simp only [htw0, hth0, or_self, if_false]
            refine ⟨_, _, _, rfl, ?_⟩
            intro tl h
            simp only [Option.some.injEq] at h
            subst h
            simp only
            exact ⟨by exact_mod_cast htw0, by exact_mod_cast hth0⟩
  refine ⟨?_, hmain, ?_⟩
  · rcases hmain with h | ⟨tag, h⟩ | ⟨a, b, c, h, _⟩ <;> rw [h] <;> simp
  · intro t hother hget hzero
    simp only [_openremoteslide_tiff_level_init,
      tiff_set_dir_refused tiff dir t hother hget hzero, if_true]

/-- C30 (code bug): `_openremoteslide_tiff_level_init` divides by zero when it
is called again for a directory that libtiff has refused.  Let directory `dir`
of the file, other than the current one, hold all nine required tags and a
tile width or tile length of 0.  A first call for `dir` fails with "Cannot set
TIFF directory", `TIFFSetDirectory` returning 0; but libtiff leaves the handle
positioned on `dir` with the tags it has read.  A second call for `dir` on that
handle, with a level descriptor to fill, finds `dir` to be the current
directory, skips `TIFFSetDirectory`, gets all nine tags and evaluates `iw / tw`
(or `ih / th`) with a zero divisor: it neither rejects the directory nor
returns counts. -/
theorem tiff_level_init_divides_by_zero (tiff : Tiff) (dir : Nat) (level : Option Level)
    (tiffl : TiffLevel) (t : TiffDirTags) (tw th iw ih comp planar photo bps spp : Nat)
    (hother : dir ≠ tiff.cur) (hget : tiff.dirs.get? dir = some t)
    (htw : t.tile_width = some tw) (hth : t.tile_length = some th)
    (hiw : t.image_width = some iw) (hih : t.image_length = some ih)
    (hcomp : t.compression = some comp) (hplanar : t.planar_config = some planar)
    (hphoto : t.photometric = some photo) (hbps : t.bits_per_sample = some bps)
    (hspp : t.samples_per_pixel = some spp) (hzero : tw = 0 ∨ th = 0) :
    _openremoteslide_tiff_level_init tiff dir level (some tiffl) = .set_dir_failed ∧
    (_openremoteslide_tiff_set_dir tiff dir).1 = { tiff with cur := dir, tags := t } ∧
    _openremoteslide_tiff_level_init (_openremoteslide_tiff_set_dir tiff dir).1 dir level
      (some tiffl) = .undefined := by
  have hz : t.tile_width = some 0 ∨ t.tile_length = some 0 := by
    rcases hzero with h | h
    · exact Or.inl (by rw [htw, h])
    · exact Or.inr (by rw [hth, h])
  have hsd := tiff_set_dir_refused tiff dir t hother hget hz
  refine ⟨?_, by rw [hsd], ?_⟩
  · simp only [_openremoteslide_tiff_level_init, hsd, if_true]
  · rw [hsd]
    have hsame : _openremoteslide_tiff_set_dir { tiff with cur := dir, tags := t } dir
        = ({ tiff with cur := dir, tags := t }, true) := by
      unfold _openremoteslide_tiff_set_dir
      rw [if_pos rfl]
    simp only [_openremoteslide_tiff_level_init, hsame, getFieldOrFail, htw, hth, hiw, hih,
      hcomp, hplanar, hphoto, hbps, hspp, hzero, if_true]
    rfl

/-- Witness for C30: on a handle positioned on directory 0 (`sampleTags`) of a
file whose directory 1 has a tile width of 0, the first call for directory 1
fails and leaves the handle on directory 1; the second call for directory 1
divides by zero. -/
theorem tiff_level_init_divides_by_zero_witness :
    _openremoteslide_tiff_level_init zeroTileWidthTiff 1 none (some zeroTiffLevel)
      = .set_dir_failed ∧
    (_openremoteslide_tiff_set_dir zeroTileWidthTiff 1).1
      = { zeroTileWidthTiff with cur := 1, tags := zeroTileWidthTags } ∧
    _openremoteslide_tiff_level_init (_openremoteslide_tiff_set_dir zeroTileWidthTiff 1).1 1
      none (some zeroTiffLevel) = .undefined :=
  tiff_level_init_divides_by_zero zeroTileWidthTiff 1 none zeroTiffLevel zeroTileWidthTags
    0 256 300 200 7 1 6 8 3 (by decide) rfl rfl rfl rfl rfl rfl rfl rfl rfl rfl (Or.inl rfl)

end OpenRemoteSlide
